import Mathlib

/-!
# AutoQuad motor output core (`onboard/motors.c`)

A shallow embedding of `motors.c` and a verification of its specification.

Modelling conventions
* C `float` values are exact rationals (`ℚ`): rounding, overflow and NaN are
  not modelled.  A float converted to a C integer is truncated toward zero
  (`floatToInt`).
* The global variables read or written by `motors.c` (`p`, `supervisorData`,
  `analogData`, `motorsData`, the pulse registers and the CAN bus) are the
  fields of one record, `World`, which every function takes and returns.
* A `for (i = 0; i < MOTORS_NUM; i++)` loop is a left fold of its body over
  `List.range MOTORS_NUM`.
* Arrays are functions from the index; pointers are `Option` values, `none`
  being the null pointer left by `memset`.
-/

namespace Motors

/-! ## Constants and types declared in headers outside `motors.c` -/

/-- Compile-time constants of the build (`motors.h`, `pwm.h`), taken as
parameters because the headers are not part of the verified file. -/
structure Build where
  MOTORS_NUM : Nat
  PWM_NUM_PORTS : Nat
  MOTORS_SCALE : Int
  MOTORS_THROTTLE_LIMITER : ℚ
  MOTORS_CELL_VOLTS : ℚ
  USE_L1_ATTITUDE : Bool

/-- Modelled from the spec: the group capacity `MOTORS_CAN_GROUP_SIZE`, which
`motors.h` defines; the spec fixes it ("groups of 4", a "4-value record"). -/
def MOTORS_CAN_GROUP_SIZE : Nat := 4

/-- One row of the power distribution table (`motorsPowerStruct_t`). -/
structure motorsPowerStruct_t where
  throttle : ℚ
  pitch : ℚ
  roll : ℚ
  yaw : ℚ

/-- The configuration parameters `p[...]` that `motors.c` reads. -/
structure Config where
  MOT_FRAME : ℚ
  MOT_MIN : ℚ
  MOT_START : ℚ
  MOT_MAX : ℚ
  MOT_ARM : ℚ
  MOT_CAN : ℚ
  MOT_PWRD : Nat → motorsPowerStruct_t

/-- A group record of four 16 bit setpoints (`canGroup16_t`). -/
structure canGroup16_t where
  value1 : Int
  value2 : Int
  value3 : Int
  value4 : Int
deriving DecidableEq

/-- A node of the CAN directory (`canNodes_t`); only `nodeId` is read. -/
structure canNodes_t where
  nodeId : Nat
deriving DecidableEq

/-- A pulse output port (`pwmPortStruct_t`); `ccr` is the address of its
compare register. -/
structure pwmPortStruct_t where
  ccr : Nat
deriving DecidableEq

/-- The fields of `analogData` read by `motorsCommands`. -/
structure analogStruct_t where
  batCellCount : ℚ
  vIn : ℚ

/-- The module state (`motorsStruct_t`).  `distribution` points into the
parameter table and is modelled by the table it points to; `canPtrs i` points
to field `f` of `canGroups[g]` when it is `some (g, f)`. -/
structure motorsStruct_t where
  distribution : Nat → motorsPowerStruct_t
  pwm : Nat → Option pwmPortStruct_t
  can : Nat → Option canNodes_t
  canPtrs : Nat → Option (Nat × Fin 4)
  canGroups : Nat → canGroup16_t
  pitch : ℚ
  roll : ℚ
  yaw : ℚ
  throttle : ℚ
  throttleLimiter : ℚ
  value : Nat → Int
  numGroups : Nat
  active : Nat → Bool

/-- Calls made to the CAN driver, in the order they are made. `arm` and
`disarm` are the group-scoped commands (`CAN_TT_GROUP`); `getState` records a
read of `*canGetState(nodeId)` with the state that was read. -/
inductive CanCall where
  | setpoint16 (group : Nat) (frame : canGroup16_t)
  | setGroup (nodeId : Nat) (group : Nat) (subGroup : Nat)
  | esc32Setup (nodeId : Nat) (closedLoop : Bool)
  | arm (group : Nat)
  | disarm (group : Nat)
  | getState (nodeId : Nat) (state : Nat)
deriving DecidableEq

/-- Messages given to `AQ_NOTICE` and `AQ_PRINTF`. -/
inductive Notice where
  | motorsInit
  | predefinedFrame
  | cannotFindCan (id : Nat)
  | pitchImbalance
  | rollImbalance
  | yawImbalance
deriving DecidableEq

/-- Everything `motors.c` reads or writes.  `armed` is
`supervisorData.state & STATE_ARMED`; `ccr a` is the content of the pulse
register at address `a` (the integer assigned to it); `canLog` and `notices`
record the driver calls and log messages, newest last; `canFindNode` is the
directory lookup `canFindNode(CAN_TYPE_ESC, id)` and `pwmInitOut port
closedLoop` the pulse driver's port allocation. -/
structure World where
  p : Config
  armed : Bool
  analogData : analogStruct_t
  motorsData : motorsStruct_t
  ccr : Nat → Int
  canLog : List CanCall
  notices : List Notice
  canFindNode : Nat → Option canNodes_t
  pwmInitOut : Nat → Bool → Option pwmPortStruct_t

/-! ## Helpers of `util.c` and C conversions -/

/-- Conversion of a float to a C integer: truncation toward zero. -/
def floatToInt (x : ℚ) : Int := if 0 ≤ x then ⌊x⌋ else ⌈x⌉

/-- Modelled from the spec: `constrainInt` of `util.c`, the "clamp" of an
integer to `[lo, hi]`. -/
def constrainInt (i lo hi : Int) : Int :=
  if i < lo then lo else if i > hi then hi else i

/-- Modelled from the spec: `constrainFloat` of `util.c`, the "clamp" of a
float to `[lo, hi]`. -/
def constrainFloat (x lo hi : ℚ) : ℚ :=
  if x < lo then lo else if x > hi then hi else x

/-- A store to an unsigned 16 bit location. -/
def toUint16 (x : Int) : Int := x % 65536

/-- The store `*ptr = v` for a pointer to field `f` of a group record. -/
def canGroup16_t.set (r : canGroup16_t) (f : Fin 4) (v : Int) : canGroup16_t :=
  match f with
  | 0 => { r with value1 := v }
  | 1 => { r with value2 := v }
  | 2 => { r with value3 := v }
  | 3 => { r with value4 := v }

/-- The load `*ptr` for a pointer to field `f` of a group record. -/
def canGroup16_t.get (r : canGroup16_t) (f : Fin 4) : Int :=
  match f with
  | 0 => r.value1
  | 1 => r.value2
  | 2 => r.value3
  | 3 => r.value4

/-! ## State updates -/

/-- The store `motorsData.value[i] = v`. -/
def World.setValue (w : World) (i : Nat) (v : Int) : World :=
  { w with motorsData := { w.motorsData with value := Function.update w.motorsData.value i v } }

/-- The store `*port->ccr = v`. -/
def World.writeCcr (w : World) (port : pwmPortStruct_t) (v : Int) : World :=
  { w with ccr := Function.update w.ccr port.ccr v }

/-- The store `*motorsData.canPtrs[i] = v` through a pointer to a 16 bit
field; a null pointer is not dereferenced in the model. -/
def World.writeCanPtr (w : World) (ptr : Option (Nat × Fin 4)) (v : Int) : World :=
  { w with motorsData := { w.motorsData with
      canGroups :=
        match ptr with
        | none => w.motorsData.canGroups
        | some (g, f) =>
          Function.update w.motorsData.canGroups g
            ((w.motorsData.canGroups g).set f (toUint16 v)) } }

/-- The content of field `f` of group record `g`. -/
def World.canField (w : World) (g : Nat) (f : Fin 4) : Int :=
  (w.motorsData.canGroups g).get f

/-- A call of the CAN driver, appended to the log. -/
def World.canCall (w : World) (c : CanCall) : World :=
  { w with canLog := w.canLog ++ [c] }

/-- A message of `AQ_NOTICE` or `AQ_PRINTF`, appended to the log. -/
def World.notice (w : World) (n : Notice) : World :=
  { w with notices := w.notices ++ [n] }

/-- The test `i < PWM_NUM_PORTS && motorsData.pwm[i]`. -/
def pwmBound (B : Build) (w : World) (i : Nat) : Bool :=
  decide (i < B.PWM_NUM_PORTS) && (w.motorsData.pwm i).isSome

/-- The test of the `else if (motorsData.can[i])` branch: reached only when
the pulse test fails. -/
def canBound (B : Build) (w : World) (i : Nat) : Bool :=
  !pwmBound B w i && (w.motorsData.can i).isSome

/-! ## `motorsCanSendGroups`, `motorsSendValues`, `motorsOff` -/

/-- The function `motorsCanSendGroups`: one `canCommandSetpoint16` per group. -/
def motorsCanSendGroups (w : World) : World :=
  (List.range w.motorsData.numGroups).foldl
    (fun w i => w.canCall (CanCall.setpoint16 (i + 1) (w.motorsData.canGroups i))) w

/-- The pulse value of an armed slot holding the (already constrained) value
`v`. -/
def pwmValue (B : Build) (p : Config) (v : Int) : Int :=
  constrainInt (floatToInt ((v : ℚ) * (p.MOT_MAX - p.MOT_MIN) / (B.MOTORS_SCALE : ℚ) + p.MOT_MIN))
    (floatToInt p.MOT_START) (floatToInt p.MOT_MAX)

/-- The CAN setpoint of an armed slot holding the (already constrained) value
`v`, before it is stored in the 16 bit field. -/
def canValue (B : Build) (v : Int) : Int :=
  constrainInt v (floatToInt ((B.MOTORS_SCALE : ℚ) * (1 / 10))) B.MOTORS_SCALE <<< 4

/-- The body of the loop of `motorsSendValues` for index `i`. -/
def motorsSendValuesSlot (B : Build) (w : World) (i : Nat) : World :=
  if w.motorsData.active i then
    let w := w.setValue i (constrainInt (w.motorsData.value i) 0 B.MOTORS_SCALE)
    if pwmBound B w i then
      match w.motorsData.pwm i with
      | some port =>
        if w.armed then w.writeCcr port (pwmValue B w.p (w.motorsData.value i))
        else w.writeCcr port 0
      | none => w
    else if (w.motorsData.can i).isSome then
      if w.armed then w.writeCanPtr (w.motorsData.canPtrs i) (canValue B (w.motorsData.value i))
      else w.writeCanPtr (w.motorsData.canPtrs i) 0
    else w
  else w

/-- The loop of `motorsSendValues` run for the indices below `n`. -/
def motorsSendValuesLoop (B : Build) (n : Nat) (w : World) : World :=
  (List.range n).foldl (motorsSendValuesSlot B) w

/-- The function `motorsSendValues`. -/
def motorsSendValues (B : Build) (w : World) : World :=
  motorsCanSendGroups (motorsSendValuesLoop B B.MOTORS_NUM w)

/-- The body of the loop of `motorsOff` for index `i`. -/
def motorsOffSlot (B : Build) (w : World) (i : Nat) : World :=
  if w.motorsData.active i then
    let w := w.setValue i 0
    if pwmBound B w i then
      match w.motorsData.pwm i with
      | some port => w.writeCcr port (if w.armed then floatToInt w.p.MOT_ARM else 0)
      | none => w
    else if (w.motorsData.can i).isSome then
      w.writeCanPtr (w.motorsData.canPtrs i) 0
    else w
  else w

/-- The loop of `motorsOff` run for the indices below `n`. -/
def motorsOffLoop (B : Build) (n : Nat) (w : World) : World :=
  (List.range n).foldl (motorsOffSlot B) w

/-- The function `motorsOff`. -/
def motorsOff (B : Build) (w : World) : World :=
  let w := motorsCanSendGroups (motorsOffLoop B B.MOTORS_NUM w)
  { w with motorsData := { w.motorsData with throttle := 0, throttleLimiter := 0 } }

/-! ## `motorsCommands` -/

/-- The voltage factor computed by `motorsCommands`. -/
def voltageFactor (B : Build) (a : analogStruct_t) : ℚ :=
  let nominalBatVolts := B.MOTORS_CELL_VOLTS * a.batCellCount
  1 + (nominalBatVolts - a.vIn) / nominalBatVolts

/-- The float `value` of a slot with distribution row `d`, as it stands before
the over-throttle check of `motorsCommands`. -/
def mixValue (throttle pitchCommand rollCommand ruddCommand voltageFactor : ℚ)
    (d : motorsPowerStruct_t) : ℚ :=
  let value : ℚ := 0
  let value := value + throttle * d.throttle * (1 / 100)
  let value := value + pitchCommand * d.pitch * (1 / 100)
  let value := value + rollCommand * d.roll * (1 / 100)
  let value := value + ruddCommand * d.yaw * (1 / 100)
  value * voltageFactor

/-- The body of the loop of `motorsCommands` for index `i`. -/
def motorsCommandsSlot (B : Build) (throttle pitchCommand rollCommand ruddCommand voltageFactor : ℚ)
    (w : World) (i : Nat) : World :=
  if w.motorsData.active i then
    let d := w.motorsData.distribution i
    let value := mixValue throttle pitchCommand rollCommand ruddCommand voltageFactor d
    let w :=
      if value ≥ (B.MOTORS_SCALE : ℚ) then
        { w with motorsData := { w.motorsData with
            throttleLimiter := w.motorsData.throttleLimiter + B.MOTORS_THROTTLE_LIMITER } }
      else w
    w.setValue i (constrainInt (floatToInt value) 0 B.MOTORS_SCALE)
  else w

/-- The loop of `motorsCommands` run for the indices below `n`. -/
def motorsCommandsLoop (B : Build) (throttle pitchCommand rollCommand ruddCommand voltageFactor : ℚ)
    (n : Nat) (w : World) : World :=
  (List.range n).foldl
    (motorsCommandsSlot B throttle pitchCommand rollCommand ruddCommand voltageFactor) w

/-- The upper bound `MOTORS_SCALE/4` of the throttle limiter: an integer
quotient, converted to float. -/
def limiterMax (B : Build) : ℚ := ((Int.tdiv B.MOTORS_SCALE 4 : Int) : ℚ)

/-- The local `throttle` of `motorsCommands`: the effective throttle. -/
def effectiveThrottle (B : Build) (w : World) (throtCommand : ℚ) : ℚ :=
  constrainFloat (throtCommand - w.motorsData.throttleLimiter) 0 (B.MOTORS_SCALE : ℚ)

/-- The function `motorsCommands`. -/
def motorsCommands (B : Build) (throtCommand pitchCommand rollCommand ruddCommand : ℚ)
    (w : World) : World :=
  let throttle := effectiveThrottle B w throtCommand
  let voltageFactor := voltageFactor B w.analogData
  let w := motorsCommandsLoop B throttle pitchCommand rollCommand ruddCommand voltageFactor
    B.MOTORS_NUM w
  let w := motorsSendValues B w
  let w := { w with motorsData := { w.motorsData with
    throttleLimiter :=
      constrainFloat (w.motorsData.throttleLimiter - B.MOTORS_THROTTLE_LIMITER) 0 (limiterMax B) } }
  { w with motorsData := { w.motorsData with
      pitch := pitchCommand, roll := rollCommand, yaw := ruddCommand, throttle := throttle } }

/-! ## Initialisation -/

/-- The function `motorsCanInit`. -/
def motorsCanInit (B : Build) (w : World) (i : Nat) : World :=
  let node := w.canFindNode (i + 1)
  let w := { w with motorsData := { w.motorsData with
    can := Function.update w.motorsData.can i node } }
  match node with
  | none => w.notice (Notice.cannotFindCan (i + 1))
  | some n => w.canCall (CanCall.esc32Setup n.nodeId B.USE_L1_ATTITUDE)

/-- The function `motorsPwmInit`. -/
def motorsPwmInit (B : Build) (w : World) (i : Nat) : World :=
  { w with motorsData := { w.motorsData with
      pwm := Function.update w.motorsData.pwm i (w.pwmInitOut i B.USE_L1_ATTITUDE) } }

/-- The loop state of `motorsSetCanGroup`: the locals `group` and `subGroup`
and the globals. -/
structure GroupCursor where
  group : Nat
  subGroup : Nat
  world : World

/-- The body of the loop of `motorsSetCanGroup` for index `i`. -/
def motorsSetCanGroupSlot (c : GroupCursor) (i : Nat) : GroupCursor :=
  match c.world.motorsData.can i with
  | none => c
  | some node =>
    let w := c.world.canCall (CanCall.setGroup node.nodeId (c.group + 1) (c.subGroup + 1))
    let w : World :=
      match c.subGroup with
      | 0 => { w with motorsData := { w.motorsData with
                canPtrs := Function.update w.motorsData.canPtrs i (some (c.group, 0)),
                numGroups := w.motorsData.numGroups + 1 } }
      | 1 => { w with motorsData := { w.motorsData with
                canPtrs := Function.update w.motorsData.canPtrs i (some (c.group, 1)) } }
      | 2 => { w with motorsData := { w.motorsData with
                canPtrs := Function.update w.motorsData.canPtrs i (some (c.group, 2)) } }
      | 3 => { w with motorsData := { w.motorsData with
                canPtrs := Function.update w.motorsData.canPtrs i (some (c.group, 3)) } }
      | _ => w
    let subGroup := c.subGroup + 1
    if subGroup = MOTORS_CAN_GROUP_SIZE then
      { group := c.group + 1, subGroup := 0, world := w }
    else
      { group := c.group, subGroup := subGroup, world := w }

/-- The loop of `motorsSetCanGroup` run for the indices below `n`. -/
def motorsSetCanGroupLoop (n : Nat) (w : World) : GroupCursor :=
  (List.range n).foldl motorsSetCanGroupSlot { group := 0, subGroup := 0, world := w }

/-- The function `motorsSetCanGroup`. -/
def motorsSetCanGroup (B : Build) (w : World) : World :=
  (motorsSetCanGroupLoop B.MOTORS_NUM w).world

/-- The all-zero `motorsData` left by `memset`. -/
def motorsStruct_t.zero : motorsStruct_t where
  distribution := fun _ => { throttle := 0, pitch := 0, roll := 0, yaw := 0 }
  pwm := fun _ => none
  can := fun _ => none
  canPtrs := fun _ => none
  canGroups := fun _ => { value1 := 0, value2 := 0, value3 := 0, value4 := 0 }
  pitch := 0
  roll := 0
  yaw := 0
  throttle := 0
  throttleLimiter := 0
  value := fun _ => 0
  numGroups := 0
  active := fun _ => false

/-- The loop state of `motorsInit`: the coefficient sums and the globals. -/
structure InitCursor where
  sumPitch : ℚ
  sumRoll : ℚ
  sumYaw : ℚ
  world : World

/-- The test `((uint32_t)p[MOT_CAN]) & (1<<i)`. -/
def canSelected (p : Config) (i : Nat) : Bool :=
  Nat.testBit ((floatToInt p.MOT_CAN).toNat % 4294967296) i

/-- The body of the loop of `motorsInit` for index `i`. -/
def motorsInitSlot (B : Build) (c : InitCursor) (i : Nat) : InitCursor :=
  let d := c.world.motorsData.distribution i
  if d.throttle ≠ 0 ∨ d.pitch ≠ 0 ∨ d.roll ≠ 0 ∨ d.yaw ≠ 0 then
    let w :=
      if canSelected c.world.p i then motorsCanInit B c.world i
      else if i < B.PWM_NUM_PORTS then motorsPwmInit B c.world i
      else c.world
    let w := { w with motorsData := { w.motorsData with
      active := Function.update w.motorsData.active i true } }
    { sumPitch := c.sumPitch + d.pitch, sumRoll := c.sumRoll + d.roll,
      sumYaw := c.sumYaw + d.yaw, world := w }
  else c

/-- The function `motorsInit`. -/
def motorsInit (B : Build) (w : World) : World :=
  let w := w.notice Notice.motorsInit
  let w := { w with motorsData := motorsStruct_t.zero }
  if w.p.MOT_FRAME > 1 / 100 ∧ w.p.MOT_FRAME < 401 / 100 then
    w.notice Notice.predefinedFrame
  else
    let w := { w with motorsData := { w.motorsData with distribution := w.p.MOT_PWRD } }
    let c := (List.range B.MOTORS_NUM).foldl (motorsInitSlot B)
      { sumPitch := 0, sumRoll := 0, sumYaw := 0, world := w }
    let w := c.world
    let w := if |c.sumPitch| > 1 / 100 then w.notice Notice.pitchImbalance else w
    let w := if |c.sumRoll| > 1 / 100 then w.notice Notice.rollImbalance else w
    let w := if |c.sumYaw| > 1 / 100 then w.notice Notice.yawImbalance else w
    motorsOff B (motorsSetCanGroup B w)

/-- States reached from `motorsInit` by calls of the public output functions,
other subsystems being free to change every global but `motorsData` between
calls (commands, voltages, armed flag, registers). -/
inductive Reachable (B : Build) : World → Prop where
  | init (w : World) : Reachable B (motorsInit B w)
  | commands (throtCommand pitchCommand rollCommand ruddCommand : ℚ) (w : World) :
      Reachable B w → Reachable B (motorsCommands B throtCommand pitchCommand rollCommand ruddCommand w)
  | sendValues (w : World) : Reachable B w → Reachable B (motorsSendValues B w)
  | off (w : World) : Reachable B w → Reachable B (motorsOff B w)
  | others (w w2 : World) : Reachable B w → w2.motorsData = w.motorsData → Reachable B w2

/-! ## Arming -/

/-- The part of the CAN bus that `motorsArm` observes. `ESC32_STATE_DISARMED`
is the enumerated state of `esc32.h`, taken as a parameter; `canGetState c id`
is the state that node `id` reports once the calling task has yielded `c`
times, the other tasks running during each `yield(1)`. -/
structure EscBus where
  ESC32_STATE_DISARMED : Nat
  canGetState : Nat → Nat → Nat

/-- The loop `while (*canGetState(nodeId) == ESC32_STATE_DISARMED) yield(1);`
run with at most `fuel` reads, from the yield count `clock`: the yield count
and the state when the loop exits, or `none` when the reads are used up. -/
def motorsArmWait (E : EscBus) (nodeId : Nat) : Nat → Nat → World → Option (Nat × World)
  | 0, _, _ => none
  | fuel + 1, clock, w =>
    let state := E.canGetState clock nodeId
    let w := w.canCall (CanCall.getState nodeId state)
    if state = E.ESC32_STATE_DISARMED then motorsArmWait E nodeId fuel (clock + 1) w
    else some (clock, w)

/-- The body of the second loop of `motorsArm` for index `i`. -/
def motorsArmSlot (E : EscBus) (fuel : Nat) (s : Option (Nat × World)) (i : Nat) :
    Option (Nat × World) :=
  match s with
  | none => none
  | some (clock, w) =>
    match w.motorsData.can i with
    | none => some (clock, w)
    | some node => motorsArmWait E node.nodeId fuel clock w

/-- The first loop of `motorsArm`: one `canCommandArm` per group. -/
def motorsArmGroups (w : World) : World :=
  (List.range w.motorsData.numGroups).foldl (fun w i => w.canCall (CanCall.arm (i + 1))) w

/-- The second loop of `motorsArm` run for the indices below `n`. -/
def motorsArmLoop (E : EscBus) (fuel : Nat) (n : Nat) (w : World) : Option (Nat × World) :=
  (List.range n).foldl (motorsArmSlot E fuel) (some (0, motorsArmGroups w))

/-- The function `motorsArm`, each wait loop being given `fuel` reads: the
number of `yield(1)` calls made and the state on return, or `none` when a wait
loop used up its reads. -/
def motorsArm (B : Build) (E : EscBus) (fuel : Nat) (w : World) : Option (Nat × World) :=
  motorsArmLoop E fuel B.MOTORS_NUM w

/-- The function `motorsDisarm`: one `canCommandDisarm` per group. -/
def motorsDisarm (w : World) : World :=
  (List.range w.motorsData.numGroups).foldl (fun w i => w.canCall (CanCall.disarm (i + 1))) w

/-- The arm commands of `motorsArm`: group ids 1 to the group count. -/
def armCalls (w : World) : List CanCall :=
  (List.range w.motorsData.numGroups).map (fun i => CanCall.arm (i + 1))

/-- The disarm commands of `motorsDisarm`: group ids 1 to the group count. -/
def disarmCalls (w : World) : List CanCall :=
  (List.range w.motorsData.numGroups).map (fun i => CanCall.disarm (i + 1))

/-- The state last read from node `nodeId` according to the log, if any. -/
def lastRead (log : List CanCall) (nodeId : Nat) : Option Nat :=
  log.foldl (fun acc c =>
    match c with
    | CanCall.getState n state => if n = nodeId then some state else acc
    | _ => acc) none

/-- The log entry is a state read. -/
def isStateRead (c : CanCall) : Prop := ∃ n state, c = CanCall.getState n state

/-- The invariant of the second loop of `motorsArm` after `n` iterations from
`w`, when no wait loop has used up its reads. -/
structure ArmInv (E : EscBus) (w : World) (n : Nat) (clock : Nat) (w2 : World) : Prop where
  motorsData : w2.motorsData = w.motorsData
  log : ∃ polls, w2.canLog = w.canLog ++ armCalls w ++ polls ∧ ∀ c ∈ polls, isStateRead c
  read : ∀ i node, i < n → w.motorsData.can i = some node →
    ∃ state, lastRead w2.canLog node.nodeId = some state ∧ state ≠ E.ESC32_STATE_DISARMED

/-- A bus on which every node reports the disarmed state 0 until the caller
has yielded twice, and the state 1 from then on. -/
def demoBus : EscBus where
  ESC32_STATE_DISARMED := 0
  canGetState := fun clock _ => if clock < 2 then 0 else 1

/-! ## Vocabulary of the statements -/

/-- The parts of the state that the output functions only read. -/
def SameSetup (w w2 : World) : Prop :=
  w2.p = w.p ∧ w2.armed = w.armed ∧ w2.analogData = w.analogData ∧
  w2.motorsData.active = w.motorsData.active ∧ w2.motorsData.pwm = w.motorsData.pwm ∧
  w2.motorsData.can = w.motorsData.can ∧ w2.motorsData.canPtrs = w.motorsData.canPtrs ∧
  w2.motorsData.numGroups = w.motorsData.numGroups ∧
  w2.motorsData.distribution = w.motorsData.distribution

/-- The frames sent by `motorsCanSendGroups`: group `i + 1` carries record `i`. -/
def groupFrames (w : World) : List CanCall :=
  (List.range w.motorsData.numGroups).map
    (fun i => CanCall.setpoint16 (i + 1) (w.motorsData.canGroups i))

/-- The common shape of the loop bodies of `motorsSendValues` and `motorsOff`:
an active slot stores `v`, then its pulse register receives `pv` or else its
group field receives `cv`. -/
def outputSlot (B : Build) (w : World) (i : Nat) (v pv cv : Int) : World :=
  if w.motorsData.active i = true then
    if pwmBound B w i = true then
      match w.motorsData.pwm i with
      | some port => (w.setValue i v).writeCcr port pv
      | none => w.setValue i v
    else if (w.motorsData.can i).isSome = true then
      (w.setValue i v).writeCanPtr (w.motorsData.canPtrs i) cv
    else w.setValue i v
  else w

/-- The value `motorsSendValues` gives the pulse register of a slot holding
`v`. -/
def sentPwm (B : Build) (w : World) (v : Int) : Int :=
  if w.armed then pwmValue B w.p (constrainInt v 0 B.MOTORS_SCALE) else 0

/-- The value `motorsSendValues` assigns to the group field of a slot holding
`v`. -/
def sentCan (B : Build) (w : World) (v : Int) : Int :=
  if w.armed then canValue B (constrainInt v 0 B.MOTORS_SCALE) else 0

/-- The value `motorsOff` gives a pulse register. -/
def offPwm (w : World) : Int := if w.armed then floatToInt w.p.MOT_ARM else 0

/-- Iteration `j` of the output loops stores to the pulse register at
address `a`. -/
def WritesCcr (B : Build) (w : World) (a : Nat) (j : Nat) : Prop :=
  w.motorsData.active j = true ∧ j < B.PWM_NUM_PORTS ∧
    ∃ port, w.motorsData.pwm j = some port ∧ port.ccr = a

/-- Iteration `j` of the output loops stores to field `f` of group record
`g`. -/
def WritesCan (B : Build) (w : World) (g : Nat) (f : Fin 4) (j : Nat) : Prop :=
  w.motorsData.active j = true ∧ canBound B w j = true ∧ w.motorsData.canPtrs j = some (g, f)

/-- The pre-clamp mix value of slot `i` in the cycle that `motorsCommands`
runs from state `w`. -/
def cycleMix (B : Build) (w : World) (throtCommand pitchCommand rollCommand ruddCommand : ℚ)
    (i : Nat) : ℚ :=
  mixValue (effectiveThrottle B w throtCommand) pitchCommand rollCommand ruddCommand
    (voltageFactor B w.analogData) (w.motorsData.distribution i)

/-- Slot `i` is active and its pre-clamp mix value reaches `MOTORS_SCALE` in
the cycle run from state `w`. -/
def cycleSaturates (B : Build) (w : World)
    (throtCommand pitchCommand rollCommand ruddCommand : ℚ) (i : Nat) : Bool :=
  w.motorsData.active i &&
    decide (cycleMix B w throtCommand pitchCommand rollCommand ruddCommand i
      ≥ (B.MOTORS_SCALE : ℚ))

/-- The number of saturating slots among the first `n` in the cycle run from
state `w`. -/
def saturatingSlots (B : Build) (w : World)
    (throtCommand pitchCommand rollCommand ruddCommand : ℚ) (n : Nat) : Nat :=
  (List.range n).countP (cycleSaturates B w throtCommand pitchCommand rollCommand ruddCommand)

/-- The state in which `motorsCommands` calls `motorsSendValues`. -/
def mixedWorld (B : Build) (t pc rc yc : ℚ) (w : World) : World :=
  motorsCommandsLoop B (effectiveThrottle B w t) pc rc yc (voltageFactor B w.analogData)
    B.MOTORS_NUM w

/-- The number of slots below `n` with a resolved networked node: for a
networked slot `n`, its 0-based position among the networked slots. -/
def canCount (w : World) (n : Nat) : Nat :=
  (List.range n).countP (fun j => (w.motorsData.can j).isSome)

/-- Field position `k % 4` of a group record. -/
def fieldOf (k : Nat) : Fin 4 := ⟨k % 4, Nat.mod_lt k (by decide)⟩

/-- The `canSetGroup` calls for the networked slots below `n`, in index order:
the slot at position `k` is told group `k / 4 + 1` and sub-group `k % 4 + 1`. -/
def groupCalls (w : World) (n : Nat) : List CanCall :=
  (List.range n).filterMap (fun i =>
    (w.motorsData.can i).map (fun node =>
      CanCall.setGroup node.nodeId (canCount w i / 4 + 1) (canCount w i % 4 + 1)))

/-- The loop invariant of `motorsSetCanGroup` after `n` iterations from `w`. -/
structure GroupInv (w : World) (n : Nat) (c : GroupCursor) : Prop where
  group : c.group = canCount w n / 4
  subGroup : c.subGroup = canCount w n % 4
  can : c.world.motorsData.can = w.motorsData.can
  numGroups : c.world.motorsData.numGroups = w.motorsData.numGroups + (canCount w n + 3) / 4
  canPtrs : ∀ i, c.world.motorsData.canPtrs i =
    if i < n ∧ (w.motorsData.can i).isSome = true then
      some (canCount w i / 4, fieldOf (canCount w i))
    else w.motorsData.canPtrs i
  canLog : c.world.canLog = w.canLog ++ groupCalls w n
  active : c.world.motorsData.active = w.motorsData.active
  pwm : c.world.motorsData.pwm = w.motorsData.pwm
  canGroups : c.world.motorsData.canGroups = w.motorsData.canGroups
  value : c.world.motorsData.value = w.motorsData.value
  limiter : c.world.motorsData.throttleLimiter = w.motorsData.throttleLimiter
  ccr : c.world.ccr = w.ccr
  armed : c.world.armed = w.armed
  p : c.world.p = w.p

/-! ## Vocabulary of initialisation -/

/-- The test of `motorsInit` on a distribution row: some coefficient is not
zero. -/
def rowNonzero (d : motorsPowerStruct_t) : Prop :=
  d.throttle ≠ 0 ∨ d.pitch ≠ 0 ∨ d.roll ≠ 0 ∨ d.yaw ≠ 0

instance rowNonzero_decidable (d : motorsPowerStruct_t) : Decidable (rowNonzero d) := by
  unfold rowNonzero
  infer_instance

/-- An all-zero distribution row: a motor that is not fitted. -/
def zeroRow : motorsPowerStruct_t := { throttle := 0, pitch := 0, roll := 0, yaw := 0 }

/-- The legacy frame-type test of `motorsInit`: `MOT_FRAME` selects a
predefined frame type. -/
def frameRejected (p : Config) : Prop :=
  p.MOT_FRAME > 1 / 100 ∧ p.MOT_FRAME < 401 / 100

/-- The state of `motorsInit` when it enters its loop: `motorsData` zeroed and
`distribution` pointing to the parameter table. -/
def initStart (w : World) : World :=
  { w.notice Notice.motorsInit with
      motorsData := { motorsStruct_t.zero with distribution := w.p.MOT_PWRD } }

/-- The loop of `motorsInit` run for the indices below `n`. -/
def initLoop (B : Build) (n : Nat) (w : World) : InitCursor :=
  (List.range n).foldl (motorsInitSlot B)
    { sumPitch := 0, sumRoll := 0, sumYaw := 0, world := initStart w }

/-- The state of `motorsInit` after its loop and its three balance warnings,
when it calls `motorsSetCanGroup`. -/
def initNoticed (B : Build) (w : World) : World :=
  let c := initLoop B B.MOTORS_NUM w
  let w := c.world
  let w := if |c.sumPitch| > 1 / 100 then w.notice Notice.pitchImbalance else w
  let w := if |c.sumRoll| > 1 / 100 then w.notice Notice.rollImbalance else w
  if |c.sumYaw| > 1 / 100 then w.notice Notice.yawImbalance else w

/-- The loop invariant of `motorsInit` after `n` iterations from `w`: which
slots are active and what they are bound to. -/
structure InitInv (B : Build) (w : World) (n : Nat) (c : InitCursor) : Prop where
  p : c.world.p = w.p
  armed : c.world.armed = w.armed
  analogData : c.world.analogData = w.analogData
  ccr : c.world.ccr = w.ccr
  canFindNode : c.world.canFindNode = w.canFindNode
  pwmInitOut : c.world.pwmInitOut = w.pwmInitOut
  distribution : c.world.motorsData.distribution = w.p.MOT_PWRD
  active : ∀ i, c.world.motorsData.active i = decide (i < n ∧ rowNonzero (w.p.MOT_PWRD i))
  can : ∀ i, c.world.motorsData.can i =
    if i < n ∧ rowNonzero (w.p.MOT_PWRD i) ∧ canSelected w.p i = true then
      w.canFindNode (i + 1) else none
  pwm : ∀ i, c.world.motorsData.pwm i =
    if i < n ∧ rowNonzero (w.p.MOT_PWRD i) ∧ canSelected w.p i = false ∧ i < B.PWM_NUM_PORTS then
      w.pwmInitOut i B.USE_L1_ATTITUDE else none
  canPtrs : c.world.motorsData.canPtrs = motorsStruct_t.zero.canPtrs
  canGroups : c.world.motorsData.canGroups = motorsStruct_t.zero.canGroups
  value : c.world.motorsData.value = motorsStruct_t.zero.value
  numGroups : c.world.motorsData.numGroups = 0
  limiter : c.world.motorsData.throttleLimiter = 0
  throttle : c.world.motorsData.throttle = 0
  pitch : c.world.motorsData.pitch = 0
  roll : c.world.motorsData.roll = 0
  yaw : c.world.motorsData.yaw = 0

/-- What `motorsInit`, when it is not aborted by the frame-type test, leaves in
`w1` when run from `w`: every field of the module state and the environment
it read. -/
structure Initialised (B : Build) (w w1 : World) : Prop where
  p : w1.p = w.p
  armed : w1.armed = w.armed
  canFindNode : w1.canFindNode = w.canFindNode
  pwmInitOut : w1.pwmInitOut = w.pwmInitOut
  distribution : w1.motorsData.distribution = w.p.MOT_PWRD
  active : ∀ i, w1.motorsData.active i =
    decide (i < B.MOTORS_NUM ∧ rowNonzero (w.p.MOT_PWRD i))
  can : ∀ i, w1.motorsData.can i =
    if i < B.MOTORS_NUM ∧ rowNonzero (w.p.MOT_PWRD i) ∧ canSelected w.p i = true then
      w.canFindNode (i + 1) else none
  pwm : ∀ i, w1.motorsData.pwm i =
    if i < B.MOTORS_NUM ∧ rowNonzero (w.p.MOT_PWRD i) ∧ canSelected w.p i = false
        ∧ i < B.PWM_NUM_PORTS then
      w.pwmInitOut i B.USE_L1_ATTITUDE else none
  canPtrs : ∀ i, w1.motorsData.canPtrs i =
    if i < B.MOTORS_NUM ∧ (w1.motorsData.can i).isSome = true then
      some (canCount w1 i / 4, fieldOf (canCount w1 i))
    else none
  numGroups : w1.motorsData.numGroups = (canCount w1 B.MOTORS_NUM + 3) / 4
  canGroups : w1.motorsData.canGroups = motorsStruct_t.zero.canGroups
  value : w1.motorsData.value = motorsStruct_t.zero.value
  limiter : w1.motorsData.throttleLimiter = 0
  throttle : w1.motorsData.throttle = 0
  pitch : w1.motorsData.pitch = 0
  roll : w1.motorsData.roll = 0
  yaw : w1.motorsData.yaw = 0

/-- The scenario of C11: a configuration with exactly four motors, all with
the distribution row `(100, 0, 0, 0)`, all selected for the CAN bus and all
with a node that answers. -/
structure FourNetworked (B : Build) (w : World) : Prop where
  accepted : ¬ (1 / 100 < w.p.MOT_FRAME ∧ w.p.MOT_FRAME < 401 / 100)
  four : (List.range B.MOTORS_NUM).countP (fun i => decide (rowNonzero (w.p.MOT_PWRD i))) = 4
  row : ∀ i, i < B.MOTORS_NUM → rowNonzero (w.p.MOT_PWRD i) →
    w.p.MOT_PWRD i = { throttle := 100, pitch := 0, roll := 0, yaw := 0 }
  selected : ∀ i, i < B.MOTORS_NUM → rowNonzero (w.p.MOT_PWRD i) → canSelected w.p i = true
  resolved : ∀ i, i < B.MOTORS_NUM → rowNonzero (w.p.MOT_PWRD i) →
    (w.canFindNode (i + 1)).isSome = true

/-- A finite sequence of `motorsCommands`, `motorsSendValues` and `motorsOff`
calls leads from the first state to the second. -/
inductive Runs (B : Build) : World → World → Prop where
  | refl (w : World) : Runs B w w
  | commands (throtCommand pitchCommand rollCommand ruddCommand : ℚ) (w w2 : World) :
      Runs B w w2 → Runs B w (motorsCommands B throtCommand pitchCommand rollCommand ruddCommand w2)
  | sendValues (w w2 : World) : Runs B w w2 → Runs B w (motorsSendValues B w2)
  | off (w w2 : World) : Runs B w w2 → Runs B w (motorsOff B w2)

/-! ## A concrete build and concrete states -/

/-- A build with sixteen motor slots, fourteen pulse ports and a 12 bit
scale. -/
def demoBuild : Build where
  MOTORS_NUM := 16
  PWM_NUM_PORTS := 14
  MOTORS_SCALE := 4095
  MOTORS_THROTTLE_LIMITER := 3 / 20
  MOTORS_CELL_VOLTS := 37 / 10
  USE_L1_ATTITUDE := false

/-- A distribution table with two motors: both take the full throttle, with
opposite pitch. -/
def demoPwrd (i : Nat) : motorsPowerStruct_t :=
  if i = 0 then { throttle := 100, pitch := 100, roll := 0, yaw := 0 }
  else if i = 1 then { throttle := 100, pitch := -100, roll := 0, yaw := 0 }
  else { throttle := 0, pitch := 0, roll := 0, yaw := 0 }

/-- A configuration with integer pulse widths; motor 1 is on the CAN bus. -/
def demoConfig : Config where
  MOT_FRAME := 0
  MOT_MIN := 975
  MOT_START := 1125
  MOT_MAX := 1950
  MOT_ARM := 975
  MOT_CAN := 2
  MOT_PWRD := demoPwrd

/-- The module state of an initialised two-motor vehicle: slot 0 drives pulse
port 0, slot 1 drives CAN node 2 through field 0 of group record 0. -/
def demoMotors : motorsStruct_t where
  distribution := demoPwrd
  pwm := fun i => if i = 0 then some { ccr := 0 } else none
  can := fun i => if i = 1 then some { nodeId := 2 } else none
  canPtrs := fun i => if i = 1 then some (0, 0) else none
  canGroups := fun _ => { value1 := 0, value2 := 0, value3 := 0, value4 := 0 }
  pitch := 0
  roll := 0
  yaw := 0
  throttle := 0
  throttleLimiter := 0
  value := fun i => if i = 0 then -7 else if i = 1 then 5000 else 0
  numGroups := 1
  active := fun i => decide (i < 2)

/-- An armed vehicle at nominal battery voltage. -/
def demoWorld : World where
  p := demoConfig
  armed := true
  analogData := { batCellCount := 3, vIn := 111 / 10 }
  motorsData := demoMotors
  ccr := fun _ => 0
  canLog := []
  notices := []
  canFindNode := fun id => if id = 2 then some { nodeId := 2 } else none
  pwmInitOut := fun port _ => some { ccr := port }

/-- The same vehicle, disarmed. -/
def demoDisarmed : World := { demoWorld with armed := false }

/-- The armed vehicle with `MOT_START` set to 1125.5. -/
def demoHalfStart : World :=
  { demoWorld with p := { demoConfig with MOT_START := 2251 / 2 } }

/-- The armed vehicle with `MOT_ARM` set to 975.5. -/
def demoHalfArm : World :=
  { demoWorld with p := { demoConfig with MOT_ARM := 1951 / 2 } }

/-- The demonstration vehicle before group assignment: no group counted, no
field pointer set. -/
def demoUngrouped : World :=
  { demoWorld with motorsData := { demoMotors with numGroups := 0, canPtrs := fun _ => none } }

/-- The demonstration vehicle freshly initialised, then disarmed and with a
sagging battery. -/
def demoSagging : World :=
  { motorsInit demoBuild demoWorld with
      armed := false, analogData := { batCellCount := 3, vIn := 10 } }

/-- The demonstration vehicle configured with the legacy frame type 1. -/
def demoLegacy : World :=
  { demoWorld with p := { demoConfig with MOT_FRAME := 1 } }

/-- The demonstration vehicle on a bus where no node answers. -/
def demoLost : World :=
  { demoWorld with canFindNode := fun _ => none }

theorem constrainInt_mem {i lo hi : Int} (h : lo ≤ hi) :
    lo ≤ constrainInt i lo hi ∧ constrainInt i lo hi ≤ hi := by
  unfold constrainInt
  split_ifs <;> omega

theorem constrainInt_of_mem {i lo hi : Int} (h1 : lo ≤ i) (h2 : i ≤ hi) :
    constrainInt i lo hi = i := by
  unfold constrainInt
  split_ifs <;> omega

theorem constrainInt_mono {i j lo hi : Int} (h : lo ≤ hi) (hij : i ≤ j) :
    constrainInt i lo hi ≤ constrainInt j lo hi := by
  unfold constrainInt
  split_ifs <;> omega

theorem constrainFloat_mem {x lo hi : ℚ} (h : lo ≤ hi) :
    lo ≤ constrainFloat x lo hi ∧ constrainFloat x lo hi ≤ hi := by
  unfold constrainFloat
  split_ifs with h1 h2
  · exact ⟨le_refl _, h⟩
  · exact ⟨h, le_refl _⟩
  · exact ⟨not_lt.mp h1, not_lt.mp h2⟩

theorem floatToInt_mono {x y : ℚ} (h : x ≤ y) : floatToInt x ≤ floatToInt y := by
  unfold floatToInt
  split_ifs with hx hy hy
  · exact Int.floor_mono h
  · exact absurd (le_trans hx h) hy
  · have h1 : ⌈x⌉ ≤ 0 := Int.ceil_le.mpr (by push_cast; exact le_of_lt (not_le.mp hx))
    have h2 : 0 ≤ ⌊y⌋ := Int.floor_nonneg.mpr hy
    exact le_trans h1 h2
  · exact Int.ceil_mono h

theorem floatToInt_intCast (n : Int) : floatToInt (n : ℚ) = n := by
  unfold floatToInt
  split_ifs <;> simp

theorem floatToInt_eq_of_nonneg {x : ℚ} {n : Int} (h0 : 0 ≤ x) (h1 : (n : ℚ) ≤ x)
    (h2 : x < (n : ℚ) + 1) : floatToInt x = n := by
  unfold floatToInt
  rw [if_pos h0]
  exact Int.floor_eq_iff.mpr ⟨h1, h2⟩

theorem shiftLeft_four (x : Int) : x <<< 4 = x * 16 := by
  have h := Int.shiftLeft_eq_mul_pow x 4
  norm_num at h
  exact h

/-! ## What one loop iteration leaves alone -/

theorem SameSetup.refl (w : World) : SameSetup w w := by
  simp [SameSetup]

theorem SameSetup.trans {a b c : World} (h1 : SameSetup a b) (h2 : SameSetup b c) :
    SameSetup a c := by
  obtain ⟨a1, a2, a3, a4, a5, a6, a7, a8, a9⟩ := h1
  obtain ⟨b1, b2, b3, b4, b5, b6, b7, b8, b9⟩ := h2
  exact ⟨b1.trans a1, b2.trans a2, b3.trans a3, b4.trans a4, b5.trans a5, b6.trans a6,
    b7.trans a7, b8.trans a8, b9.trans a9⟩

theorem pwmBound_congr (B : Build) {w w2 : World} (h : SameSetup w w2) (i : Nat) :
    pwmBound B w2 i = pwmBound B w i := by
  simp [pwmBound, h.2.2.2.2.1]

theorem canBound_congr (B : Build) {w w2 : World} (h : SameSetup w w2) (i : Nat) :
    canBound B w2 i = canBound B w i := by
  simp [canBound, pwmBound_congr B h, h.2.2.2.2.2.1]

theorem sentPwm_congr (B : Build) {w w2 : World} (h : SameSetup w w2) (v : Int) :
    sentPwm B w2 v = sentPwm B w v := by
  simp [sentPwm, h.1, h.2.1]

theorem sentCan_congr (B : Build) {w w2 : World} (h : SameSetup w w2) (v : Int) :
    sentCan B w2 v = sentCan B w v := by
  simp [sentCan, h.2.1]

theorem offPwm_congr {w w2 : World} (h : SameSetup w w2) : offPwm w2 = offPwm w := by
  simp [offPwm, h.1, h.2.1]

theorem WritesCcr_congr (B : Build) {w w2 : World} (h : SameSetup w w2) (a j : Nat) :
    WritesCcr B w2 a j ↔ WritesCcr B w a j := by
  simp [WritesCcr, h.2.2.2.1, h.2.2.2.2.1]

theorem WritesCan_congr (B : Build) {w w2 : World} (h : SameSetup w w2) (g : Nat) (f : Fin 4)
    (j : Nat) : WritesCan B w2 g f j ↔ WritesCan B w g f j := by
  simp [WritesCan, h.2.2.2.1, canBound_congr B h, h.2.2.2.2.2.2.1]

theorem canGroup16_t.get_set (r : canGroup16_t) (f f2 : Fin 4) (v : Int) :
    (r.set f v).get f2 = if f2 = f then v else r.get f2 := by
  fin_cases f <;> fin_cases f2 <;> simp [canGroup16_t.set, canGroup16_t.get]

theorem World.canField_writeCanPtr (w : World) (g g2 : Nat) (f f2 : Fin 4) (v : Int) :
    (w.writeCanPtr (some (g, f)) v).canField g2 f2 =
      if g2 = g ∧ f2 = f then toUint16 v else w.canField g2 f2 := by
  by_cases hg : g2 = g
  · subst hg
    simp [World.writeCanPtr, World.canField, canGroup16_t.get_set]
  · simp [World.writeCanPtr, World.canField, Function.update_noteq hg, hg]

theorem motorsCanSendGroups_fold (l : List Nat) (w : World) :
    l.foldl (fun w i => w.canCall (CanCall.setpoint16 (i + 1) (w.motorsData.canGroups i))) w =
      { w with canLog := w.canLog ++
          l.map (fun i => CanCall.setpoint16 (i + 1) (w.motorsData.canGroups i)) } := by
  induction l generalizing w with
  | nil => simp
  | cons a l ih =>
    rw [List.foldl_cons, ih]
    simp [World.canCall]

theorem motorsCanSendGroups_eq (w : World) :
    motorsCanSendGroups w = { w with canLog := w.canLog ++ groupFrames w } := by
  unfold motorsCanSendGroups groupFrames
  exact motorsCanSendGroups_fold _ w

theorem pwmBound_iff (B : Build) (w : World) (i : Nat) :
    pwmBound B w i = true ↔ i < B.PWM_NUM_PORTS ∧ ∃ port, w.motorsData.pwm i = some port := by
  simp [pwmBound, Option.isSome_iff_exists]

theorem outputSlot_setup (B : Build) (w : World) (i : Nat) (v pv cv : Int) :
    SameSetup w (outputSlot B w i v pv cv) := by
  simp only [outputSlot, World.setValue, World.writeCcr, World.writeCanPtr]
  split_ifs <;> (try split) <;> simp [SameSetup]

theorem outputSlot_value (B : Build) (w : World) (i j : Nat) (v pv cv : Int) :
    (outputSlot B w i v pv cv).motorsData.value j =
      if j = i ∧ w.motorsData.active i = true then v else w.motorsData.value j := by
  simp only [outputSlot, World.setValue, World.writeCcr, World.writeCanPtr]
  by_cases hj : j = i
  · subst hj
    split_ifs <;> (try split) <;> simp_all
  · split_ifs <;> (try split) <;> simp_all [Function.update_noteq hj]

theorem outputSlot_limiter (B : Build) (w : World) (i : Nat) (v pv cv : Int) :
    (outputSlot B w i v pv cv).motorsData.throttleLimiter = w.motorsData.throttleLimiter := by
  simp only [outputSlot, World.setValue, World.writeCcr, World.writeCanPtr]
  split_ifs <;> (try split) <;> simp

theorem outputSlot_ccr_write (B : Build) (w : World) (i : Nat) (v pv cv : Int)
    (port : pwmPortStruct_t) (hact : w.motorsData.active i = true) (hi : i < B.PWM_NUM_PORTS)
    (hpwm : w.motorsData.pwm i = some port) :
    (outputSlot B w i v pv cv).ccr port.ccr = pv := by
  have hp : pwmBound B w i = true := (pwmBound_iff B w i).mpr ⟨hi, port, hpwm⟩
  rw [outputSlot, if_pos hact, if_pos hp, hpwm]
  simp [World.writeCcr]

theorem outputSlot_ccr_other (B : Build) (w : World) (i a : Nat) (v pv cv : Int)
    (h : ¬ WritesCcr B w a i) : (outputSlot B w i v pv cv).ccr a = w.ccr a := by
  unfold outputSlot
  by_cases ha : w.motorsData.active i = true
  · by_cases hp : pwmBound B w i = true
    · obtain ⟨hi, port, hq⟩ := (pwmBound_iff B w i).mp hp
      have hne : a ≠ port.ccr := fun e => h ⟨ha, hi, port, hq, e.symm⟩
      rw [if_pos ha, if_pos hp, hq]
      simp [World.writeCcr, World.setValue, Function.update_noteq hne]
    · rw [if_pos ha, if_neg hp]
      split_ifs <;> simp [World.writeCanPtr, World.setValue]
  · rw [if_neg ha]

theorem outputSlot_can_write (B : Build) (w : World) (i g : Nat) (f : Fin 4) (v pv cv : Int)
    (h : WritesCan B w g f i) : (outputSlot B w i v pv cv).canField g f = toUint16 cv := by
  obtain ⟨hact, hcan, hptr⟩ := h
  simp only [canBound, Bool.and_eq_true, Bool.not_eq_true'] at hcan
  have hp : ¬ pwmBound B w i = true := by simp [hcan.1]
  rw [outputSlot, if_pos hact, if_neg hp, if_pos hcan.2, hptr, World.canField_writeCanPtr]
  simp

theorem outputSlot_can_other (B : Build) (w : World) (i g : Nat) (f : Fin 4) (v pv cv : Int)
    (h : ¬ WritesCan B w g f i) : (outputSlot B w i v pv cv).canField g f = w.canField g f := by
  unfold outputSlot
  by_cases ha : w.motorsData.active i = true
  · by_cases hp : pwmBound B w i = true
    · rw [if_pos ha, if_pos hp]
      split <;> simp [World.canField, World.setValue, World.writeCcr]
    · rw [if_pos ha, if_neg hp]
      by_cases hc : (w.motorsData.can i).isSome = true
      · have hne : w.motorsData.canPtrs i ≠ some (g, f) :=
          fun e => h ⟨ha, by simp [canBound, hp, hc], e⟩
        rw [if_pos hc]
        cases hq : w.motorsData.canPtrs i with
        | none => simp [World.canField, World.setValue, World.writeCanPtr]
        | some gf =>
          obtain ⟨g2, f2⟩ := gf
          have hne2 : ¬ (g = g2 ∧ f = f2) := by
            rintro ⟨rfl, rfl⟩
            exact hne hq
          rw [World.canField_writeCanPtr, if_neg hne2]
          rfl
      · rw [if_neg hc]
        rfl
  · rw [if_neg ha]

/-- The loop body of `motorsSendValues` in the common shape. -/
theorem motorsSendValuesSlot_eq (B : Build) (w : World) (i : Nat) :
    motorsSendValuesSlot B w i =
      outputSlot B w i (constrainInt (w.motorsData.value i) 0 B.MOTORS_SCALE)
        (sentPwm B w (w.motorsData.value i)) (sentCan B w (w.motorsData.value i)) := by
  have hb : pwmBound B (w.setValue i (constrainInt (w.motorsData.value i) 0 B.MOTORS_SCALE)) i
      = pwmBound B w i := rfl
  simp only [motorsSendValuesSlot, outputSlot, hb, sentPwm, sentCan]
  by_cases ha : w.motorsData.active i = true
  · simp only [ha, if_true]
    by_cases hp : pwmBound B w i = true
    · simp only [hp, if_true]
      cases hq : w.motorsData.pwm i with
      | none => simp [World.setValue, hq]
      | some port =>
        by_cases harm : w.armed = true
        · simp [World.setValue, hq, harm]
        · simp [World.setValue, hq, harm]
    · simp only [hp, if_false]
      by_cases hc : (w.motorsData.can i).isSome = true
      · by_cases harm : w.armed = true
        · simp [World.setValue, hc, harm]
        · simp [World.setValue, hc, harm]
      · simp [World.setValue, hc]
  · simp [ha]

/-- The loop body of `motorsOff` in the common shape. -/
theorem motorsOffSlot_eq (B : Build) (w : World) (i : Nat) :
    motorsOffSlot B w i = outputSlot B w i 0 (offPwm w) 0 := by
  have hb : pwmBound B (w.setValue i 0) i = pwmBound B w i := rfl
  simp only [motorsOffSlot, outputSlot, hb, offPwm]
  by_cases ha : w.motorsData.active i = true
  · simp only [ha, if_true]
    by_cases hp : pwmBound B w i = true
    · simp only [hp, if_true]
      cases hq : w.motorsData.pwm i with
      | none => simp [World.setValue, hq]
      | some port => simp [World.setValue, hq]
    · simp only [hp, if_false]
      by_cases hc : (w.motorsData.can i).isSome = true
      · simp [World.setValue, hc]
      · simp [World.setValue, hc]
  · simp [ha]

/-! ## Loops as folds over `List.range` -/


theorem range_foldl_succ {σ : Type} (f : σ → Nat → σ) (s : σ) (n : Nat) :
    (List.range (n + 1)).foldl f s = f ((List.range n).foldl f s) n := by
  rw [List.range_succ, List.foldl_append]
  rfl

/-- An observation that every writing iteration sets to `v` holds `v` after
the loop, as soon as one iteration writes. -/
theorem range_foldl_written {σ α : Type} (f : σ → Nat → σ) (s : σ) (obs : σ → α)
    (P : Nat → Prop) (v : α) (n : Nat)
    (hw : ∀ j, j < n → P j → obs (f ((List.range j).foldl f s) j) = v)
    (ho : ∀ j, j < n → ¬ P j →
      obs (f ((List.range j).foldl f s) j) = obs ((List.range j).foldl f s))
    (hex : ∃ i, i < n ∧ P i) : obs ((List.range n).foldl f s) = v := by
  induction n with
  | zero =>
    obtain ⟨i, hi, _⟩ := hex
    exact absurd hi (Nat.not_lt_zero i)
  | succ n ih =>
    rw [range_foldl_succ]
    by_cases hn : P n
    · exact hw n (Nat.lt_succ_self n) hn
    · rw [ho n (Nat.lt_succ_self n) hn]
      apply ih
      · exact fun j hj => hw j (Nat.lt_succ_of_lt hj)
      · exact fun j hj => ho j (Nat.lt_succ_of_lt hj)
      · obtain ⟨i, hi, hP⟩ := hex
        refine ⟨i, ?_, hP⟩
        rcases Nat.lt_succ_iff_lt_or_eq.mp hi with h | h
        · exact h
        · exact absurd (h ▸ hP) hn

/-- An observation that no iteration changes is the same after the loop. -/
theorem range_foldl_kept {σ α : Type} (f : σ → Nat → σ) (s : σ) (obs : σ → α) (n : Nat)
    (ho : ∀ j, j < n → obs (f ((List.range j).foldl f s) j) = obs ((List.range j).foldl f s)) :
    obs ((List.range n).foldl f s) = obs s := by
  induction n with
  | zero => rfl
  | succ n ih =>
    rw [range_foldl_succ, ho n (Nat.lt_succ_self n)]
    exact ih (fun j hj => ho j (Nat.lt_succ_of_lt hj))

/-- A reflexive and transitive relation kept by every iteration relates the
start of the loop to its end. -/
theorem range_foldl_rel {σ : Type} (f : σ → Nat → σ) (s : σ) (R : σ → σ → Prop)
    (hrefl : ∀ a, R a a) (htrans : ∀ a b c, R a b → R b c → R a c)
    (hstep : ∀ a j, R a (f a j)) (n : Nat) : R s ((List.range n).foldl f s) := by
  induction n with
  | zero => exact hrefl s
  | succ n ih =>
    rw [range_foldl_succ]
    exact htrans _ _ _ ih (hstep _ n)

/-! ## `motorsSendValues`: the loop -/

theorem motorsSendValuesLoop_setup (B : Build) (n : Nat) (w : World) :
    SameSetup w (motorsSendValuesLoop B n w) :=
  range_foldl_rel (motorsSendValuesSlot B) w SameSetup SameSetup.refl
    (fun _ _ _ => SameSetup.trans)
    (fun a j => by rw [motorsSendValuesSlot_eq]; exact outputSlot_setup B a j _ _ _) n

theorem motorsSendValuesLoop_value (B : Build) (n : Nat) (w : World) (j : Nat) :
    (motorsSendValuesLoop B n w).motorsData.value j =
      if j < n ∧ w.motorsData.active j = true then
        constrainInt (w.motorsData.value j) 0 B.MOTORS_SCALE
      else w.motorsData.value j := by
  induction n with
  | zero => simp [motorsSendValuesLoop]
  | succ n ih =>
    have hs := motorsSendValuesLoop_setup B n w
    unfold motorsSendValuesLoop at ih hs ⊢
    rw [range_foldl_succ, motorsSendValuesSlot_eq, outputSlot_value, hs.2.2.2.1]
    by_cases hj : j = n
    · subst hj
      rw [ih]
      by_cases ha : w.motorsData.active j = true
      · simp [ha]
      · simp [ha]
    · have h1 : j < n + 1 ↔ j < n := by omega
      rw [ih]
      simp [hj, h1]

theorem motorsSendValuesLoop_limiter (B : Build) (n : Nat) (w : World) :
    (motorsSendValuesLoop B n w).motorsData.throttleLimiter = w.motorsData.throttleLimiter :=
  range_foldl_kept (motorsSendValuesSlot B) w (fun w => w.motorsData.throttleLimiter) n
    (fun _ _ => by rw [motorsSendValuesSlot_eq]; exact outputSlot_limiter B _ _ _ _ _)

/-- The state in which iteration `i` of `motorsSendValues` runs holds the
stored value and the setup of the state the call started in. -/
theorem motorsSendValuesLoop_before (B : Build) (w : World) (i : Nat) :
    SameSetup w (motorsSendValuesLoop B i w) ∧
      (motorsSendValuesLoop B i w).motorsData.value i = w.motorsData.value i := by
  refine ⟨motorsSendValuesLoop_setup B i w, ?_⟩
  rw [motorsSendValuesLoop_value]
  simp

/-- Iteration `i` of `motorsSendValues` gives the pulse register of slot `i`
the value computed from the value the slot held when the call started. -/
theorem motorsSendValuesLoop_ccr_step (B : Build) (w : World) (a i : Nat)
    (h : WritesCcr B w a i) :
    (motorsSendValuesSlot B (motorsSendValuesLoop B i w) i).ccr a =
      sentPwm B w (w.motorsData.value i) := by
  obtain ⟨hs, hval⟩ := motorsSendValuesLoop_before B w i
  obtain ⟨ha, hlt, port, hq, rfl⟩ := h
  rw [motorsSendValuesSlot_eq, outputSlot_ccr_write B _ i _ _ _ port
    (by rw [hs.2.2.2.1]; exact ha) hlt (by rw [hs.2.2.2.2.1]; exact hq), hval,
    sentPwm_congr B hs]

/-- Iteration `i` of `motorsSendValues` gives the group field of slot `i` the
value computed from the value the slot held when the call started. -/
theorem motorsSendValuesLoop_can_step (B : Build) (w : World) (g : Nat) (f : Fin 4) (i : Nat)
    (h : WritesCan B w g f i) :
    (motorsSendValuesSlot B (motorsSendValuesLoop B i w) i).canField g f =
      toUint16 (sentCan B w (w.motorsData.value i)) := by
  obtain ⟨hs, hval⟩ := motorsSendValuesLoop_before B w i
  rw [motorsSendValuesSlot_eq, outputSlot_can_write B _ i g f _ _ _
    ((WritesCan_congr B hs g f i).mpr h), hval, sentCan_congr B hs]

theorem motorsSendValuesLoop_ccr (B : Build) (w : World) (a : Nat) (v : Int) (n : Nat)
    (hv : ∀ j, j < n → WritesCcr B w a j → sentPwm B w (w.motorsData.value j) = v)
    (hex : ∃ i, i < n ∧ WritesCcr B w a i) :
    (motorsSendValuesLoop B n w).ccr a = v := by
  unfold motorsSendValuesLoop
  apply range_foldl_written (motorsSendValuesSlot B) w (fun w => w.ccr a) (WritesCcr B w a) v n
  · intro j hj hP
    have h := motorsSendValuesLoop_ccr_step B w a j hP
    unfold motorsSendValuesLoop at h
    simp only [h]
    exact hv j hj hP
  · intro j _ hP
    have hs := motorsSendValuesLoop_setup B j w
    unfold motorsSendValuesLoop at hs
    rw [motorsSendValuesSlot_eq]
    exact outputSlot_ccr_other B _ j a _ _ _ (fun h => hP ((WritesCcr_congr B hs a j).mp h))
  · exact hex

theorem motorsSendValuesLoop_can (B : Build) (w : World) (g : Nat) (f : Fin 4) (v : Int) (n : Nat)
    (hv : ∀ j, j < n → WritesCan B w g f j → toUint16 (sentCan B w (w.motorsData.value j)) = v)
    (hex : ∃ i, i < n ∧ WritesCan B w g f i) :
    (motorsSendValuesLoop B n w).canField g f = v := by
  unfold motorsSendValuesLoop
  apply range_foldl_written (motorsSendValuesSlot B) w (fun w => w.canField g f)
    (WritesCan B w g f) v n
  · intro j hj hP
    have h := motorsSendValuesLoop_can_step B w g f j hP
    unfold motorsSendValuesLoop at h
    simp only [h]
    exact hv j hj hP
  · intro j _ hP
    have hs := motorsSendValuesLoop_setup B j w
    unfold motorsSendValuesLoop at hs
    rw [motorsSendValuesSlot_eq]
    exact outputSlot_can_other B _ j g f _ _ _ (fun h => hP ((WritesCan_congr B hs g f j).mp h))
  · exact hex

theorem motorsSendValues_ccr (B : Build) (w : World) (a : Nat) :
    (motorsSendValues B w).ccr a = (motorsSendValuesLoop B B.MOTORS_NUM w).ccr a := by
  rw [motorsSendValues, motorsCanSendGroups_eq]

theorem motorsSendValues_motorsData (B : Build) (w : World) :
    (motorsSendValues B w).motorsData = (motorsSendValuesLoop B B.MOTORS_NUM w).motorsData := by
  rw [motorsSendValues, motorsCanSendGroups_eq]

theorem motorsSendValues_canField (B : Build) (w : World) (g : Nat) (f : Fin 4) :
    (motorsSendValues B w).canField g f =
      (motorsSendValuesLoop B B.MOTORS_NUM w).canField g f := by
  rw [World.canField, motorsSendValues_motorsData]
  rfl

theorem motorsSendValues_setup (B : Build) (w : World) : SameSetup w (motorsSendValues B w) := by
  have h := motorsSendValuesLoop_setup B B.MOTORS_NUM w
  rw [motorsSendValues, motorsCanSendGroups_eq]
  exact h

/-! ## `motorsOff`: the loop -/

theorem motorsOffLoop_setup (B : Build) (n : Nat) (w : World) :
    SameSetup w (motorsOffLoop B n w) :=
  range_foldl_rel (motorsOffSlot B) w SameSetup SameSetup.refl
    (fun _ _ _ => SameSetup.trans)
    (fun a j => by rw [motorsOffSlot_eq]; exact outputSlot_setup B a j _ _ _) n

theorem motorsOffLoop_value (B : Build) (n : Nat) (w : World) (j : Nat) :
    (motorsOffLoop B n w).motorsData.value j =
      if j < n ∧ w.motorsData.active j = true then 0 else w.motorsData.value j := by
  induction n with
  | zero => simp [motorsOffLoop]
  | succ n ih =>
    have hs := motorsOffLoop_setup B n w
    unfold motorsOffLoop at ih hs ⊢
    rw [range_foldl_succ, motorsOffSlot_eq, outputSlot_value, hs.2.2.2.1, ih]
    by_cases hj : j = n
    · subst hj
      by_cases ha : w.motorsData.active j = true
      · simp [ha]
      · simp [ha]
    · have h1 : j < n + 1 ↔ j < n := by omega
      simp [hj, h1]

theorem motorsOffLoop_ccr (B : Build) (w : World) (a : Nat) (n : Nat)
    (hex : ∃ i, i < n ∧ WritesCcr B w a i) : (motorsOffLoop B n w).ccr a = offPwm w := by
  unfold motorsOffLoop
  apply range_foldl_written (motorsOffSlot B) w (fun w => w.ccr a) (WritesCcr B w a) _ n
  · intro j _ hP
    have hs := motorsOffLoop_setup B j w
    unfold motorsOffLoop at hs
    obtain ⟨ha, hlt, port, hq, rfl⟩ := hP
    rw [motorsOffSlot_eq, outputSlot_ccr_write B _ j _ _ _ port
      (by rw [hs.2.2.2.1]; exact ha) hlt (by rw [hs.2.2.2.2.1]; exact hq), offPwm_congr hs]
  · intro j _ hP
    have hs := motorsOffLoop_setup B j w
    unfold motorsOffLoop at hs
    rw [motorsOffSlot_eq]
    exact outputSlot_ccr_other B _ j a _ _ _ (fun h => hP ((WritesCcr_congr B hs a j).mp h))
  · exact hex

theorem motorsOffLoop_can (B : Build) (w : World) (g : Nat) (f : Fin 4) (n : Nat)
    (hex : ∃ i, i < n ∧ WritesCan B w g f i) : (motorsOffLoop B n w).canField g f = 0 := by
  unfold motorsOffLoop
  apply range_foldl_written (motorsOffSlot B) w (fun w => w.canField g f) (WritesCan B w g f) _ n
  · intro j _ hP
    have hs := motorsOffLoop_setup B j w
    unfold motorsOffLoop at hs
    rw [motorsOffSlot_eq, outputSlot_can_write B _ j g f _ _ _
      ((WritesCan_congr B hs g f j).mpr hP)]
    rfl
  · intro j _ hP
    have hs := motorsOffLoop_setup B j w
    unfold motorsOffLoop at hs
    rw [motorsOffSlot_eq]
    exact outputSlot_can_other B _ j g f _ _ _ (fun h => hP ((WritesCan_congr B hs g f j).mp h))
  · exact hex

theorem motorsOff_ccr (B : Build) (w : World) (a : Nat) :
    (motorsOff B w).ccr a = (motorsOffLoop B B.MOTORS_NUM w).ccr a := by
  simp only [motorsOff, motorsCanSendGroups_eq]

theorem motorsOff_value (B : Build) (w : World) (j : Nat) :
    (motorsOff B w).motorsData.value j = (motorsOffLoop B B.MOTORS_NUM w).motorsData.value j := by
  simp only [motorsOff, motorsCanSendGroups_eq]

theorem motorsOff_canField (B : Build) (w : World) (g : Nat) (f : Fin 4) :
    (motorsOff B w).canField g f = (motorsOffLoop B B.MOTORS_NUM w).canField g f := by
  simp only [World.canField, motorsOff, motorsCanSendGroups_eq]

theorem motorsOff_limiter (B : Build) (w : World) :
    (motorsOff B w).motorsData.throttleLimiter = 0 := by
  simp only [motorsOff]

theorem motorsOff_setup (B : Build) (w : World) : SameSetup w (motorsOff B w) := by
  have h := motorsOffLoop_setup B B.MOTORS_NUM w
  simp only [motorsOff, motorsCanSendGroups_eq]
  exact h

/-! ## Facts about the concrete states -/

theorem demoWorld_writesCcr (w : World) (hm : w.motorsData = demoMotors) (j : Nat) :
    WritesCcr demoBuild w 0 j ↔ j = 0 := by
  constructor
  · rintro ⟨_, _, port, hq, _⟩
    by_contra hj
    simp [hm, demoMotors, hj] at hq
  · rintro rfl
    exact ⟨by simp [hm, demoMotors], by simp [demoBuild], ⟨{ ccr := 0 }, by simp [hm, demoMotors], rfl⟩⟩

theorem demoWorld_writesCan (w : World) (hm : w.motorsData = demoMotors) (j : Nat) :
    WritesCan demoBuild w 0 0 j ↔ j = 1 := by
  constructor
  · rintro ⟨_, _, hq⟩
    by_contra hj
    simp [hm, demoMotors, hj] at hq
  · rintro rfl
    exact ⟨by simp [hm, demoMotors], by simp [canBound, pwmBound, hm, demoMotors],
      by simp [hm, demoMotors]⟩

theorem demoHalfStart_sentPwm : sentPwm demoBuild demoHalfStart (-7) = 1125 := by
  have h1 : floatToInt (2251 / 2) = 1125 :=
    floatToInt_eq_of_nonneg (by norm_num) (by norm_num) (by norm_num)
  have h2 : floatToInt (1950 : ℚ) = 1950 := floatToInt_intCast 1950
  have h3 : floatToInt (975 : ℚ) = 975 := floatToInt_intCast 975
  have h4 : constrainInt (-7) 0 4095 = 0 := by decide
  have h5 : constrainInt 975 1125 1950 = 1125 := by decide
  simp [sentPwm, pwmValue, demoHalfStart, demoWorld, demoConfig, demoBuild, h1, h2, h3, h4, h5]

theorem demoHalfStart_ccr : (motorsSendValues demoBuild demoHalfStart).ccr 0 = 1125 := by
  rw [motorsSendValues_ccr]
  apply motorsSendValuesLoop_ccr
  · intro j _ hj
    rw [(demoWorld_writesCcr demoHalfStart rfl j).mp hj]
    exact demoHalfStart_sentPwm
  · exact ⟨0, by decide, (demoWorld_writesCcr demoHalfStart rfl 0).mpr rfl⟩

/-! ## C1: armed pulse output -/

theorem pwmValue_mem (B : Build) (p : Config) (v : Int) (hle : p.MOT_START ≤ p.MOT_MAX) :
    floatToInt p.MOT_START ≤ pwmValue B p v ∧ pwmValue B p v ≤ floatToInt p.MOT_MAX :=
  constrainInt_mem (floatToInt_mono hle)

/-- C1 (amended): with the vehicle armed and `MOT_START <= MOT_MAX`, the
iteration of `motorsSendValues` for an active pulse-bound slot `i` holding any
integer `v` writes to the slot's pulse register
`out = clamp(trunc(clamp(v,0,SCALE) * (MOT_MAX - MOT_MIN) / SCALE + MOT_MIN),
trunc(MOT_START), trunc(MOT_MAX))`; the register still holds `out` when the
call returns if no other slot drives the same register; and `out` lies in
`[trunc(MOT_START), trunc(MOT_MAX)]`, which is `[MOT_START, MOT_MAX]` when
both bounds are integer-valued. -/
theorem motorsSendValues_pwm_armed (B : Build) (w : World) (i : Nat) (port : pwmPortStruct_t)
    (harmed : w.armed = true) (hle : w.p.MOT_START ≤ w.p.MOT_MAX) (hi : i < B.MOTORS_NUM)
    (hact : w.motorsData.active i = true) (hport : i < B.PWM_NUM_PORTS)
    (hpwm : w.motorsData.pwm i = some port) :
    ∃ out : Int,
      out = constrainInt
        (floatToInt (((constrainInt (w.motorsData.value i) 0 B.MOTORS_SCALE : Int) : ℚ)
          * (w.p.MOT_MAX - w.p.MOT_MIN) / (B.MOTORS_SCALE : ℚ) + w.p.MOT_MIN))
        (floatToInt w.p.MOT_START) (floatToInt w.p.MOT_MAX) ∧
      (motorsSendValuesSlot B (motorsSendValuesLoop B i w) i).ccr port.ccr = out ∧
      ((∀ j, j < B.MOTORS_NUM → j ≠ i → ¬ WritesCcr B w port.ccr j) →
        (motorsSendValues B w).ccr port.ccr = out) ∧
      floatToInt w.p.MOT_START ≤ out ∧ out ≤ floatToInt w.p.MOT_MAX ∧
      (∀ s m : Int, w.p.MOT_START = (s : ℚ) → w.p.MOT_MAX = (m : ℚ) →
        w.p.MOT_START ≤ (out : ℚ) ∧ (out : ℚ) ≤ w.p.MOT_MAX) := by
  have hW : WritesCcr B w port.ccr i := ⟨hact, hport, port, hpwm, rfl⟩
  have hout : sentPwm B w (w.motorsData.value i) =
      pwmValue B w.p (constrainInt (w.motorsData.value i) 0 B.MOTORS_SCALE) := by
    simp [sentPwm, harmed]
  have hmem := pwmValue_mem B w.p (constrainInt (w.motorsData.value i) 0 B.MOTORS_SCALE) hle
  refine ⟨pwmValue B w.p (constrainInt (w.motorsData.value i) 0 B.MOTORS_SCALE), rfl, ?_, ?_,
    hmem.1, hmem.2, ?_⟩
  · rw [motorsSendValuesLoop_ccr_step B w port.ccr i hW, hout]
  · intro hex
    rw [motorsSendValues_ccr]
    apply motorsSendValuesLoop_ccr
    · intro j hj hWj
      by_cases hji : j = i
      · rw [hji, hout]
      · exact absurd hWj (hex j hj hji)
    · exact ⟨i, hi, hW⟩
  · intro s m hs hm
    rw [hs, floatToInt_intCast] at hmem
    rw [hm, floatToInt_intCast] at hmem
    rw [hs, hm]
    exact ⟨by exact_mod_cast hmem.1, by exact_mod_cast hmem.2⟩

/-- Witness of C1 (amended): slot 0 of the armed demonstration vehicle. -/
theorem motorsSendValues_pwm_armed_witness :
    demoWorld.armed = true ∧ demoWorld.p.MOT_START ≤ demoWorld.p.MOT_MAX ∧
    0 < demoBuild.MOTORS_NUM ∧ demoWorld.motorsData.active 0 = true ∧
    0 < demoBuild.PWM_NUM_PORTS ∧ demoWorld.motorsData.pwm 0 = some { ccr := 0 } ∧
    floatToInt demoWorld.p.MOT_START ≤ (motorsSendValues demoBuild demoWorld).ccr 0 ∧
    (motorsSendValues demoBuild demoWorld).ccr 0 ≤ floatToInt demoWorld.p.MOT_MAX := by
  have hle : demoWorld.p.MOT_START ≤ demoWorld.p.MOT_MAX := by
    norm_num [demoWorld, demoConfig]
  obtain ⟨out, _, _, hfin, hlo, hhi, _⟩ :=
    motorsSendValues_pwm_armed demoBuild demoWorld 0 { ccr := 0 } rfl hle (by decide) rfl
      (by decide) rfl
  have hex : ∀ j, j < demoBuild.MOTORS_NUM → j ≠ 0 →
      ¬ WritesCcr demoBuild demoWorld ({ ccr := 0 } : pwmPortStruct_t).ccr j :=
    fun j _ hj0 hW => hj0 ((demoWorld_writesCcr demoWorld rfl j).mp hW)
  rw [← hfin hex] at hlo hhi
  exact ⟨rfl, hle, by decide, rfl, by decide, rfl, hlo, hhi⟩

/-- C1 as stated fails: with `MOT_START = 1125.5 <= MOT_MAX = 1950`, the armed
active pulse-bound slot 0 holding `-7` has 1125 written to its register,
which is below `MOT_START`. -/
theorem motorsSendValues_pwm_below_start :
    demoHalfStart.armed = true ∧ demoHalfStart.p.MOT_START ≤ demoHalfStart.p.MOT_MAX ∧
    0 < demoBuild.MOTORS_NUM ∧ demoHalfStart.motorsData.active 0 = true ∧
    0 < demoBuild.PWM_NUM_PORTS ∧ demoHalfStart.motorsData.pwm 0 = some { ccr := 0 } ∧
    demoHalfStart.motorsData.value 0 = -7 ∧
    (motorsSendValues demoBuild demoHalfStart).ccr 0 = 1125 ∧
    ¬ (demoHalfStart.p.MOT_START ≤ (((motorsSendValues demoBuild demoHalfStart).ccr 0 : Int) : ℚ)) := by
  refine ⟨rfl, by norm_num [demoHalfStart, demoWorld, demoConfig], by decide, rfl, by decide,
    rfl, rfl, demoHalfStart_ccr, ?_⟩
  rw [demoHalfStart_ccr]
  norm_num [demoHalfStart, demoWorld, demoConfig]

/-! ## C2: armed CAN output -/

theorem constrainInt_constrainInt {v lo hi : Int} (h0 : 0 ≤ lo) (h1 : lo ≤ hi) :
    constrainInt (constrainInt v 0 hi) lo hi = constrainInt v lo hi := by
  unfold constrainInt
  split_ifs <;> omega

theorem floatToInt_nonneg {x : ℚ} (h : 0 ≤ x) : 0 ≤ floatToInt x := by
  have h1 := floatToInt_mono h
  have h2 : floatToInt (0 : ℚ) = 0 := floatToInt_intCast 0
  rw [h2] at h1
  exact h1

/-- The dead-zone floor `trunc(SCALE * 0.1)` lies between 0 and `SCALE`. -/
theorem canFloor_mem (B : Build) (h0 : 0 ≤ B.MOTORS_SCALE) :
    0 ≤ floatToInt ((B.MOTORS_SCALE : ℚ) * (1 / 10)) ∧
      floatToInt ((B.MOTORS_SCALE : ℚ) * (1 / 10)) ≤ B.MOTORS_SCALE := by
  have hq : (0 : ℚ) ≤ (B.MOTORS_SCALE : ℚ) := by exact_mod_cast h0
  constructor
  · exact floatToInt_nonneg (by positivity)
  · have h1 : (B.MOTORS_SCALE : ℚ) * (1 / 10) ≤ (B.MOTORS_SCALE : ℚ) := by linarith
    have h2 := floatToInt_mono h1
    rw [floatToInt_intCast] at h2
    exact h2

theorem canValue_eq (B : Build) (v : Int) (h0 : 0 ≤ B.MOTORS_SCALE) :
    canValue B (constrainInt v 0 B.MOTORS_SCALE) =
      constrainInt v (floatToInt ((B.MOTORS_SCALE : ℚ) * (1 / 10))) B.MOTORS_SCALE <<< 4 := by
  obtain ⟨h1, h2⟩ := canFloor_mem B h0
  rw [canValue, constrainInt_constrainInt h1 h2]

/-- C2: with the vehicle armed, the iteration of `motorsSendValues` for an
active networked-bound slot `i` holding any integer `v` stores in the slot's
group field `out = clamp(v, trunc(SCALE*0.1), SCALE) << 4`, reduced to 16
bits; the field still holds it when the call returns if no other slot points
to the same field; `out` is at least `trunc(SCALE*0.1)*16` and at most
`SCALE*16`, and the reduction to 16 bits leaves it unchanged whenever
`SCALE*16 <= 65535`. -/
theorem motorsSendValues_can_armed (B : Build) (w : World) (i g : Nat) (f : Fin 4)
    (harmed : w.armed = true) (h0 : 0 ≤ B.MOTORS_SCALE) (hi : i < B.MOTORS_NUM)
    (hact : w.motorsData.active i = true) (hcan : canBound B w i = true)
    (hptr : w.motorsData.canPtrs i = some (g, f)) :
    ∃ out : Int,
      out = constrainInt (w.motorsData.value i)
        (floatToInt ((B.MOTORS_SCALE : ℚ) * (1 / 10))) B.MOTORS_SCALE <<< 4 ∧
      (motorsSendValuesSlot B (motorsSendValuesLoop B i w) i).canField g f = toUint16 out ∧
      ((∀ j, j < B.MOTORS_NUM → j ≠ i → ¬ WritesCan B w g f j) →
        (motorsSendValues B w).canField g f = toUint16 out) ∧
      floatToInt ((B.MOTORS_SCALE : ℚ) * (1 / 10)) * 16 ≤ out ∧ out ≤ B.MOTORS_SCALE * 16 ∧
      (B.MOTORS_SCALE * 16 ≤ 65535 → toUint16 out = out) := by
  have hW : WritesCan B w g f i := ⟨hact, hcan, hptr⟩
  have hout : sentCan B w (w.motorsData.value i) =
      constrainInt (w.motorsData.value i)
        (floatToInt ((B.MOTORS_SCALE : ℚ) * (1 / 10))) B.MOTORS_SCALE <<< 4 := by
    simp [sentCan, harmed, canValue_eq B _ h0]
  obtain ⟨hf0, hf1⟩ := canFloor_mem B h0
  have hmem := @constrainInt_mem (w.motorsData.value i) _ _ hf1
  refine ⟨_, rfl, ?_, ?_, ?_, ?_, ?_⟩
  · rw [motorsSendValuesLoop_can_step B w g f i hW, hout]
  · intro hex
    rw [motorsSendValues_canField]
    apply motorsSendValuesLoop_can
    · intro j hj hWj
      by_cases hji : j = i
      · rw [hji, hout]
      · exact absurd hWj (hex j hj hji)
    · exact ⟨i, hi, hW⟩
  · rw [shiftLeft_four]
    omega
  · rw [shiftLeft_four]
    omega
  · intro h16
    rw [shiftLeft_four, toUint16]
    apply Int.emod_eq_of_lt <;> omega

/-- Witness of C2: slot 1 of the armed demonstration vehicle, which holds
5000 and points to field 0 of group record 0, gets `4095 << 4`. -/
theorem motorsSendValues_can_armed_witness :
    demoWorld.armed = true ∧ 0 ≤ demoBuild.MOTORS_SCALE ∧ 1 < demoBuild.MOTORS_NUM ∧
    demoWorld.motorsData.active 1 = true ∧ canBound demoBuild demoWorld 1 = true ∧
    demoWorld.motorsData.canPtrs 1 = some (0, 0) ∧
    (motorsSendValues demoBuild demoWorld).canField 0 0 ≤ demoBuild.MOTORS_SCALE * 16 := by
  obtain ⟨out, _, _, hfin, _, hhi, hfit⟩ :=
    motorsSendValues_can_armed demoBuild demoWorld 1 0 0 rfl (by decide) (by decide) rfl
      (by simp [canBound, pwmBound, demoWorld, demoMotors]) rfl
  have hex : ∀ j, j < demoBuild.MOTORS_NUM → j ≠ 1 → ¬ WritesCan demoBuild demoWorld 0 0 j :=
    fun j _ hj1 hW => hj1 ((demoWorld_writesCan demoWorld rfl j).mp hW)
  rw [hfin hex, hfit (by decide)]
  exact ⟨rfl, by decide, by decide, rfl, by simp [canBound, pwmBound, demoWorld, demoMotors],
    rfl, hhi⟩

/-! ## C4: `motorsOff` -/

/-- C4 (amended): after `motorsOff`, every active slot's stored value is 0;
the register of every active pulse-bound slot holds `MOT_ARM` converted to an
integer by truncation toward zero (`MOT_ARM` itself when it is integer-valued)
if the vehicle is armed and 0 if it is disarmed; and the group field of every
active networked-bound slot holds 0, armed or not. -/
theorem motorsOff_outputs (B : Build) (w : World) (i : Nat) (hi : i < B.MOTORS_NUM)
    (hact : w.motorsData.active i = true) :
    (motorsOff B w).motorsData.value i = 0 ∧
    (∀ port, i < B.PWM_NUM_PORTS → w.motorsData.pwm i = some port →
      (motorsOff B w).ccr port.ccr = (if w.armed = true then floatToInt w.p.MOT_ARM else 0) ∧
      (∀ n : Int, w.armed = true → w.p.MOT_ARM = (n : ℚ) → (motorsOff B w).ccr port.ccr = n)) ∧
    (∀ g f, canBound B w i = true → w.motorsData.canPtrs i = some (g, f) →
      (motorsOff B w).canField g f = 0) := by
  refine ⟨?_, ?_, ?_⟩
  · rw [motorsOff_value, motorsOffLoop_value]
    simp [hi, hact]
  · intro port hport hpwm
    have h : (motorsOff B w).ccr port.ccr = offPwm w := by
      rw [motorsOff_ccr]
      exact motorsOffLoop_ccr B w port.ccr B.MOTORS_NUM ⟨i, hi, hact, hport, port, hpwm, rfl⟩
    refine ⟨by rw [h]; simp [offPwm], ?_⟩
    intro n harmed hn
    rw [h, offPwm, if_pos harmed, hn, floatToInt_intCast]
  · intro g f hcan hptr
    rw [motorsOff_canField]
    exact motorsOffLoop_can B w g f B.MOTORS_NUM ⟨i, hi, hact, hcan, hptr⟩

/-- Witness of C4 (amended): slot 0 of the armed demonstration vehicle. -/
theorem motorsOff_outputs_witness :
    0 < demoBuild.MOTORS_NUM ∧ demoWorld.motorsData.active 0 = true ∧
    (motorsOff demoBuild demoWorld).motorsData.value 0 = 0 :=
  ⟨by decide, rfl, (motorsOff_outputs demoBuild demoWorld 0 (by decide) rfl).1⟩

theorem demoHalfArm_ccr : (motorsOff demoBuild demoHalfArm).ccr 0 = 975 := by
  rw [motorsOff_ccr, motorsOffLoop_ccr demoBuild demoHalfArm 0 demoBuild.MOTORS_NUM
    ⟨0, by decide, (demoWorld_writesCcr demoHalfArm rfl 0).mpr rfl⟩]
  have h1 : floatToInt (1951 / 2) = 975 :=
    floatToInt_eq_of_nonneg (by norm_num) (by norm_num) (by norm_num)
  simp [offPwm, demoHalfArm, demoWorld, demoConfig, h1]

/-- C4 as stated fails: with `MOT_ARM = 975.5` and the vehicle armed, the
register of the active pulse-bound slot 0 holds 975 after `motorsOff`, not
`MOT_ARM`. -/
theorem motorsOff_register_not_arm :
    demoHalfArm.armed = true ∧ demoHalfArm.motorsData.active 0 = true ∧
    0 < demoBuild.PWM_NUM_PORTS ∧ demoHalfArm.motorsData.pwm 0 = some { ccr := 0 } ∧
    (motorsOff demoBuild demoHalfArm).ccr 0 = 975 ∧
    (((motorsOff demoBuild demoHalfArm).ccr 0 : Int) : ℚ) ≠ demoHalfArm.p.MOT_ARM := by
  refine ⟨rfl, rfl, by decide, rfl, demoHalfArm_ccr, ?_⟩
  rw [demoHalfArm_ccr]
  norm_num [demoHalfArm, demoWorld, demoConfig]

/-! ## `motorsCommands`: the loop -/

section CommandsLoop

variable (B : Build) (th pc rc yc vf : ℚ)

theorem motorsCommandsSlot_setup (w : World) (i : Nat) :
    SameSetup w (motorsCommandsSlot B th pc rc yc vf w i) := by
  simp only [motorsCommandsSlot, World.setValue]
  split_ifs <;> simp [SameSetup]

theorem motorsCommandsSlot_ccr (w : World) (i : Nat) :
    (motorsCommandsSlot B th pc rc yc vf w i).ccr = w.ccr := by
  simp only [motorsCommandsSlot, World.setValue]
  split_ifs <;> rfl

theorem motorsCommandsSlot_canGroups (w : World) (i : Nat) :
    (motorsCommandsSlot B th pc rc yc vf w i).motorsData.canGroups = w.motorsData.canGroups := by
  simp only [motorsCommandsSlot, World.setValue]
  split_ifs <;> rfl

theorem motorsCommandsSlot_limiter (w : World) (i : Nat) :
    (motorsCommandsSlot B th pc rc yc vf w i).motorsData.throttleLimiter =
      w.motorsData.throttleLimiter +
        (if (w.motorsData.active i &&
            decide (mixValue th pc rc yc vf (w.motorsData.distribution i) ≥ (B.MOTORS_SCALE : ℚ)))
            = true
          then B.MOTORS_THROTTLE_LIMITER else 0) := by
  simp only [motorsCommandsSlot, World.setValue]
  by_cases ha : w.motorsData.active i = true
  · by_cases hm : mixValue th pc rc yc vf (w.motorsData.distribution i) ≥ (B.MOTORS_SCALE : ℚ)
    · simp [ha, hm]
    · simp [ha, hm]
  · simp [ha]

theorem motorsCommandsLoop_setup (n : Nat) (w : World) :
    SameSetup w (motorsCommandsLoop B th pc rc yc vf n w) :=
  range_foldl_rel (motorsCommandsSlot B th pc rc yc vf) w SameSetup SameSetup.refl
    (fun _ _ _ => SameSetup.trans) (motorsCommandsSlot_setup B th pc rc yc vf) n

theorem motorsCommandsLoop_ccr (n : Nat) (w : World) :
    (motorsCommandsLoop B th pc rc yc vf n w).ccr = w.ccr :=
  range_foldl_kept (motorsCommandsSlot B th pc rc yc vf) w (fun w => w.ccr) n
    (fun _ _ => motorsCommandsSlot_ccr B th pc rc yc vf _ _)

theorem motorsCommandsLoop_canGroups (n : Nat) (w : World) :
    (motorsCommandsLoop B th pc rc yc vf n w).motorsData.canGroups = w.motorsData.canGroups :=
  range_foldl_kept (motorsCommandsSlot B th pc rc yc vf) w (fun w => w.motorsData.canGroups) n
    (fun _ _ => motorsCommandsSlot_canGroups B th pc rc yc vf _ _)

theorem motorsCommandsLoop_limiter (n : Nat) (w : World) :
    (motorsCommandsLoop B th pc rc yc vf n w).motorsData.throttleLimiter =
      w.motorsData.throttleLimiter +
        ((List.range n).countP (fun i => w.motorsData.active i &&
            decide (mixValue th pc rc yc vf (w.motorsData.distribution i) ≥ (B.MOTORS_SCALE : ℚ))) : Nat)
          * B.MOTORS_THROTTLE_LIMITER := by
  induction n with
  | zero => simp [motorsCommandsLoop]
  | succ n ih =>
    have hs := motorsCommandsLoop_setup B th pc rc yc vf n w
    unfold motorsCommandsLoop at ih hs ⊢
    rw [range_foldl_succ, motorsCommandsSlot_limiter, hs.2.2.2.1, hs.2.2.2.2.2.2.2.2, ih,
      List.range_succ, List.countP_append]
    by_cases hsat : (w.motorsData.active n &&
        decide (mixValue th pc rc yc vf (w.motorsData.distribution n) ≥ (B.MOTORS_SCALE : ℚ))) = true
    · rw [if_pos hsat]
      simp only [List.countP_cons, List.countP_nil, hsat, if_true]
      push_cast
      ring
    · rw [if_neg hsat]
      simp only [List.countP_cons, List.countP_nil, hsat]
      simp

end CommandsLoop

/-! ## `motorsCommands`: the call -/

section CommandsCall

variable (B : Build) (t pc rc yc : ℚ) (w : World)

theorem motorsCommands_ccr : (motorsCommands B t pc rc yc w).ccr =
    (motorsSendValues B (mixedWorld B t pc rc yc w)).ccr := rfl

theorem motorsCommands_canField (g : Nat) (f : Fin 4) :
    (motorsCommands B t pc rc yc w).canField g f =
      (motorsSendValues B (mixedWorld B t pc rc yc w)).canField g f := rfl

theorem motorsCommands_value (j : Nat) : (motorsCommands B t pc rc yc w).motorsData.value j =
    (motorsSendValues B (mixedWorld B t pc rc yc w)).motorsData.value j := rfl

theorem mixedWorld_setup : SameSetup w (mixedWorld B t pc rc yc w) :=
  motorsCommandsLoop_setup B _ pc rc yc _ B.MOTORS_NUM w

theorem motorsCommands_limiter :
    (motorsCommands B t pc rc yc w).motorsData.throttleLimiter =
      constrainFloat (w.motorsData.throttleLimiter +
          (saturatingSlots B w t pc rc yc B.MOTORS_NUM : Nat) * B.MOTORS_THROTTLE_LIMITER
          - B.MOTORS_THROTTLE_LIMITER) 0 (limiterMax B) := by
  have h1 : (motorsCommands B t pc rc yc w).motorsData.throttleLimiter =
      constrainFloat ((motorsSendValues B (mixedWorld B t pc rc yc w)).motorsData.throttleLimiter
        - B.MOTORS_THROTTLE_LIMITER) 0 (limiterMax B) := rfl
  rw [h1, motorsSendValues_motorsData, motorsSendValuesLoop_limiter, mixedWorld,
    motorsCommandsLoop_limiter]
  rfl

end CommandsCall

/-! ## C3: disarmed output -/

theorem motorsSendValues_disarmed_ccr (B : Build) (w : World) (a : Nat) (hd : w.armed = false)
    (hex : ∃ i, i < B.MOTORS_NUM ∧ WritesCcr B w a i) : (motorsSendValues B w).ccr a = 0 := by
  rw [motorsSendValues_ccr]
  apply motorsSendValuesLoop_ccr B w a 0 B.MOTORS_NUM _ hex
  intro j _ _
  simp [sentPwm, hd]

theorem motorsSendValues_disarmed_can (B : Build) (w : World) (g : Nat) (f : Fin 4)
    (hd : w.armed = false) (hex : ∃ i, i < B.MOTORS_NUM ∧ WritesCan B w g f i) :
    (motorsSendValues B w).canField g f = 0 := by
  rw [motorsSendValues_canField]
  apply motorsSendValuesLoop_can B w g f 0 B.MOTORS_NUM _ hex
  intro j _ _
  simp [sentCan, hd, toUint16]

/-- C3: with the vehicle disarmed, `motorsSendValues`, and `motorsCommands`
for every throttle, pitch, roll and yaw command, leave 0 in the pulse register
of every active pulse-bound slot and 0 in the group field of every active
networked-bound slot, whatever the stored and the newly computed values. -/
theorem disarmed_outputs_zero (B : Build) (w : World) (i : Nat) (hd : w.armed = false)
    (hi : i < B.MOTORS_NUM) (hact : w.motorsData.active i = true) :
    (∀ port, i < B.PWM_NUM_PORTS → w.motorsData.pwm i = some port →
      (motorsSendValues B w).ccr port.ccr = 0 ∧
      ∀ t pc rc yc : ℚ, (motorsCommands B t pc rc yc w).ccr port.ccr = 0) ∧
    (∀ g f, canBound B w i = true → w.motorsData.canPtrs i = some (g, f) →
      (motorsSendValues B w).canField g f = 0 ∧
      ∀ t pc rc yc : ℚ, (motorsCommands B t pc rc yc w).canField g f = 0) := by
  constructor
  · intro port hport hpwm
    have hW : WritesCcr B w port.ccr i := ⟨hact, hport, port, hpwm, rfl⟩
    refine ⟨motorsSendValues_disarmed_ccr B w port.ccr hd ⟨i, hi, hW⟩, ?_⟩
    intro t pc rc yc
    have hs := mixedWorld_setup B t pc rc yc w
    rw [motorsCommands_ccr]
    exact motorsSendValues_disarmed_ccr B _ port.ccr (by rw [hs.2.1]; exact hd)
      ⟨i, hi, (WritesCcr_congr B hs port.ccr i).mpr hW⟩
  · intro g f hcan hptr
    have hW : WritesCan B w g f i := ⟨hact, hcan, hptr⟩
    refine ⟨motorsSendValues_disarmed_can B w g f hd ⟨i, hi, hW⟩, ?_⟩
    intro t pc rc yc
    have hs := mixedWorld_setup B t pc rc yc w
    rw [motorsCommands_canField]
    exact motorsSendValues_disarmed_can B _ g f (by rw [hs.2.1]; exact hd)
      ⟨i, hi, (WritesCan_congr B hs g f i).mpr hW⟩

/-- Witness of C3: the disarmed demonstration vehicle; its networked slot 1
holds 5000 and its group field is 0 after `motorsSendValues`. -/
theorem disarmed_outputs_zero_witness :
    demoDisarmed.armed = false ∧ 1 < demoBuild.MOTORS_NUM ∧
    demoDisarmed.motorsData.active 1 = true ∧ demoDisarmed.motorsData.value 1 = 5000 ∧
    (motorsSendValues demoBuild demoDisarmed).canField 0 0 = 0 :=
  ⟨rfl, by decide, rfl, rfl,
    ((disarmed_outputs_zero demoBuild demoDisarmed 1 rfl (by decide) rfl).2 0 0
      (by simp [canBound, pwmBound, demoDisarmed, demoWorld, demoMotors]) rfl).1⟩

/-! ## C5: the limiter stays in its range -/

theorem limiterMax_nonneg (B : Build) (h0 : 0 ≤ B.MOTORS_SCALE) : 0 ≤ limiterMax B := by
  unfold limiterMax
  exact_mod_cast Int.tdiv_nonneg h0 (by decide)

theorem limiterMax_le (B : Build) (h0 : 0 ≤ B.MOTORS_SCALE) :
    limiterMax B ≤ (B.MOTORS_SCALE : ℚ) / 4 := by
  unfold limiterMax
  rw [Int.tdiv_eq_ediv h0 (by decide)]
  have h : B.MOTORS_SCALE / 4 * 4 ≤ B.MOTORS_SCALE := Int.ediv_mul_le _ (by decide)
  have hq : ((B.MOTORS_SCALE / 4 : Int) : ℚ) * 4 ≤ (B.MOTORS_SCALE : ℚ) := by exact_mod_cast h
  linarith

theorem motorsInit_limiter (B : Build) (w : World) :
    (motorsInit B w).motorsData.throttleLimiter = 0 := by
  unfold motorsInit
  simp only []
  split
  · rfl
  · exact motorsOff_limiter B _

theorem motorsSendValues_limiter (B : Build) (w : World) :
    (motorsSendValues B w).motorsData.throttleLimiter = w.motorsData.throttleLimiter := by
  rw [motorsSendValues_motorsData, motorsSendValuesLoop_limiter]

/-- C5: in every state reached from `motorsInit` by any finite sequence of
`motorsCommands` (with arbitrary commands, voltages and armed flags),
`motorsSendValues` and `motorsOff` calls, the throttle limiter lies in
`[0, MOTORS_SCALE/4]`, the bound being the integer quotient that the code
computes and so at most the exact quotient. -/
theorem limiter_bounded (B : Build) (h0 : 0 ≤ B.MOTORS_SCALE) (w : World)
    (hr : Reachable B w) :
    0 ≤ w.motorsData.throttleLimiter ∧ w.motorsData.throttleLimiter ≤ limiterMax B ∧
      w.motorsData.throttleLimiter ≤ (B.MOTORS_SCALE : ℚ) / 4 := by
  have hmax := limiterMax_nonneg B h0
  have hin : 0 ≤ w.motorsData.throttleLimiter ∧ w.motorsData.throttleLimiter ≤ limiterMax B := by
    induction hr with
    | init w =>
      rw [motorsInit_limiter]
      exact ⟨le_refl 0, hmax⟩
    | commands t pc rc yc w _ _ =>
      rw [motorsCommands_limiter]
      exact constrainFloat_mem hmax
    | sendValues w _ ih =>
      rw [motorsSendValues_limiter]
      exact ih
    | off w _ _ =>
      rw [motorsOff_limiter]
      exact ⟨le_refl 0, hmax⟩
    | others w w2 _ he ih =>
      rw [he]
      exact ih
  exact ⟨hin.1, hin.2, le_trans hin.2 (limiterMax_le B h0)⟩

/-- Witness of C5: initialisation, a change of the armed flag and of the
battery voltage by other subsystems, then a saturating command cycle. -/
theorem limiter_bounded_witness :
    0 ≤ demoBuild.MOTORS_SCALE ∧
    0 ≤ (motorsCommands demoBuild 4000 3000 0 0 demoSagging).motorsData.throttleLimiter ∧
    (motorsCommands demoBuild 4000 3000 0 0 demoSagging).motorsData.throttleLimiter
      ≤ limiterMax demoBuild := by
  have h := limiter_bounded demoBuild (by decide)
    (motorsCommands demoBuild 4000 3000 0 0 demoSagging)
    (Reachable.commands 4000 3000 0 0 demoSagging
      (Reachable.others (motorsInit demoBuild demoWorld) demoSagging
        (Reachable.init demoWorld) rfl))
  exact ⟨by decide, h.1, h.2.1⟩

/-! ## C6 and C7: the limiter over one cycle -/

theorem saturatingSlots_pos (B : Build) (w : World) (t pc rc yc : ℚ) (n : Nat)
    (h : ∃ i, i < n ∧ cycleSaturates B w t pc rc yc i = true) :
    1 ≤ saturatingSlots B w t pc rc yc n := by
  obtain ⟨i, hi, hs⟩ := h
  unfold saturatingSlots
  exact List.countP_pos_iff.mpr ⟨i, List.mem_range.mpr hi, hs⟩

theorem saturatingSlots_zero (B : Build) (w : World) (t pc rc yc : ℚ) (n : Nat)
    (h : ∀ i, i < n → cycleSaturates B w t pc rc yc i = false) :
    saturatingSlots B w t pc rc yc n = 0 := by
  unfold saturatingSlots
  rw [List.countP_eq_zero]
  intro i hi
  rw [h i (List.mem_range.mp hi)]
  simp

/-- C6 (amended): in a `motorsCommands` cycle that starts with limiter `L` in
`[0, MOTORS_SCALE/4]` (the integer quotient `limiterMax`) and in which `k >= 1` active slots have a pre-clamp mix
value `>= MOTORS_SCALE`, the limiter after the cycle is
`min(L + (k - 1) * step, MOTORS_SCALE/4)`: it does not decrease; it is `L`
again when a single slot saturates, so that the next cycle's effective
throttle for the same throttle command is the same; and it is
`min(L + step, MOTORS_SCALE/4)` when exactly two slots saturate. -/
theorem motorsCommands_limiter_saturated (B : Build) (w : World) (t pc rc yc : ℚ)
    (hstep : 0 ≤ B.MOTORS_THROTTLE_LIMITER)
    (hL0 : 0 ≤ w.motorsData.throttleLimiter)
    (hL1 : w.motorsData.throttleLimiter ≤ limiterMax B)
    (hsat : ∃ i, i < B.MOTORS_NUM ∧ w.motorsData.active i = true ∧
      cycleMix B w t pc rc yc i ≥ (B.MOTORS_SCALE : ℚ)) :
    ∃ k : Nat, k = saturatingSlots B w t pc rc yc B.MOTORS_NUM ∧ 1 ≤ k ∧
      (motorsCommands B t pc rc yc w).motorsData.throttleLimiter =
        min (w.motorsData.throttleLimiter + ((k : ℚ) - 1) * B.MOTORS_THROTTLE_LIMITER)
          (limiterMax B) ∧
      w.motorsData.throttleLimiter ≤ (motorsCommands B t pc rc yc w).motorsData.throttleLimiter ∧
      (k = 1 → (motorsCommands B t pc rc yc w).motorsData.throttleLimiter
        = w.motorsData.throttleLimiter ∧
        effectiveThrottle B (motorsCommands B t pc rc yc w) t = effectiveThrottle B w t) ∧
      (k = 2 → (motorsCommands B t pc rc yc w).motorsData.throttleLimiter
        = min (w.motorsData.throttleLimiter + B.MOTORS_THROTTLE_LIMITER) (limiterMax B)) := by
  have hk : 1 ≤ saturatingSlots B w t pc rc yc B.MOTORS_NUM := by
    apply saturatingSlots_pos
    obtain ⟨i, hi, ha, hm⟩ := hsat
    exact ⟨i, hi, by simp [cycleSaturates, ha, hm]⟩
  have hkq : (1 : ℚ) ≤ (saturatingSlots B w t pc rc yc B.MOTORS_NUM : ℚ) := by exact_mod_cast hk
  have hnn : 0 ≤ ((saturatingSlots B w t pc rc yc B.MOTORS_NUM : ℚ) - 1)
      * B.MOTORS_THROTTLE_LIMITER := mul_nonneg (by linarith) hstep
  have hmain : (motorsCommands B t pc rc yc w).motorsData.throttleLimiter =
      min (w.motorsData.throttleLimiter +
        ((saturatingSlots B w t pc rc yc B.MOTORS_NUM : ℚ) - 1) * B.MOTORS_THROTTLE_LIMITER)
        (limiterMax B) := by
    rw [motorsCommands_limiter, constrainFloat]
    have he : w.motorsData.throttleLimiter +
        (saturatingSlots B w t pc rc yc B.MOTORS_NUM : ℚ) * B.MOTORS_THROTTLE_LIMITER
          - B.MOTORS_THROTTLE_LIMITER =
        w.motorsData.throttleLimiter +
          ((saturatingSlots B w t pc rc yc B.MOTORS_NUM : ℚ) - 1) * B.MOTORS_THROTTLE_LIMITER := by
      ring
    rw [he]
    rw [if_neg (not_lt.mpr (by linarith))]
    split_ifs with h
    · exact (min_eq_right (le_of_lt h)).symm
    · exact (min_eq_left (not_lt.mp h)).symm
  refine ⟨_, rfl, hk, hmain, ?_, ?_, ?_⟩
  · rw [hmain]
    exact le_min (by linarith) hL1
  · intro h1
    have hsame : (motorsCommands B t pc rc yc w).motorsData.throttleLimiter
        = w.motorsData.throttleLimiter := by
      rw [hmain, h1]
      simp [hL1]
    exact ⟨hsame, by rw [effectiveThrottle, hsame, effectiveThrottle]⟩
  · intro h2
    rw [hmain, h2]
    norm_num

/-- C7: in a `motorsCommands` cycle that starts with limiter `L` in
`[0, MOTORS_SCALE/4]` (the integer quotient `limiterMax`; only the upper
bound is used) and in which no
active slot's pre-clamp mix value reaches `MOTORS_SCALE`, the limiter after
the cycle is `max(L - step, 0)`: it decays by one step, clamped at 0. -/
theorem motorsCommands_limiter_decay (B : Build) (w : World) (t pc rc yc : ℚ)
    (hstep : 0 ≤ B.MOTORS_THROTTLE_LIMITER)
    (hL1 : w.motorsData.throttleLimiter ≤ limiterMax B)
    (hno : ∀ i, i < B.MOTORS_NUM → w.motorsData.active i = true →
      cycleMix B w t pc rc yc i < (B.MOTORS_SCALE : ℚ)) :
    (motorsCommands B t pc rc yc w).motorsData.throttleLimiter =
      max (w.motorsData.throttleLimiter - B.MOTORS_THROTTLE_LIMITER) 0 := by
  have hk : saturatingSlots B w t pc rc yc B.MOTORS_NUM = 0 := by
    apply saturatingSlots_zero
    intro i hi
    by_cases ha : w.motorsData.active i = true
    · simp [cycleSaturates, ha, hno i hi ha]
    · simp [cycleSaturates, ha]
  rw [motorsCommands_limiter, hk, constrainFloat]
  simp only [Nat.cast_zero, zero_mul, add_zero]
  split_ifs with h1 h2
  · exact (max_eq_right (le_of_lt h1)).symm
  · linarith
  · exact (max_eq_left (not_lt.mp h1)).symm

/-! ## The demonstration vehicle over one cycle -/

theorem demoWorld_effectiveThrottle (t : ℚ) (h0 : 0 ≤ t) (h1 : t ≤ 4095) :
    effectiveThrottle demoBuild demoWorld t = t := by
  simp only [effectiveThrottle, constrainFloat, demoWorld, demoMotors, demoBuild, sub_zero]
  rw [if_neg (not_lt.mpr h0), if_neg (not_lt.mpr (by push_cast; exact h1))]

theorem demoWorld_voltageFactor : voltageFactor demoBuild demoWorld.analogData = 1 := by
  norm_num [voltageFactor, demoWorld, demoBuild]

theorem demoWorld_cycleMix (t pc : ℚ) (h0 : 0 ≤ t) (h1 : t ≤ 4095) (i : Nat) :
    cycleMix demoBuild demoWorld t pc 0 0 i =
      if i = 0 then t + pc else if i = 1 then t - pc else 0 := by
  unfold cycleMix
  rw [demoWorld_effectiveThrottle t h0 h1, demoWorld_voltageFactor]
  by_cases hi0 : i = 0
  · subst hi0
    simp [mixValue, demoWorld, demoMotors, demoPwrd]
  · by_cases hi1 : i = 1
    · subst hi1
      simp [mixValue, demoWorld, demoMotors, demoPwrd]
      ring
    · simp [mixValue, demoWorld, demoMotors, demoPwrd, hi0, hi1]

theorem demoWorld_cycleSaturates (i : Nat) :
    cycleSaturates demoBuild demoWorld 3000 2000 0 0 i = decide (i = 0) := by
  unfold cycleSaturates
  rw [demoWorld_cycleMix 3000 2000 (by norm_num) (by norm_num)]
  by_cases hi0 : i = 0
  · subst hi0
    norm_num [demoWorld, demoMotors, demoBuild]
  · by_cases hi1 : i = 1
    · subst hi1
      norm_num [demoWorld, demoMotors, demoBuild]
    · have h2 : ¬ i < 2 := by omega
      simp [demoWorld, demoMotors, hi0, h2]

theorem demoWorld_saturatingSlots :
    saturatingSlots demoBuild demoWorld 3000 2000 0 0 demoBuild.MOTORS_NUM = 1 := by
  unfold saturatingSlots
  rw [funext demoWorld_cycleSaturates]
  decide

theorem demoWorld_limiterMax : limiterMax demoBuild = 1023 := by
  have h : Int.tdiv demoBuild.MOTORS_SCALE 4 = 1023 := by decide
  rw [limiterMax, h]
  norm_num

theorem demoWorld_limiter_after :
    (motorsCommands demoBuild 3000 2000 0 0 demoWorld).motorsData.throttleLimiter = 0 := by
  rw [motorsCommands_limiter, demoWorld_saturatingSlots, demoWorld_limiterMax]
  norm_num [constrainFloat, demoWorld, demoMotors, demoBuild]

/-- Witness of C6 (amended): the demonstration vehicle with throttle 3000 and
pitch 2000, where slot 0 alone saturates (mix value 5000). -/
theorem motorsCommands_limiter_saturated_witness :
    0 ≤ demoBuild.MOTORS_THROTTLE_LIMITER ∧ 0 ≤ demoWorld.motorsData.throttleLimiter ∧
    demoWorld.motorsData.throttleLimiter ≤ limiterMax demoBuild ∧
    demoWorld.motorsData.throttleLimiter ≤
      (motorsCommands demoBuild 3000 2000 0 0 demoWorld).motorsData.throttleLimiter := by
  have hstep : 0 ≤ demoBuild.MOTORS_THROTTLE_LIMITER := by norm_num [demoBuild]
  have hL0 : 0 ≤ demoWorld.motorsData.throttleLimiter := by norm_num [demoWorld, demoMotors]
  have hL1 : demoWorld.motorsData.throttleLimiter ≤ limiterMax demoBuild := by
    rw [demoWorld_limiterMax]
    norm_num [demoWorld, demoMotors]
  obtain ⟨_, _, _, _, hle, _, _⟩ :=
    motorsCommands_limiter_saturated demoBuild demoWorld 3000 2000 0 0 hstep hL0 hL1
      ⟨0, by decide, rfl, by
        rw [demoWorld_cycleMix 3000 2000 (by norm_num) (by norm_num)]
        norm_num [demoBuild]⟩
  exact ⟨hstep, hL0, hL1, hle⟩

/-- C6 as stated fails: the demonstration vehicle starts a cycle with limiter
0 and commands throttle 3000, pitch 2000; the active slot 0 has the pre-clamp
mix value 5000 >= 4095, yet the limiter after the cycle is 0, not
`min(0 + step, MOTORS_SCALE/4) = 0.15`, and is not larger than before. -/
theorem motorsCommands_single_saturation_keeps_limiter :
    0 ≤ demoWorld.motorsData.throttleLimiter ∧
    demoWorld.motorsData.throttleLimiter ≤ limiterMax demoBuild ∧
    0 < demoBuild.MOTORS_NUM ∧ demoWorld.motorsData.active 0 = true ∧
    cycleMix demoBuild demoWorld 3000 2000 0 0 0 ≥ (demoBuild.MOTORS_SCALE : ℚ) ∧
    demoWorld.motorsData.throttleLimiter < limiterMax demoBuild ∧
    (motorsCommands demoBuild 3000 2000 0 0 demoWorld).motorsData.throttleLimiter = 0 ∧
    (motorsCommands demoBuild 3000 2000 0 0 demoWorld).motorsData.throttleLimiter ≠
      min (demoWorld.motorsData.throttleLimiter + demoBuild.MOTORS_THROTTLE_LIMITER)
        (limiterMax demoBuild) ∧
    ¬ (demoWorld.motorsData.throttleLimiter <
      (motorsCommands demoBuild 3000 2000 0 0 demoWorld).motorsData.throttleLimiter) := by
  rw [demoWorld_limiter_after, demoWorld_limiterMax,
    demoWorld_cycleMix 3000 2000 (by norm_num) (by norm_num)]
  refine ⟨?_, ?_, by decide, rfl, ?_, ?_, rfl, ?_, ?_⟩ <;>
    norm_num [demoWorld, demoMotors, demoBuild]

/-- Witness of C7: the demonstration vehicle with throttle 1000 and no
attitude command, where both mix values are 1000. -/
theorem motorsCommands_limiter_decay_witness :
    0 ≤ demoBuild.MOTORS_THROTTLE_LIMITER ∧
    demoWorld.motorsData.throttleLimiter ≤ limiterMax demoBuild ∧
    (motorsCommands demoBuild 1000 0 0 0 demoWorld).motorsData.throttleLimiter =
      max (demoWorld.motorsData.throttleLimiter - demoBuild.MOTORS_THROTTLE_LIMITER) 0 := by
  have hstep : 0 ≤ demoBuild.MOTORS_THROTTLE_LIMITER := by norm_num [demoBuild]
  have hL1 : demoWorld.motorsData.throttleLimiter ≤ limiterMax demoBuild := by
    rw [demoWorld_limiterMax]
    norm_num [demoWorld, demoMotors]
  refine ⟨hstep, hL1, motorsCommands_limiter_decay demoBuild demoWorld 1000 0 0 0 hstep hL1 ?_⟩
  intro i _ _
  rw [demoWorld_cycleMix 1000 0 (by norm_num) (by norm_num)]
  split_ifs <;> norm_num [demoBuild]

/-! ## C8: the stored values and the recorded commands -/

theorem mixValue_eq (e pc rc yc f : ℚ) (d : motorsPowerStruct_t) :
    mixValue e pc rc yc f d =
      f * (e * d.throttle / 100 + pc * d.pitch / 100 + rc * d.roll / 100 + yc * d.yaw / 100) := by
  simp only [mixValue]
  ring

theorem canCount_succ (w : World) (n : Nat) :
    canCount w (n + 1) = canCount w n + (if (w.motorsData.can n).isSome = true then 1 else 0) := by
  unfold canCount
  rw [List.range_succ, List.countP_append]
  simp [List.countP_cons]

theorem canCount_le (w : World) (n : Nat) : canCount w n ≤ n := by
  unfold canCount
  have h := List.countP_le_length (fun j => (w.motorsData.can j).isSome) (l := List.range n)
  simpa using h

theorem groupCalls_succ (w : World) (n : Nat) :
    groupCalls w (n + 1) = groupCalls w n ++
      (match w.motorsData.can n with
        | none => []
        | some node =>
          [CanCall.setGroup node.nodeId (canCount w n / 4 + 1) (canCount w n % 4 + 1)]) := by
  unfold groupCalls
  rw [List.range_succ, List.filterMap_append]
  cases h : w.motorsData.can n <;> simp [List.filterMap_cons, h]

theorem motorsSetCanGroupSlot_none (c : GroupCursor) (i : Nat)
    (h : c.world.motorsData.can i = none) : motorsSetCanGroupSlot c i = c := by
  simp [motorsSetCanGroupSlot, h]

/-- The loop body of `motorsSetCanGroup` for a slot with a resolved node. -/
theorem motorsSetCanGroupSlot_some (c : GroupCursor) (i : Nat) (node : canNodes_t)
    (h : c.world.motorsData.can i = some node) (hs : c.subGroup < 4) :
    motorsSetCanGroupSlot c i =
      { group := if c.subGroup = 3 then c.group + 1 else c.group,
        subGroup := if c.subGroup = 3 then 0 else c.subGroup + 1,
        world := { c.world with
          canLog := c.world.canLog ++
            [CanCall.setGroup node.nodeId (c.group + 1) (c.subGroup + 1)],
          motorsData := { c.world.motorsData with
            canPtrs := Function.update c.world.motorsData.canPtrs i
              (some (c.group, ⟨c.subGroup, hs⟩)),
            numGroups := c.world.motorsData.numGroups + (if c.subGroup = 0 then 1 else 0) } } } := by
  obtain ⟨g, sg, w⟩ := c
  simp only at h hs ⊢
  interval_cases sg <;>
    simp [motorsSetCanGroupSlot, h, MOTORS_CAN_GROUP_SIZE, World.canCall]

theorem motorsSetCanGroupLoop_inv (w : World) (n : Nat) :
    GroupInv w n (motorsSetCanGroupLoop n w) := by
  induction n with
  | zero =>
    constructor <;> simp [motorsSetCanGroupLoop, canCount, groupCalls]
  | succ n ih =>
    unfold motorsSetCanGroupLoop at ih ⊢
    rw [range_foldl_succ]
    generalize (List.range n).foldl motorsSetCanGroupSlot
      { group := 0, subGroup := 0, world := w } = c at ih ⊢
    have hcs := canCount_succ w n
    have hgs := groupCalls_succ w n
    cases hcan : w.motorsData.can n with
    | none =>
      rw [hcan] at hcs hgs
      simp only [Option.isSome_none, Bool.false_eq_true, if_false, add_zero] at hcs
      simp only [List.append_nil] at hgs
      rw [motorsSetCanGroupSlot_none c n (by rw [ih.can]; exact hcan)]
      constructor
      · rw [hcs]; exact ih.group
      · rw [hcs]; exact ih.subGroup
      · exact ih.can
      · rw [hcs]; exact ih.numGroups
      · intro i
        rw [ih.canPtrs i]
        by_cases hi : i = n
        · subst hi
          simp [hcan]
        · have h1 : i < n + 1 ↔ i < n := by omega
          simp only [h1]
      · rw [hgs]; exact ih.canLog
      · exact ih.active
      · exact ih.pwm
      · exact ih.canGroups
      · exact ih.value
      · exact ih.limiter
      · exact ih.ccr
      · exact ih.armed
      · exact ih.p
    | some node =>
      rw [hcan] at hcs hgs
      simp only [Option.isSome_some, if_true] at hcs
      have hsub : c.subGroup < 4 := by
        rw [ih.subGroup]
        exact Nat.mod_lt _ (by decide)
      rw [motorsSetCanGroupSlot_some c n node (by rw [ih.can]; exact hcan) hsub]
      have hg := ih.group
      have hsg := ih.subGroup
      constructor
      · simp only [hcs]
        split_ifs <;> omega
      · simp only [hcs]
        split_ifs <;> omega
      · exact ih.can
      · simp only [hcs, ih.numGroups]
        split_ifs <;> omega
      · intro i
        by_cases hi : i = n
        · subst hi
          have hf : (⟨c.subGroup, hsub⟩ : Fin 4) = fieldOf (canCount w i) := by
            apply Fin.ext
            simp [fieldOf, hsg]
          simp [hcan, hg, hf]
        · have h1 : i < n + 1 ↔ i < n := by omega
          simp only [Function.update_noteq hi, ih.canPtrs i, h1]
      · simp only [ih.canLog, hgs, hg, hsg, List.append_assoc]
      · exact ih.active
      · exact ih.pwm
      · exact ih.canGroups
      · exact ih.value
      · exact ih.limiter
      · exact ih.ccr
      · exact ih.armed
      · exact ih.p

/-! ## C9 and C10: group count and group assignment -/

/-- C9: for every binding table in which exactly `N` slots below `MOTORS_NUM`
have a resolved networked node (so `0 <= N <= MOTORS_NUM`),
`motorsSetCanGroup` run from a zeroed group count leaves the group count
`ceil(N/4)`, that is `(N + 3) / 4`, the number `c` with `N <= 4c < N + 4`;
it is 0 when `N = 0`. -/
theorem motorsSetCanGroup_numGroups (B : Build) (w : World)
    (hz : w.motorsData.numGroups = 0) :
    ∃ N : Nat, N = canCount w B.MOTORS_NUM ∧ N ≤ B.MOTORS_NUM ∧
      (motorsSetCanGroup B w).motorsData.numGroups = (N + 3) / 4 ∧
      N ≤ 4 * (motorsSetCanGroup B w).motorsData.numGroups ∧
      4 * (motorsSetCanGroup B w).motorsData.numGroups < N + 4 ∧
      (N = 0 → (motorsSetCanGroup B w).motorsData.numGroups = 0) := by
  have h := (motorsSetCanGroupLoop_inv w B.MOTORS_NUM).numGroups
  rw [hz, Nat.zero_add] at h
  have hc : (motorsSetCanGroup B w).motorsData.numGroups = (canCount w B.MOTORS_NUM + 3) / 4 := h
  refine ⟨_, rfl, canCount_le w B.MOTORS_NUM, hc, ?_, ?_, ?_⟩ <;> omega

/-- Witness of C9: the demonstration vehicle before group assignment has one
networked slot and gets one group. -/
theorem motorsSetCanGroup_numGroups_witness :
    demoUngrouped.motorsData.numGroups = 0 ∧
    (motorsSetCanGroup demoBuild demoUngrouped).motorsData.numGroups
      = (canCount demoUngrouped demoBuild.MOTORS_NUM + 3) / 4 := by
  obtain ⟨N, hN, _, hc, _⟩ := motorsSetCanGroup_numGroups demoBuild demoUngrouped rfl
  rw [hN] at hc
  exact ⟨rfl, hc⟩

/-- C10: for every binding table, the slot `i` that is the `k`-th (0-based, in
increasing index order) with a resolved networked node is given by
`motorsSetCanGroup` field position `k % 4` of group record `k / 4`, the record
that `motorsCanSendGroups` sends as group `k / 4 + 1`, and its node is told
group `k / 4 + 1` and sub-group `k % 4 + 1` by `canSetGroup`; the
`canSetGroup` calls are exactly these, in index order. -/
theorem motorsSetCanGroup_assignment (B : Build) (w : World) (i : Nat) (node : canNodes_t)
    (hi : i < B.MOTORS_NUM) (hcan : w.motorsData.can i = some node) :
    ∃ k : Nat, k = canCount w i ∧
      (motorsSetCanGroup B w).motorsData.canPtrs i = some (k / 4, fieldOf k) ∧
      (fieldOf k).val = k % 4 ∧
      CanCall.setGroup node.nodeId (k / 4 + 1) (k % 4 + 1) ∈ (motorsSetCanGroup B w).canLog ∧
      (motorsSetCanGroup B w).canLog = w.canLog ++ groupCalls w B.MOTORS_NUM ∧
      (∀ w2 : World, k / 4 < w2.motorsData.numGroups →
        CanCall.setpoint16 (k / 4 + 1) (w2.motorsData.canGroups (k / 4))
          ∈ (motorsCanSendGroups w2).canLog) := by
  have hinv := motorsSetCanGroupLoop_inv w B.MOTORS_NUM
  have hlog : (motorsSetCanGroup B w).canLog = w.canLog ++ groupCalls w B.MOTORS_NUM :=
    hinv.canLog
  refine ⟨_, rfl, ?_, rfl, ?_, hlog, ?_⟩
  · have h := hinv.canPtrs i
    rw [if_pos ⟨hi, by simp [hcan]⟩] at h
    exact h
  · rw [hlog]
    apply List.mem_append_right
    unfold groupCalls
    rw [List.mem_filterMap]
    exact ⟨i, List.mem_range.mpr hi, by simp [hcan]⟩
  · intro w2 hlt
    rw [motorsCanSendGroups_eq]
    apply List.mem_append_right
    unfold groupFrames
    rw [List.mem_map]
    exact ⟨canCount w i / 4, List.mem_range.mpr hlt, rfl⟩

/-- Witness of C10: slot 1 of the demonstration vehicle is its first networked
slot (node 2). -/
theorem motorsSetCanGroup_assignment_witness :
    1 < demoBuild.MOTORS_NUM ∧ demoUngrouped.motorsData.can 1 = some { nodeId := 2 } ∧
    (motorsSetCanGroup demoBuild demoUngrouped).motorsData.canPtrs 1
      = some (canCount demoUngrouped 1 / 4, fieldOf (canCount demoUngrouped 1)) := by
  obtain ⟨k, hk, hptr, _⟩ :=
    motorsSetCanGroup_assignment demoBuild demoUngrouped 1 { nodeId := 2 } (by decide) rfl
  rw [hk] at hptr
  exact ⟨by decide, rfl, hptr⟩

/-! ## C12: the voltage factor -/

/-- C12: for every positive nominal voltage `n = MOTORS_CELL_VOLTS *
batCellCount` and every measured voltage `v`, the voltage factor
`1 + (n - v)/n` computed by `motorsCommands` is 1 when `v = n`, greater than
1 when `v < n` and less than 1 when `v > n`; with `v = n` the pre-clamp mix
value of every slot in the cycle is the unscaled mix
`e*dt/100 + p*dp/100 + r*dr/100 + y*dy/100`. -/
theorem voltageFactor_cases (B : Build) (w : World)
    (hn : 0 < B.MOTORS_CELL_VOLTS * w.analogData.batCellCount) :
    voltageFactor B w.analogData =
      1 + (B.MOTORS_CELL_VOLTS * w.analogData.batCellCount - w.analogData.vIn)
        / (B.MOTORS_CELL_VOLTS * w.analogData.batCellCount) ∧
    (w.analogData.vIn = B.MOTORS_CELL_VOLTS * w.analogData.batCellCount →
      voltageFactor B w.analogData = 1) ∧
    (w.analogData.vIn < B.MOTORS_CELL_VOLTS * w.analogData.batCellCount →
      1 < voltageFactor B w.analogData) ∧
    (w.analogData.vIn > B.MOTORS_CELL_VOLTS * w.analogData.batCellCount →
      voltageFactor B w.analogData < 1) ∧
    (w.analogData.vIn = B.MOTORS_CELL_VOLTS * w.analogData.batCellCount →
      ∀ (t pc rc yc : ℚ) (i : Nat),
        cycleMix B w t pc rc yc i =
          effectiveThrottle B w t * (w.motorsData.distribution i).throttle / 100
            + pc * (w.motorsData.distribution i).pitch / 100
            + rc * (w.motorsData.distribution i).roll / 100
            + yc * (w.motorsData.distribution i).yaw / 100) := by
  have hone : w.analogData.vIn = B.MOTORS_CELL_VOLTS * w.analogData.batCellCount →
      voltageFactor B w.analogData = 1 := by
    intro h
    simp [voltageFactor, h]
  refine ⟨rfl, hone, ?_, ?_, ?_⟩
  · intro h
    have : 0 < (B.MOTORS_CELL_VOLTS * w.analogData.batCellCount - w.analogData.vIn)
        / (B.MOTORS_CELL_VOLTS * w.analogData.batCellCount) := div_pos (by linarith) hn
    simp only [voltageFactor]
    linarith
  · intro h
    have : (B.MOTORS_CELL_VOLTS * w.analogData.batCellCount - w.analogData.vIn)
        / (B.MOTORS_CELL_VOLTS * w.analogData.batCellCount) < 0 :=
      div_neg_of_neg_of_pos (by linarith) hn
    simp only [voltageFactor]
    linarith
  · intro h t pc rc yc i
    rw [cycleMix, mixValue_eq, hone h, one_mul]

/-- Witness of C12: the demonstration vehicle, three cells of 3.7 V measured
at 11.1 V. -/
theorem voltageFactor_cases_witness :
    0 < demoBuild.MOTORS_CELL_VOLTS * demoWorld.analogData.batCellCount ∧
    voltageFactor demoBuild demoWorld.analogData = 1 := by
  have hn : 0 < demoBuild.MOTORS_CELL_VOLTS * demoWorld.analogData.batCellCount := by
    norm_num [demoBuild, demoWorld]
  exact ⟨hn, (voltageFactor_cases demoBuild demoWorld hn).2.1
    (by norm_num [demoBuild, demoWorld])⟩

/-! ## C18: the limiter and the number of saturating slots -/

theorem constrainFloat_eq_max_min {x lo hi : ℚ} (h : lo ≤ hi) :
    constrainFloat x lo hi = max lo (min x hi) := by
  unfold constrainFloat
  split_ifs with h1 h2
  · rw [max_eq_left]
    exact le_trans (min_le_left _ _) (le_of_lt h1)
  · rw [min_eq_right (le_of_lt h2), max_eq_right h]
  · rw [min_eq_left (not_lt.mp h2), max_eq_right (not_lt.mp h1)]

/-- C18: in a `motorsCommands` cycle that starts with limiter `L` in
`[0, MOTORS_SCALE/4]` (the integer quotient `limiterMax`) and in which exactly
`k >= 0` active slots have a pre-clamp mix value `>= MOTORS_SCALE`, the
limiter after the cycle is `clamp(L + (k - 1) * step, 0, MOTORS_SCALE/4)`. -/
theorem motorsCommands_limiter_count (B : Build) (w : World) (t pc rc yc : ℚ)
    (hL0 : 0 ≤ w.motorsData.throttleLimiter)
    (hL1 : w.motorsData.throttleLimiter ≤ limiterMax B) :
    ∃ k : Nat, k = saturatingSlots B w t pc rc yc B.MOTORS_NUM ∧
      (motorsCommands B t pc rc yc w).motorsData.throttleLimiter =
        constrainFloat (w.motorsData.throttleLimiter + ((k : ℚ) - 1) * B.MOTORS_THROTTLE_LIMITER)
          0 (limiterMax B) ∧
      (motorsCommands B t pc rc yc w).motorsData.throttleLimiter =
        max 0 (min (w.motorsData.throttleLimiter + ((k : ℚ) - 1) * B.MOTORS_THROTTLE_LIMITER)
          (limiterMax B)) := by
  have he : w.motorsData.throttleLimiter +
      (saturatingSlots B w t pc rc yc B.MOTORS_NUM : ℚ) * B.MOTORS_THROTTLE_LIMITER
        - B.MOTORS_THROTTLE_LIMITER =
      w.motorsData.throttleLimiter +
        ((saturatingSlots B w t pc rc yc B.MOTORS_NUM : ℚ) - 1) * B.MOTORS_THROTTLE_LIMITER := by
    ring
  have hmain := motorsCommands_limiter B t pc rc yc w
  rw [he] at hmain
  refine ⟨_, rfl, hmain, ?_⟩
  rw [hmain, constrainFloat_eq_max_min (le_trans hL0 hL1)]

/-- Witness of C18: the demonstration vehicle with throttle 3000 and pitch
2000, a cycle with one saturating slot. -/
theorem motorsCommands_limiter_count_witness :
    0 ≤ demoWorld.motorsData.throttleLimiter ∧
    demoWorld.motorsData.throttleLimiter ≤ limiterMax demoBuild ∧
    (motorsCommands demoBuild 3000 2000 0 0 demoWorld).motorsData.throttleLimiter =
      constrainFloat (demoWorld.motorsData.throttleLimiter
        + (((saturatingSlots demoBuild demoWorld 3000 2000 0 0 demoBuild.MOTORS_NUM : Nat) : ℚ) - 1)
          * demoBuild.MOTORS_THROTTLE_LIMITER) 0 (limiterMax demoBuild) := by
  have hL0 : 0 ≤ demoWorld.motorsData.throttleLimiter := by norm_num [demoWorld, demoMotors]
  have hL1 : demoWorld.motorsData.throttleLimiter ≤ limiterMax demoBuild := by
    rw [demoWorld_limiterMax]
    norm_num [demoWorld, demoMotors]
  obtain ⟨k, hk, h, _⟩ := motorsCommands_limiter_count demoBuild demoWorld 3000 2000 0 0 hL0 hL1
  rw [hk] at h
  exact ⟨hL0, hL1, h⟩

/-! ## C20: the armed output mappings are monotone -/

theorem pwmValue_mono (B : Build) (p : Config) {v1 v2 : Int} (hS : 0 ≤ B.MOTORS_SCALE)
    (hmm : p.MOT_MIN ≤ p.MOT_MAX) (hsm : p.MOT_START ≤ p.MOT_MAX) (hv : v1 ≤ v2) :
    pwmValue B p v1 ≤ pwmValue B p v2 := by
  unfold pwmValue
  apply constrainInt_mono (floatToInt_mono hsm)
  apply floatToInt_mono
  have hSq : (0 : ℚ) ≤ (B.MOTORS_SCALE : ℚ) := by exact_mod_cast hS
  have hc : 0 ≤ (p.MOT_MAX - p.MOT_MIN) / (B.MOTORS_SCALE : ℚ) :=
    div_nonneg (by linarith) hSq
  have hvq : (v1 : ℚ) ≤ (v2 : ℚ) := by exact_mod_cast hv
  have h := mul_le_mul_of_nonneg_right hvq hc
  rw [mul_div_assoc, mul_div_assoc]
  linarith

theorem pwmValue_top (B : Build) (p : Config) (m : Int) (hS : 0 < B.MOTORS_SCALE)
    (hsm : p.MOT_START ≤ p.MOT_MAX) (hm : p.MOT_MAX = (m : ℚ)) :
    pwmValue B p B.MOTORS_SCALE = m := by
  have hSq : (B.MOTORS_SCALE : ℚ) ≠ 0 := by
    have : (0 : ℚ) < (B.MOTORS_SCALE : ℚ) := by exact_mod_cast hS
    exact ne_of_gt this
  have he : (B.MOTORS_SCALE : ℚ) * (p.MOT_MAX - p.MOT_MIN) / (B.MOTORS_SCALE : ℚ) + p.MOT_MIN
      = (m : ℚ) := by
    rw [mul_div_assoc, mul_div_cancel₀ _ hSq, hm]
    ring
  have hlo := floatToInt_mono hsm
  rw [hm, floatToInt_intCast] at hlo
  unfold pwmValue
  rw [he, hm, floatToInt_intCast]
  exact constrainInt_of_mem hlo (le_refl m)

theorem canValue_mono (B : Build) {v1 v2 : Int} (hS : 0 ≤ B.MOTORS_SCALE) (hv : v1 ≤ v2) :
    canValue B v1 ≤ canValue B v2 := by
  unfold canValue
  rw [shiftLeft_four, shiftLeft_four]
  have h := @constrainInt_mono v1 v2 _ _ (canFloor_mem B hS).2 hv
  omega

theorem canValue_top (B : Build) (hS : 0 ≤ B.MOTORS_SCALE) :
    canValue B B.MOTORS_SCALE = B.MOTORS_SCALE <<< 4 := by
  unfold canValue
  rw [constrainInt_of_mem (canFloor_mem B hS).2 (le_refl _)]

theorem canValue_fits (B : Build) (v : Int) (hS : 0 ≤ B.MOTORS_SCALE)
    (h16 : B.MOTORS_SCALE * 16 ≤ 65535) :
    toUint16 (canValue B (constrainInt v 0 B.MOTORS_SCALE)) =
      canValue B (constrainInt v 0 B.MOTORS_SCALE) := by
  obtain ⟨hf0, hf1⟩ := canFloor_mem B hS
  have hmem := @constrainInt_mem (constrainInt v 0 B.MOTORS_SCALE) _ _ hf1
  rw [canValue, shiftLeft_four, toUint16]
  apply Int.emod_eq_of_lt <;> omega

theorem constrainInt_top {hi : Int} (h0 : 0 ≤ hi) : constrainInt hi 0 hi = hi :=
  constrainInt_of_mem h0 (le_refl hi)

/-- The iteration of `motorsSendValues` for a pulse-bound slot that holds `v`. -/
theorem motorsSendValuesSlot_ccr_of_value (B : Build) (w : World) (i : Nat)
    (port : pwmPortStruct_t) (v : Int) (hact : w.motorsData.active i = true)
    (hport : i < B.PWM_NUM_PORTS) (hpwm : w.motorsData.pwm i = some port) :
    (motorsSendValuesSlot B (w.setValue i v) i).ccr port.ccr = sentPwm B w v := by
  rw [motorsSendValuesSlot_eq, outputSlot_ccr_write B (w.setValue i v) i _ _ _ port hact hport hpwm]
  simp [World.setValue, sentPwm]

/-- The iteration of `motorsSendValues` for a networked-bound slot that holds
`v`. -/
theorem motorsSendValuesSlot_can_of_value (B : Build) (w : World) (i g : Nat) (f : Fin 4)
    (v : Int) (h : WritesCan B w g f i) :
    (motorsSendValuesSlot B (w.setValue i v) i).canField g f = toUint16 (sentCan B w v) := by
  rw [motorsSendValuesSlot_eq, outputSlot_can_write B (w.setValue i v) i g f _ _ _ h]
  simp [World.setValue, sentCan]

/-- C20: with the vehicle armed, what the iteration of `motorsSendValues`
writes for an active slot is monotone in the stored value. For `v1 <= v2` the
pulse register written for a slot holding `v1` is at most that written for
`v2` (given `MOT_MIN <= MOT_MAX` and `MOT_START <= MOT_MAX`), and a slot
holding `MOTORS_SCALE` gets `MOT_MAX` when `MOT_MAX` is integer-valued. The
networked setpoint `clamp(..) << 4` assigned for `v1` is at most that for
`v2`, and `MOTORS_SCALE` gives `MOTORS_SCALE << 4`; the 16 bit field holds
these values unchanged when `MOTORS_SCALE * 16 <= 65535`. -/
theorem armed_outputs_monotone (B : Build) (w : World) (i : Nat) (v1 v2 : Int)
    (harmed : w.armed = true) (hS : 0 < B.MOTORS_SCALE)
    (hact : w.motorsData.active i = true) (hv : v1 ≤ v2) :
    (∀ port, i < B.PWM_NUM_PORTS → w.motorsData.pwm i = some port →
      w.p.MOT_MIN ≤ w.p.MOT_MAX → w.p.MOT_START ≤ w.p.MOT_MAX →
      (motorsSendValuesSlot B (w.setValue i v1) i).ccr port.ccr ≤
        (motorsSendValuesSlot B (w.setValue i v2) i).ccr port.ccr ∧
      ∀ m : Int, w.p.MOT_MAX = (m : ℚ) →
        (motorsSendValuesSlot B (w.setValue i B.MOTORS_SCALE) i).ccr port.ccr = m) ∧
    (∀ g f, canBound B w i = true → w.motorsData.canPtrs i = some (g, f) →
      (motorsSendValuesSlot B (w.setValue i v1) i).canField g f
        = toUint16 (canValue B (constrainInt v1 0 B.MOTORS_SCALE)) ∧
      (motorsSendValuesSlot B (w.setValue i v2) i).canField g f
        = toUint16 (canValue B (constrainInt v2 0 B.MOTORS_SCALE)) ∧
      canValue B (constrainInt v1 0 B.MOTORS_SCALE) ≤ canValue B (constrainInt v2 0 B.MOTORS_SCALE) ∧
      canValue B (constrainInt B.MOTORS_SCALE 0 B.MOTORS_SCALE) = B.MOTORS_SCALE <<< 4 ∧
      (B.MOTORS_SCALE * 16 ≤ 65535 →
        (motorsSendValuesSlot B (w.setValue i v1) i).canField g f ≤
          (motorsSendValuesSlot B (w.setValue i v2) i).canField g f ∧
        (motorsSendValuesSlot B (w.setValue i B.MOTORS_SCALE) i).canField g f
          = B.MOTORS_SCALE <<< 4)) := by
  have hS0 : 0 ≤ B.MOTORS_SCALE := le_of_lt hS
  have hc : constrainInt v1 0 B.MOTORS_SCALE ≤ constrainInt v2 0 B.MOTORS_SCALE :=
    constrainInt_mono hS0 hv
  have hsp : ∀ v, sentPwm B w v = pwmValue B w.p (constrainInt v 0 B.MOTORS_SCALE) := by
    intro v
    simp [sentPwm, harmed]
  have hsc : ∀ v, sentCan B w v = canValue B (constrainInt v 0 B.MOTORS_SCALE) := by
    intro v
    simp [sentCan, harmed]
  constructor
  · intro port hport hpwm hmm hsm
    rw [motorsSendValuesSlot_ccr_of_value B w i port v1 hact hport hpwm,
      motorsSendValuesSlot_ccr_of_value B w i port v2 hact hport hpwm,
      motorsSendValuesSlot_ccr_of_value B w i port B.MOTORS_SCALE hact hport hpwm,
      hsp, hsp, hsp, constrainInt_top hS0]
    exact ⟨pwmValue_mono B w.p hS0 hmm hsm hc, fun m hm => pwmValue_top B w.p m hS hsm hm⟩
  · intro g f hcan hptr
    have hW : WritesCan B w g f i := ⟨hact, hcan, hptr⟩
    rw [motorsSendValuesSlot_can_of_value B w i g f v1 hW,
      motorsSendValuesSlot_can_of_value B w i g f v2 hW,
      motorsSendValuesSlot_can_of_value B w i g f B.MOTORS_SCALE hW, hsc, hsc, hsc]
    refine ⟨rfl, rfl, canValue_mono B hS0 hc, ?_, ?_⟩
    · rw [constrainInt_top hS0, canValue_top B hS0]
    · intro h16
      rw [canValue_fits B v1 hS0 h16, canValue_fits B v2 hS0 h16,
        canValue_fits B B.MOTORS_SCALE hS0 h16, constrainInt_top hS0, canValue_top B hS0]
      exact ⟨canValue_mono B hS0 hc, rfl⟩

/-- Witness of C20: the pulse slot 0 of the armed demonstration vehicle,
holding 100 or 200. -/
theorem armed_outputs_monotone_witness :
    demoWorld.armed = true ∧ 0 < demoBuild.MOTORS_SCALE ∧
    demoWorld.motorsData.active 0 = true ∧ (100 : Int) ≤ 200 ∧
    (motorsSendValuesSlot demoBuild (demoWorld.setValue 0 100) 0).ccr 0 ≤
      (motorsSendValuesSlot demoBuild (demoWorld.setValue 0 200) 0).ccr 0 :=
  ⟨rfl, by decide, rfl, by decide,
    ((armed_outputs_monotone demoBuild demoWorld 0 100 200 rfl (by decide) rfl (by decide)).1
      { ccr := 0 } (by decide) rfl (by norm_num [demoWorld, demoConfig])
      (by norm_num [demoWorld, demoConfig])).1⟩

/-! ## `motorsInit`: the stages -/

theorem motorsInit_of_rejected (B : Build) (w : World) (h : frameRejected w.p) :
    motorsInit B w =
      ({ w.notice Notice.motorsInit with motorsData := motorsStruct_t.zero }).notice
        Notice.predefinedFrame := by
  have h2 : (w.notice Notice.motorsInit).p.MOT_FRAME > 1 / 100 ∧
      (w.notice Notice.motorsInit).p.MOT_FRAME < 401 / 100 := h
  unfold motorsInit
  simp only []
  rw [if_pos h2]

theorem motorsInit_of_accepted (B : Build) (w : World) (h : ¬ frameRejected w.p) :
    motorsInit B w = motorsOff B (motorsSetCanGroup B (initNoticed B w)) := by
  have h2 : ¬ ((w.notice Notice.motorsInit).p.MOT_FRAME > 1 / 100 ∧
      (w.notice Notice.motorsInit).p.MOT_FRAME < 401 / 100) := h
  unfold motorsInit
  simp only []
  rw [if_neg h2]
  rfl

theorem initNoticed_motorsData (B : Build) (w : World) :
    (initNoticed B w).motorsData = (initLoop B B.MOTORS_NUM w).world.motorsData := by
  unfold initNoticed
  simp only []
  split_ifs <;> rfl

theorem initNoticed_env (B : Build) (w : World) :
    (initNoticed B w).p = (initLoop B B.MOTORS_NUM w).world.p ∧
    (initNoticed B w).armed = (initLoop B B.MOTORS_NUM w).world.armed ∧
    (initNoticed B w).ccr = (initLoop B B.MOTORS_NUM w).world.ccr ∧
    (initNoticed B w).canFindNode = (initLoop B B.MOTORS_NUM w).world.canFindNode ∧
    (initNoticed B w).pwmInitOut = (initLoop B B.MOTORS_NUM w).world.pwmInitOut ∧
    (initNoticed B w).canLog = (initLoop B B.MOTORS_NUM w).world.canLog := by
  unfold initNoticed
  simp only []
  split_ifs <;> simp [World.notice]

/-! ## `motorsInit`: the loop -/

/-- What `motorsCanInit` changes: the binding of slot `i` and the logs. -/
theorem motorsCanInit_motorsData (B : Build) (w : World) (i : Nat) :
    (motorsCanInit B w i).motorsData =
      { w.motorsData with can := Function.update w.motorsData.can i (w.canFindNode (i + 1)) } ∧
    (motorsCanInit B w i).p = w.p ∧ (motorsCanInit B w i).armed = w.armed ∧
    (motorsCanInit B w i).analogData = w.analogData ∧ (motorsCanInit B w i).ccr = w.ccr ∧
    (motorsCanInit B w i).canFindNode = w.canFindNode ∧
    (motorsCanInit B w i).pwmInitOut = w.pwmInitOut := by
  unfold motorsCanInit
  simp only []
  split <;> simp [World.notice, World.canCall]

/-- The loop body of `motorsInit` on the module state and its environment. -/
theorem motorsInitSlot_world (B : Build) (c : InitCursor) (i : Nat) :
    (motorsInitSlot B c i).world.motorsData =
      (if rowNonzero (c.world.motorsData.distribution i) then
        { c.world.motorsData with
            active := Function.update c.world.motorsData.active i true,
            can := if canSelected c.world.p i = true then
                Function.update c.world.motorsData.can i (c.world.canFindNode (i + 1))
              else c.world.motorsData.can,
            pwm := if canSelected c.world.p i = false ∧ i < B.PWM_NUM_PORTS then
                Function.update c.world.motorsData.pwm i
                  (c.world.pwmInitOut i B.USE_L1_ATTITUDE)
              else c.world.motorsData.pwm }
      else c.world.motorsData) ∧
    (motorsInitSlot B c i).world.p = c.world.p ∧
    (motorsInitSlot B c i).world.armed = c.world.armed ∧
    (motorsInitSlot B c i).world.analogData = c.world.analogData ∧
    (motorsInitSlot B c i).world.ccr = c.world.ccr ∧
    (motorsInitSlot B c i).world.canFindNode = c.world.canFindNode ∧
    (motorsInitSlot B c i).world.pwmInitOut = c.world.pwmInitOut := by
  by_cases hrow : rowNonzero (c.world.motorsData.distribution i)
  · have hrow2 : (c.world.motorsData.distribution i).throttle ≠ 0 ∨
        (c.world.motorsData.distribution i).pitch ≠ 0 ∨
        (c.world.motorsData.distribution i).roll ≠ 0 ∨
        (c.world.motorsData.distribution i).yaw ≠ 0 := hrow
    unfold motorsInitSlot
    simp only []
    rw [if_pos hrow2, if_pos hrow]
    by_cases hsel : canSelected c.world.p i = true
    · obtain ⟨h1, h2, h3, h4, h5, h6, h7⟩ := motorsCanInit_motorsData B c.world i
      simp only [hsel, if_true, h1, h2, h3, h4, h5, h6, h7]
      simp
    · have hsel2 : canSelected c.world.p i = false := by simpa using hsel
      by_cases hp : i < B.PWM_NUM_PORTS
      · simp [hsel2, hp, motorsPwmInit]
      · simp [hsel2, hp]
  · have hrow2 : ¬ ((c.world.motorsData.distribution i).throttle ≠ 0 ∨
        (c.world.motorsData.distribution i).pitch ≠ 0 ∨
        (c.world.motorsData.distribution i).roll ≠ 0 ∨
        (c.world.motorsData.distribution i).yaw ≠ 0) := hrow
    unfold motorsInitSlot
    simp only []
    rw [if_neg hrow2, if_neg hrow]
    simp

theorem initLoop_inv (B : Build) (w : World) (n : Nat) : InitInv B w n (initLoop B n w) := by
  induction n with
  | zero =>
    constructor <;> simp [initLoop, initStart, World.notice, motorsStruct_t.zero]
  | succ n ih =>
    unfold initLoop at ih ⊢
    rw [range_foldl_succ]
    generalize (List.range n).foldl (motorsInitSlot B)
      { sumPitch := 0, sumRoll := 0, sumYaw := 0, world := initStart w } = c at ih ⊢
    obtain ⟨hm, hp, ha, han, hc, hcf, hpo⟩ := motorsInitSlot_world B c n
    rw [ih.distribution, ih.p, ih.canFindNode, ih.pwmInitOut] at hm
    have hlt : ∀ i, i ≠ n → (i < n + 1 ↔ i < n) := fun i hi => by omega
    by_cases hrow : rowNonzero (w.p.MOT_PWRD n)
    · rw [if_pos hrow] at hm
      constructor
      · rw [hp]; exact ih.p
      · rw [ha]; exact ih.armed
      · rw [han]; exact ih.analogData
      · rw [hc]; exact ih.ccr
      · rw [hcf]; exact ih.canFindNode
      · rw [hpo]; exact ih.pwmInitOut
      · rw [hm]; exact ih.distribution
      · intro i
        rw [hm]
        by_cases hi : i = n
        · subst hi
          simp [hrow]
        · simp [Function.update_noteq hi, ih.active i, hlt i hi]
      · intro i
        rw [hm]
        by_cases hi : i = n
        · subst hi
          by_cases hsel : canSelected w.p i = true
          · simp [hrow, hsel]
          · simp [hsel, ih.can i]
        · by_cases hsel : canSelected w.p n = true
          · simp [hsel, Function.update_noteq hi, ih.can i, hlt i hi]
          · simp [hsel, ih.can i, hlt i hi]
      · intro i
        rw [hm]
        by_cases hi : i = n
        · subst hi
          by_cases hsel : canSelected w.p i = false ∧ i < B.PWM_NUM_PORTS
          · simp [hrow, hsel.1, hsel.2]
          · rw [if_neg hsel, ih.pwm i]
            simp only [lt_self_iff_false, false_and, if_false]
            rw [if_neg]
            exact fun h => hsel ⟨h.2.2.1, h.2.2.2⟩
        · by_cases hsel : canSelected w.p n = false ∧ n < B.PWM_NUM_PORTS
          · simp [hsel.1, hsel.2, Function.update_noteq hi, ih.pwm i, hlt i hi]
          · rw [if_neg hsel, ih.pwm i]
            simp only [hlt i hi]
      · rw [hm]; exact ih.canPtrs
      · rw [hm]; exact ih.canGroups
      · rw [hm]; exact ih.value
      · rw [hm]; exact ih.numGroups
      · rw [hm]; exact ih.limiter
      · rw [hm]; exact ih.throttle
      · rw [hm]; exact ih.pitch
      · rw [hm]; exact ih.roll
      · rw [hm]; exact ih.yaw
    · rw [if_neg hrow] at hm
      have hno : ∀ i, (i < n + 1 ∧ rowNonzero (w.p.MOT_PWRD i)) ↔
          (i < n ∧ rowNonzero (w.p.MOT_PWRD i)) := by
        intro i
        by_cases hi : i = n
        · subst hi
          simp [hrow]
        · rw [hlt i hi]
      constructor
      · rw [hp]; exact ih.p
      · rw [ha]; exact ih.armed
      · rw [han]; exact ih.analogData
      · rw [hc]; exact ih.ccr
      · rw [hcf]; exact ih.canFindNode
      · rw [hpo]; exact ih.pwmInitOut
      · rw [hm]; exact ih.distribution
      · intro i
        rw [hm, ih.active i]
        simp only [hno i]
      · intro i
        rw [hm, ih.can i]
        by_cases hi : i = n
        · subst hi
          simp [hrow]
        · simp only [hlt i hi]
      · intro i
        rw [hm, ih.pwm i]
        by_cases hi : i = n
        · subst hi
          simp [hrow]
        · simp only [hlt i hi]
      · rw [hm]; exact ih.canPtrs
      · rw [hm]; exact ih.canGroups
      · rw [hm]; exact ih.value
      · rw [hm]; exact ih.numGroups
      · rw [hm]; exact ih.limiter
      · rw [hm]; exact ih.throttle
      · rw [hm]; exact ih.pitch
      · rw [hm]; exact ih.roll
      · rw [hm]; exact ih.yaw

/-! ## `motorsInit`: the state it leaves -/

theorem canCount_congr {w w2 : World} (h : w2.motorsData.can = w.motorsData.can) (n : Nat) :
    canCount w2 n = canCount w n := by
  simp [canCount, h]

/-- A property kept by every iteration holds after the loop. -/
theorem range_foldl_inv {σ : Type} (f : σ → Nat → σ) (s : σ) (P : σ → Prop)
    (hstep : ∀ a j, P a → P (f a j)) (h : P s) (n : Nat) : P ((List.range n).foldl f s) :=
  range_foldl_rel f s (fun a b => P a → P b) (fun _ h => h)
    (fun _ _ _ h1 h2 h => h2 (h1 h)) hstep n h

theorem motorsSetCanGroupSlot_rest (c : GroupCursor) (i : Nat) :
    (motorsSetCanGroupSlot c i).world.motorsData.distribution = c.world.motorsData.distribution ∧
    (motorsSetCanGroupSlot c i).world.motorsData.pitch = c.world.motorsData.pitch ∧
    (motorsSetCanGroupSlot c i).world.motorsData.roll = c.world.motorsData.roll ∧
    (motorsSetCanGroupSlot c i).world.motorsData.yaw = c.world.motorsData.yaw ∧
    (motorsSetCanGroupSlot c i).world.motorsData.throttle = c.world.motorsData.throttle ∧
    (motorsSetCanGroupSlot c i).world.canFindNode = c.world.canFindNode ∧
    (motorsSetCanGroupSlot c i).world.pwmInitOut = c.world.pwmInitOut ∧
    (motorsSetCanGroupSlot c i).world.analogData = c.world.analogData := by
  unfold motorsSetCanGroupSlot
  split
  · simp
  · simp only []
    split_ifs <;> split <;> simp [World.canCall]

theorem motorsSetCanGroup_rest (B : Build) (w : World) :
    (motorsSetCanGroup B w).motorsData.distribution = w.motorsData.distribution ∧
    (motorsSetCanGroup B w).motorsData.pitch = w.motorsData.pitch ∧
    (motorsSetCanGroup B w).motorsData.roll = w.motorsData.roll ∧
    (motorsSetCanGroup B w).motorsData.yaw = w.motorsData.yaw ∧
    (motorsSetCanGroup B w).motorsData.throttle = w.motorsData.throttle ∧
    (motorsSetCanGroup B w).canFindNode = w.canFindNode ∧
    (motorsSetCanGroup B w).pwmInitOut = w.pwmInitOut ∧
    (motorsSetCanGroup B w).analogData = w.analogData := by
  unfold motorsSetCanGroup motorsSetCanGroupLoop
  apply range_foldl_inv motorsSetCanGroupSlot _
    (fun c => c.world.motorsData.distribution = w.motorsData.distribution ∧
      c.world.motorsData.pitch = w.motorsData.pitch ∧
      c.world.motorsData.roll = w.motorsData.roll ∧
      c.world.motorsData.yaw = w.motorsData.yaw ∧
      c.world.motorsData.throttle = w.motorsData.throttle ∧
      c.world.canFindNode = w.canFindNode ∧
      c.world.pwmInitOut = w.pwmInitOut ∧
      c.world.analogData = w.analogData)
  · intro a j ⟨h1, h2, h3, h4, h5, h6, h7, h8⟩
    obtain ⟨g1, g2, g3, g4, g5, g6, g7, g8⟩ := motorsSetCanGroupSlot_rest a j
    exact ⟨g1.trans h1, g2.trans h2, g3.trans h3, g4.trans h4, g5.trans h5, g6.trans h6,
      g7.trans h7, g8.trans h8⟩
  · exact ⟨rfl, rfl, rfl, rfl, rfl, rfl, rfl, rfl⟩

theorem outputSlot_rest (B : Build) (w : World) (i : Nat) (v pv cv : Int) :
    (outputSlot B w i v pv cv).motorsData.pitch = w.motorsData.pitch ∧
    (outputSlot B w i v pv cv).motorsData.roll = w.motorsData.roll ∧
    (outputSlot B w i v pv cv).motorsData.yaw = w.motorsData.yaw ∧
    (outputSlot B w i v pv cv).motorsData.throttle = w.motorsData.throttle ∧
    (outputSlot B w i v pv cv).canFindNode = w.canFindNode ∧
    (outputSlot B w i v pv cv).pwmInitOut = w.pwmInitOut ∧
    (outputSlot B w i v pv cv).canLog = w.canLog ∧
    (outputSlot B w i v pv cv).notices = w.notices := by
  simp only [outputSlot, World.setValue, World.writeCcr, World.writeCanPtr]
  split_ifs <;> (try split) <;> simp

theorem canGroup16_t.set_zero (f : Fin 4) :
    ({ value1 := 0, value2 := 0, value3 := 0, value4 := 0 } : canGroup16_t).set f (toUint16 0)
      = { value1 := 0, value2 := 0, value3 := 0, value4 := 0 } := by
  fin_cases f <;> simp [canGroup16_t.set, toUint16]

/-- Storing 0 through field pointers leaves all-zero group records all-zero. -/
theorem outputSlot_canGroups_zero (B : Build) (w : World) (i : Nat) (v pv : Int)
    (h : w.motorsData.canGroups = motorsStruct_t.zero.canGroups) :
    (outputSlot B w i v pv 0).motorsData.canGroups = motorsStruct_t.zero.canGroups := by
  simp only [outputSlot, World.setValue, World.writeCcr, World.writeCanPtr]
  split_ifs
  · split <;> exact h
  · cases hq : w.motorsData.canPtrs i with
    | none => exact h
    | some gf =>
      obtain ⟨g, f⟩ := gf
      simp only []
      rw [h]
      funext k
      by_cases hk : k = g
      · subst hk
        simp [motorsStruct_t.zero, canGroup16_t.set_zero]
      · simp [Function.update_noteq hk]
  · exact h
  · exact h

theorem motorsOffLoop_rest (B : Build) (n : Nat) (w : World) :
    (motorsOffLoop B n w).motorsData.pitch = w.motorsData.pitch ∧
    (motorsOffLoop B n w).motorsData.roll = w.motorsData.roll ∧
    (motorsOffLoop B n w).motorsData.yaw = w.motorsData.yaw ∧
    (motorsOffLoop B n w).canFindNode = w.canFindNode ∧
    (motorsOffLoop B n w).pwmInitOut = w.pwmInitOut ∧
    (motorsOffLoop B n w).canLog = w.canLog := by
  unfold motorsOffLoop
  apply range_foldl_inv (motorsOffSlot B) w
    (fun a => a.motorsData.pitch = w.motorsData.pitch ∧ a.motorsData.roll = w.motorsData.roll ∧
      a.motorsData.yaw = w.motorsData.yaw ∧ a.canFindNode = w.canFindNode ∧
      a.pwmInitOut = w.pwmInitOut ∧ a.canLog = w.canLog)
  · intro a j ⟨h1, h2, h3, h4, h5, h6⟩
    rw [motorsOffSlot_eq]
    obtain ⟨g1, g2, g3, _, g5, g6, g7, _⟩ := outputSlot_rest B a j 0 (offPwm a) 0
    exact ⟨g1.trans h1, g2.trans h2, g3.trans h3, g5.trans h4, g6.trans h5, g7.trans h6⟩
  · exact ⟨rfl, rfl, rfl, rfl, rfl, rfl⟩

theorem motorsOffLoop_canGroups_zero (B : Build) (n : Nat) (w : World)
    (h : w.motorsData.canGroups = motorsStruct_t.zero.canGroups) :
    (motorsOffLoop B n w).motorsData.canGroups = motorsStruct_t.zero.canGroups := by
  unfold motorsOffLoop
  apply range_foldl_inv (motorsOffSlot B) w
    (fun a => a.motorsData.canGroups = motorsStruct_t.zero.canGroups) _ h
  intro a j ha
  rw [motorsOffSlot_eq]
  exact outputSlot_canGroups_zero B a j 0 (offPwm a) ha

theorem motorsOff_motorsData (B : Build) (w : World) :
    (motorsOff B w).motorsData =
      { (motorsOffLoop B B.MOTORS_NUM w).motorsData with throttle := 0, throttleLimiter := 0 } := by
  simp only [motorsOff, motorsCanSendGroups_eq]

theorem motorsOff_env (B : Build) (w : World) :
    (motorsOff B w).canFindNode = w.canFindNode ∧ (motorsOff B w).pwmInitOut = w.pwmInitOut := by
  obtain ⟨_, _, _, h4, h5, _⟩ := motorsOffLoop_rest B B.MOTORS_NUM w
  simp only [motorsOff, motorsCanSendGroups_eq]
  exact ⟨h4, h5⟩

theorem motorsOff_value_zero (B : Build) (w : World)
    (h : w.motorsData.value = motorsStruct_t.zero.value) :
    (motorsOff B w).motorsData.value = motorsStruct_t.zero.value := by
  funext j
  rw [motorsOff_value, motorsOffLoop_value, h]
  simp [motorsStruct_t.zero]

/-- The state left by a `motorsInit` that the frame-type test does not
abort. -/
theorem motorsInit_initialised (B : Build) (w : World) (h : ¬ frameRejected w.p) :
    Initialised B w (motorsInit B w) := by
  rw [motorsInit_of_accepted B w h]
  have hloop := initLoop_inv B w B.MOTORS_NUM
  have hmd := initNoticed_motorsData B w
  obtain ⟨hnp, hna, _, hncf, hnpo, _⟩ := initNoticed_env B w
  have hg := motorsSetCanGroupLoop_inv (initNoticed B w) B.MOTORS_NUM
  obtain ⟨r1, r2, r3, r4, r5, r6, r7, _⟩ := motorsSetCanGroup_rest B (initNoticed B w)
  have hs := motorsOff_setup B (motorsSetCanGroup B (initNoticed B w))
  obtain ⟨o1, o2, o3, _, _, _⟩ :=
    motorsOffLoop_rest B B.MOTORS_NUM (motorsSetCanGroup B (initNoticed B w))
  obtain ⟨e1, e2⟩ := motorsOff_env B (motorsSetCanGroup B (initNoticed B w))
  have hcan : (motorsOff B (motorsSetCanGroup B (initNoticed B w))).motorsData.can
      = (initNoticed B w).motorsData.can := hs.2.2.2.2.2.1.trans hg.can
  have hcc : ∀ n, canCount (motorsOff B (motorsSetCanGroup B (initNoticed B w))) n
      = canCount (initNoticed B w) n := canCount_congr hcan
  constructor
  · rw [hs.1]
    exact (hg.p.trans hnp).trans hloop.p
  · rw [hs.2.1]
    exact (hg.armed.trans hna).trans hloop.armed
  · rw [e1]
    exact (r6.trans hncf).trans hloop.canFindNode
  · rw [e2]
    exact (r7.trans hnpo).trans hloop.pwmInitOut
  · rw [hs.2.2.2.2.2.2.2.2, r1, hmd]
    exact hloop.distribution
  · intro i
    rw [hs.2.2.2.1]
    have := hg.active
    unfold motorsSetCanGroup
    rw [this, hmd]
    exact hloop.active i
  · intro i
    rw [hcan, hmd]
    exact hloop.can i
  · intro i
    rw [hs.2.2.2.2.1]
    have := hg.pwm
    unfold motorsSetCanGroup
    rw [this, hmd]
    exact hloop.pwm i
  · intro i
    rw [hs.2.2.2.2.2.2.1, hcan, hcc]
    have := hg.canPtrs i
    unfold motorsSetCanGroup
    rw [this, hmd, hloop.canPtrs]
    rfl
  · rw [hs.2.2.2.2.2.2.2.1, hcc]
    have := hg.numGroups
    unfold motorsSetCanGroup
    rw [this, hmd, hloop.numGroups, Nat.zero_add]
  · rw [motorsOff_motorsData]
    apply motorsOffLoop_canGroups_zero
    have := hg.canGroups
    unfold motorsSetCanGroup
    rw [this, hmd]
    exact hloop.canGroups
  · apply motorsOff_value_zero
    have := hg.value
    unfold motorsSetCanGroup
    rw [this, hmd]
    exact hloop.value
  · exact motorsOff_limiter B _
  · rw [motorsOff_motorsData]
  · rw [motorsOff_motorsData]
    show (motorsOffLoop B B.MOTORS_NUM (motorsSetCanGroup B (initNoticed B w))).motorsData.pitch = 0
    rw [o1, r2, hmd]
    exact hloop.pitch
  · rw [motorsOff_motorsData]
    show (motorsOffLoop B B.MOTORS_NUM (motorsSetCanGroup B (initNoticed B w))).motorsData.roll = 0
    rw [o2, r3, hmd]
    exact hloop.roll
  · rw [motorsOff_motorsData]
    show (motorsOffLoop B B.MOTORS_NUM (motorsSetCanGroup B (initNoticed B w))).motorsData.yaw = 0
    rw [o3, r4, hmd]
    exact hloop.yaw

/-! ## C13: the legacy frame-type selector -/

theorem outputSlot_inactive (B : Build) (w : World) (i : Nat) (v pv cv : Int)
    (h : w.motorsData.active i = false) : outputSlot B w i v pv cv = w := by
  unfold outputSlot
  rw [if_neg (by simp [h])]

theorem motorsSendValuesLoop_idle (B : Build) (n : Nat) (w : World)
    (h : ∀ i, w.motorsData.active i = false) : motorsSendValuesLoop B n w = w := by
  induction n with
  | zero => rfl
  | succ n ih =>
    unfold motorsSendValuesLoop at ih ⊢
    rw [range_foldl_succ, ih, motorsSendValuesSlot_eq, outputSlot_inactive B w n _ _ _ (h n)]

theorem motorsOffLoop_idle (B : Build) (n : Nat) (w : World)
    (h : ∀ i, w.motorsData.active i = false) : motorsOffLoop B n w = w := by
  induction n with
  | zero => rfl
  | succ n ih =>
    unfold motorsOffLoop at ih ⊢
    rw [range_foldl_succ, ih, motorsOffSlot_eq, outputSlot_inactive B w n _ _ _ (h n)]

theorem motorsCommandsLoop_idle (B : Build) (th pc rc yc vf : ℚ) (n : Nat) (w : World)
    (h : ∀ i, w.motorsData.active i = false) : motorsCommandsLoop B th pc rc yc vf n w = w := by
  induction n with
  | zero => rfl
  | succ n ih =>
    unfold motorsCommandsLoop at ih ⊢
    rw [range_foldl_succ, ih]
    simp [motorsCommandsSlot, h n]

theorem motorsCanSendGroups_idle (w : World) (h : w.motorsData.numGroups = 0) :
    motorsCanSendGroups w = w := by
  simp [motorsCanSendGroups, h]

theorem motorsSendValues_idle (B : Build) (w : World)
    (h : ∀ i, w.motorsData.active i = false) (hg : w.motorsData.numGroups = 0) :
    motorsSendValues B w = w := by
  rw [motorsSendValues, motorsSendValuesLoop_idle B _ w h, motorsCanSendGroups_idle w hg]

theorem motorsOff_idle_zero (B : Build) (w : World)
    (hm : w.motorsData = motorsStruct_t.zero) : motorsOff B w = w := by
  have hact : ∀ i, w.motorsData.active i = false := by
    intro i
    rw [hm]
    rfl
  have hng : w.motorsData.numGroups = 0 := by
    rw [hm]
    rfl
  rw [motorsOff, motorsOffLoop_idle B _ _ hact, motorsCanSendGroups_idle _ hng]
  cases w
  simp only at hm
  subst hm
  rfl

/-- C13: when `MOT_FRAME` selects a predefined frame type
(`0.01 < MOT_FRAME < 4.01`), `motorsInit` run from any state with any
distribution table and bus bitmap leaves every slot inactive, without pulse
binding, networked binding or field pointer, and the group count 0; in that
state `motorsSendValues` and `motorsOff` change nothing at all (no register,
no group field, no frame), and `motorsCommands` leaves every stored value 0
and writes no register, no group field and no frame. -/
theorem motorsInit_rejected (B : Build) (w : World)
    (hf : 1 / 100 < w.p.MOT_FRAME ∧ w.p.MOT_FRAME < 401 / 100) :
    (∀ i, (motorsInit B w).motorsData.active i = false ∧
      (motorsInit B w).motorsData.pwm i = none ∧ (motorsInit B w).motorsData.can i = none ∧
      (motorsInit B w).motorsData.canPtrs i = none) ∧
    (motorsInit B w).motorsData.numGroups = 0 ∧
    motorsSendValues B (motorsInit B w) = motorsInit B w ∧
    motorsOff B (motorsInit B w) = motorsInit B w ∧
    (∀ t pc rc yc : ℚ,
      (∀ i, (motorsCommands B t pc rc yc (motorsInit B w)).motorsData.value i = 0) ∧
      (motorsCommands B t pc rc yc (motorsInit B w)).ccr = (motorsInit B w).ccr ∧
      (motorsCommands B t pc rc yc (motorsInit B w)).motorsData.canGroups
        = (motorsInit B w).motorsData.canGroups ∧
      (motorsCommands B t pc rc yc (motorsInit B w)).canLog = (motorsInit B w).canLog) := by
  have hrej : frameRejected w.p := hf
  have hmd : (motorsInit B w).motorsData = motorsStruct_t.zero := by
    rw [motorsInit_of_rejected B w hrej]
    rfl
  have hact : ∀ i, (motorsInit B w).motorsData.active i = false := by
    intro i
    rw [hmd]
    rfl
  have hng : (motorsInit B w).motorsData.numGroups = 0 := by
    rw [hmd]
    rfl
  have hsend := motorsSendValues_idle B (motorsInit B w) hact hng
  refine ⟨?_, hng, hsend, ?_, ?_⟩
  · intro i
    rw [hmd]
    exact ⟨rfl, rfl, rfl, rfl⟩
  · exact motorsOff_idle_zero B _ hmd
  · intro t pc rc yc
    have hmix : mixedWorld B t pc rc yc (motorsInit B w) = motorsInit B w :=
      motorsCommandsLoop_idle B _ pc rc yc _ _ _ hact
    refine ⟨?_, ?_, ?_, ?_⟩
    · intro i
      rw [motorsCommands_value, hmix, hsend, hmd]
      rfl
    · rw [motorsCommands_ccr, hmix, hsend]
    · have h : (motorsCommands B t pc rc yc (motorsInit B w)).motorsData.canGroups =
          (motorsSendValues B (mixedWorld B t pc rc yc (motorsInit B w))).motorsData.canGroups :=
        rfl
      rw [h, hmix, hsend]
    · have h : (motorsCommands B t pc rc yc (motorsInit B w)).canLog =
          (motorsSendValues B (mixedWorld B t pc rc yc (motorsInit B w))).canLog := rfl
      rw [h, hmix, hsend]

/-- Witness of C13: the demonstration vehicle with `MOT_FRAME = 1`. -/
theorem motorsInit_rejected_witness :
    (1 / 100 < demoLegacy.p.MOT_FRAME ∧ demoLegacy.p.MOT_FRAME < 401 / 100) ∧
    (motorsInit demoBuild demoLegacy).motorsData.active 0 = false ∧
    motorsSendValues demoBuild (motorsInit demoBuild demoLegacy)
      = motorsInit demoBuild demoLegacy := by
  have hf : 1 / 100 < demoLegacy.p.MOT_FRAME ∧ demoLegacy.p.MOT_FRAME < 401 / 100 := by
    norm_num [demoLegacy, demoConfig]
  have h := motorsInit_rejected demoBuild demoLegacy hf
  exact ⟨hf, (h.1 0).1, h.2.2.1⟩

/-! ## C15: `motorsInit` resets the module state -/

theorem motorsStruct_t.eq_of_fields {a b : motorsStruct_t}
    (h1 : a.distribution = b.distribution) (h2 : a.pwm = b.pwm) (h3 : a.can = b.can)
    (h4 : a.canPtrs = b.canPtrs) (h5 : a.canGroups = b.canGroups) (h6 : a.pitch = b.pitch)
    (h7 : a.roll = b.roll) (h8 : a.yaw = b.yaw) (h9 : a.throttle = b.throttle)
    (h10 : a.throttleLimiter = b.throttleLimiter) (h11 : a.value = b.value)
    (h12 : a.numGroups = b.numGroups) (h13 : a.active = b.active) : a = b := by
  cases a
  cases b
  simp only at h1 h2 h3 h4 h5 h6 h7 h8 h9 h10 h11 h12 h13
  subst h1 h2 h3 h4 h5 h6 h7 h8 h9 h10 h11 h12 h13
  rfl

theorem zero_canField (w : World) (h : w.motorsData.canGroups = motorsStruct_t.zero.canGroups)
    (g : Nat) (f : Fin 4) : w.canField g f = 0 := by
  rw [World.canField, h]
  fin_cases f <;> rfl

/-- Two runs of `motorsInit` in the same environment leave the same module
state. -/
theorem Initialised.motorsData_eq {B : Build} {w w2 a b : World} (ha : Initialised B w a)
    (hb : Initialised B w2 b) (hp : w2.p = w.p) (hcf : w2.canFindNode = w.canFindNode)
    (hpo : w2.pwmInitOut = w.pwmInitOut) : b.motorsData = a.motorsData := by
  have hcan : b.motorsData.can = a.motorsData.can := by
    funext i
    rw [hb.can i, ha.can i, hp, hcf]
  apply motorsStruct_t.eq_of_fields
  · rw [hb.distribution, ha.distribution, hp]
  · funext i
    rw [hb.pwm i, ha.pwm i, hp, hpo]
  · exact hcan
  · funext i
    rw [hb.canPtrs i, ha.canPtrs i, hcan, canCount_congr hcan]
  · rw [hb.canGroups, ha.canGroups]
  · rw [hb.pitch, ha.pitch]
  · rw [hb.roll, ha.roll]
  · rw [hb.yaw, ha.yaw]
  · rw [hb.throttle, ha.throttle]
  · rw [hb.limiter, ha.limiter]
  · rw [hb.value, ha.value]
  · rw [hb.numGroups, ha.numGroups, canCount_congr hcan]
  · funext i
    rw [hb.active i, ha.active i, hp]

theorem motorsInit_env (B : Build) (w : World) :
    (motorsInit B w).p = w.p ∧ (motorsInit B w).canFindNode = w.canFindNode ∧
    (motorsInit B w).pwmInitOut = w.pwmInitOut := by
  by_cases h : frameRejected w.p
  · rw [motorsInit_of_rejected B w h]
    exact ⟨rfl, rfl, rfl⟩
  · have hi := motorsInit_initialised B w h
    exact ⟨hi.p, hi.canFindNode, hi.pwmInitOut⟩

theorem motorsInit_motorsData_congr (B : Build) (w w2 : World) (hp : w2.p = w.p)
    (hcf : w2.canFindNode = w.canFindNode) (hpo : w2.pwmInitOut = w.pwmInitOut) :
    (motorsInit B w2).motorsData = (motorsInit B w).motorsData := by
  by_cases h : frameRejected w.p
  · have h2 : frameRejected w2.p := by rw [hp]; exact h
    rw [motorsInit_of_rejected B w h, motorsInit_of_rejected B w2 h2]
    rfl
  · have h2 : ¬ frameRejected w2.p := by rw [hp]; exact h
    exact Initialised.motorsData_eq (motorsInit_initialised B w h)
      (motorsInit_initialised B w2 h2) hp hcf hpo

/-- C15: from every prior state, `motorsInit` leaves the limiter 0, the
recorded throttle 0, every stored value 0 and every field of every group
record 0; the module state it leaves is the same for any two prior states
with the same configuration, directory lookup and pulse port allocation; and
running it twice leaves the module state that running it once leaves (the
group count included). -/
theorem motorsInit_reset (B : Build) (w : World) :
    (motorsInit B w).motorsData.throttleLimiter = 0 ∧
    (motorsInit B w).motorsData.throttle = 0 ∧
    (∀ i, (motorsInit B w).motorsData.value i = 0) ∧
    (∀ g f, (motorsInit B w).canField g f = 0) ∧
    (∀ w2 : World, w2.p = w.p → w2.canFindNode = w.canFindNode →
      w2.pwmInitOut = w.pwmInitOut →
      (motorsInit B w2).motorsData = (motorsInit B w).motorsData) ∧
    (motorsInit B (motorsInit B w)).motorsData = (motorsInit B w).motorsData ∧
    (motorsInit B (motorsInit B w)).motorsData.numGroups
      = (motorsInit B w).motorsData.numGroups := by
  obtain ⟨e1, e2, e3⟩ := motorsInit_env B w
  have hidem := motorsInit_motorsData_congr B w (motorsInit B w) e1 e2 e3
  refine ⟨motorsInit_limiter B w, ?_, ?_, ?_,
    fun w2 hp hcf hpo => motorsInit_motorsData_congr B w w2 hp hcf hpo, hidem, by rw [hidem]⟩
  · by_cases h : frameRejected w.p
    · rw [motorsInit_of_rejected B w h]
      rfl
    · exact (motorsInit_initialised B w h).throttle
  · intro i
    by_cases h : frameRejected w.p
    · rw [motorsInit_of_rejected B w h]
      rfl
    · rw [(motorsInit_initialised B w h).value]
      rfl
  · intro g f
    apply zero_canField
    by_cases h : frameRejected w.p
    · rw [motorsInit_of_rejected B w h]
      rfl
    · exact (motorsInit_initialised B w h).canGroups

/-- Witness of C15: the armed demonstration vehicle, which holds the values -7
and 5000 and counts one group, re-initialised. -/
theorem motorsInit_reset_witness :
    demoWorld.motorsData.value 1 = 5000 ∧ demoWorld.motorsData.numGroups = 1 ∧
    (motorsInit demoBuild demoWorld).motorsData.value 1 = 0 ∧
    (motorsInit demoBuild (motorsInit demoBuild demoWorld)).motorsData.numGroups
      = (motorsInit demoBuild demoWorld).motorsData.numGroups :=
  ⟨rfl, rfl, (motorsInit_reset demoBuild demoWorld).2.2.1 1,
    (motorsInit_reset demoBuild demoWorld).2.2.2.2.2.2⟩

/-! ## C14: active slots and inactive slots -/

theorem motorsCommands_setup (B : Build) (t pc rc yc : ℚ) (w : World) :
    SameSetup w (motorsCommands B t pc rc yc w) :=
  SameSetup.trans (mixedWorld_setup B t pc rc yc w)
    (motorsSendValues_setup B (mixedWorld B t pc rc yc w))

theorem Runs.setup {B : Build} {w w2 : World} (h : Runs B w w2) : SameSetup w w2 := by
  induction h with
  | refl => exact SameSetup.refl _
  | commands t pc rc yc _ w2 _ ih => exact SameSetup.trans ih (motorsCommands_setup B t pc rc yc w2)
  | sendValues _ w2 _ ih => exact SameSetup.trans ih (motorsSendValues_setup B w2)
  | off _ w2 _ ih => exact SameSetup.trans ih (motorsOff_setup B w2)

theorem World.setValue_comm (w : World) {i j : Nat} (h : j ≠ i) (v x : Int) :
    (w.setValue i v).setValue j x = (w.setValue j x).setValue i v := by
  simp [World.setValue, Function.update_comm h]

/-- An output iteration for another slot does not see the value stored in
slot `i`. -/
theorem outputSlot_setValue (B : Build) (w : World) {i j : Nat} (h : j ≠ i)
    (v x pv cv : Int) :
    outputSlot B (w.setValue i v) j x pv cv = (outputSlot B w j x pv cv).setValue i v := by
  have hb : pwmBound B (w.setValue i v) j = pwmBound B w j := rfl
  simp only [outputSlot, hb]
  have e1 : (w.setValue i v).motorsData.active j = w.motorsData.active j := rfl
  have e2 : (w.setValue i v).motorsData.pwm j = w.motorsData.pwm j := rfl
  have e3 : (w.setValue i v).motorsData.can j = w.motorsData.can j := rfl
  have e4 : (w.setValue i v).motorsData.canPtrs j = w.motorsData.canPtrs j := rfl
  rw [e1, e2, e3, e4, World.setValue_comm w h v x]
  split_ifs
  · split <;> rfl
  · rfl
  · rfl
  · rfl

theorem motorsSendValuesSlot_setValue (B : Build) (w : World) (i j : Nat) (v : Int)
    (hi : w.motorsData.active i = false) :
    motorsSendValuesSlot B (w.setValue i v) j = (motorsSendValuesSlot B w j).setValue i v := by
  rw [motorsSendValuesSlot_eq, motorsSendValuesSlot_eq]
  by_cases h : j = i
  · subst h
    rw [outputSlot_inactive B w j _ _ _ hi, outputSlot_inactive B (w.setValue j v) j _ _ _ hi]
  · have hv : (w.setValue i v).motorsData.value j = w.motorsData.value j := by
      simp [World.setValue, Function.update_noteq h]
    rw [hv, outputSlot_setValue B w h]
    rfl

theorem motorsOffSlot_setValue (B : Build) (w : World) (i j : Nat) (v : Int)
    (hi : w.motorsData.active i = false) :
    motorsOffSlot B (w.setValue i v) j = (motorsOffSlot B w j).setValue i v := by
  rw [motorsOffSlot_eq, motorsOffSlot_eq]
  by_cases h : j = i
  · subst h
    rw [outputSlot_inactive B w j _ _ _ hi, outputSlot_inactive B (w.setValue j v) j _ _ _ hi]
  · rw [outputSlot_setValue B w h]
    rfl

theorem motorsCommandsSlot_setValue (B : Build) (th pc rc yc vf : ℚ) (w : World) (i j : Nat)
    (v : Int) (hi : w.motorsData.active i = false) :
    motorsCommandsSlot B th pc rc yc vf (w.setValue i v) j =
      (motorsCommandsSlot B th pc rc yc vf w j).setValue i v := by
  by_cases h : j = i
  · subst h
    have h2 : (w.setValue j v).motorsData.active j = false := hi
    simp [motorsCommandsSlot, hi, h2]
  · simp only [motorsCommandsSlot]
    have e1 : (w.setValue i v).motorsData.active j = w.motorsData.active j := rfl
    have e2 : (w.setValue i v).motorsData.distribution j = w.motorsData.distribution j := rfl
    rw [e1, e2]
    split_ifs <;> simp [World.setValue, Function.update_comm h]

theorem motorsSendValuesLoop_setValue (B : Build) (n : Nat) (w : World) (i : Nat) (v : Int)
    (hi : w.motorsData.active i = false) :
    motorsSendValuesLoop B n (w.setValue i v) = (motorsSendValuesLoop B n w).setValue i v := by
  induction n with
  | zero => rfl
  | succ n ih =>
    have hs := motorsSendValuesLoop_setup B n w
    unfold motorsSendValuesLoop at ih hs ⊢
    rw [range_foldl_succ, range_foldl_succ, ih,
      motorsSendValuesSlot_setValue B _ i n v (by rw [hs.2.2.2.1]; exact hi)]

theorem motorsOffLoop_setValue (B : Build) (n : Nat) (w : World) (i : Nat) (v : Int)
    (hi : w.motorsData.active i = false) :
    motorsOffLoop B n (w.setValue i v) = (motorsOffLoop B n w).setValue i v := by
  induction n with
  | zero => rfl
  | succ n ih =>
    have hs := motorsOffLoop_setup B n w
    unfold motorsOffLoop at ih hs ⊢
    rw [range_foldl_succ, range_foldl_succ, ih,
      motorsOffSlot_setValue B _ i n v (by rw [hs.2.2.2.1]; exact hi)]

theorem motorsCommandsLoop_setValue (B : Build) (th pc rc yc vf : ℚ) (n : Nat) (w : World)
    (i : Nat) (v : Int) (hi : w.motorsData.active i = false) :
    motorsCommandsLoop B th pc rc yc vf n (w.setValue i v) =
      (motorsCommandsLoop B th pc rc yc vf n w).setValue i v := by
  induction n with
  | zero => rfl
  | succ n ih =>
    have hs := motorsCommandsLoop_setup B th pc rc yc vf n w
    unfold motorsCommandsLoop at ih hs ⊢
    rw [range_foldl_succ, range_foldl_succ, ih,
      motorsCommandsSlot_setValue B th pc rc yc vf _ i n v (by rw [hs.2.2.2.1]; exact hi)]

theorem motorsCanSendGroups_setValue (w : World) (i : Nat) (v : Int) :
    motorsCanSendGroups (w.setValue i v) = (motorsCanSendGroups w).setValue i v := by
  rw [motorsCanSendGroups_eq, motorsCanSendGroups_eq]
  rfl

/-- `motorsSendValues` neither reads nor writes the value stored in an
inactive slot. -/
theorem motorsSendValues_setValue (B : Build) (w : World) (i : Nat) (v : Int)
    (hi : w.motorsData.active i = false) :
    motorsSendValues B (w.setValue i v) = (motorsSendValues B w).setValue i v := by
  rw [motorsSendValues, motorsSendValuesLoop_setValue B _ w i v hi, motorsCanSendGroups_setValue]
  rfl

/-- `motorsOff` neither reads nor writes the value stored in an inactive
slot. -/
theorem motorsOff_setValue (B : Build) (w : World) (i : Nat) (v : Int)
    (hi : w.motorsData.active i = false) :
    motorsOff B (w.setValue i v) = (motorsOff B w).setValue i v := by
  rw [motorsOff, motorsOffLoop_setValue B _ w i v hi, motorsCanSendGroups_setValue]
  rfl

/-- `motorsCommands` neither reads nor writes the value stored in an inactive
slot. -/
theorem motorsCommands_setValue (B : Build) (t pc rc yc : ℚ) (w : World) (i : Nat) (v : Int)
    (hi : w.motorsData.active i = false) :
    motorsCommands B t pc rc yc (w.setValue i v) = (motorsCommands B t pc rc yc w).setValue i v := by
  have hm : mixedWorld B t pc rc yc (w.setValue i v) = (mixedWorld B t pc rc yc w).setValue i v :=
    motorsCommandsLoop_setValue B _ pc rc yc _ _ w i v hi
  have hs := mixedWorld_setup B t pc rc yc w
  have hsend := motorsSendValues_setValue B (mixedWorld B t pc rc yc w) i v
    (by rw [hs.2.2.2.1]; exact hi)
  have h1 : motorsCommands B t pc rc yc (w.setValue i v) =
      { motorsSendValues B (mixedWorld B t pc rc yc (w.setValue i v)) with
        motorsData := { (motorsSendValues B (mixedWorld B t pc rc yc (w.setValue i v))).motorsData with
          throttleLimiter := constrainFloat
            ((motorsSendValues B (mixedWorld B t pc rc yc (w.setValue i v))).motorsData.throttleLimiter
              - B.MOTORS_THROTTLE_LIMITER) 0 (limiterMax B),
          pitch := pc, roll := rc, yaw := yc, throttle := effectiveThrottle B w t } } := rfl
  rw [h1, hm, hsend]
  rfl

/-- C14: after a `motorsInit` that the frame-type test does not abort, and
after any further sequence of `motorsCommands`, `motorsSendValues` and
`motorsOff` calls, for every motor index `i`: slot `i` is active if and only
if one of its four distribution coefficients is not zero; an inactive slot
has no pulse binding, no networked binding and no field pointer; and each of
the three calls neither reads nor writes an inactive slot's stored value (the
call commutes with overwriting that value). -/
theorem motorsInit_active_iff (B : Build) (w w2 : World) (i : Nat)
    (hf : ¬ (1 / 100 < w.p.MOT_FRAME ∧ w.p.MOT_FRAME < 401 / 100))
    (hrun : Runs B (motorsInit B w) w2) (hi : i < B.MOTORS_NUM) :
    w2.motorsData.distribution = w.p.MOT_PWRD ∧
    (w2.motorsData.active i = true ↔
      ((w2.motorsData.distribution i).throttle ≠ 0 ∨ (w2.motorsData.distribution i).pitch ≠ 0 ∨
        (w2.motorsData.distribution i).roll ≠ 0 ∨ (w2.motorsData.distribution i).yaw ≠ 0)) ∧
    (w2.motorsData.active i = false →
      w2.motorsData.pwm i = none ∧ w2.motorsData.can i = none ∧
      w2.motorsData.canPtrs i = none ∧
      ∀ v : Int,
        motorsSendValues B (w2.setValue i v) = (motorsSendValues B w2).setValue i v ∧
        motorsOff B (w2.setValue i v) = (motorsOff B w2).setValue i v ∧
        ∀ t pc rc yc : ℚ,
          motorsCommands B t pc rc yc (w2.setValue i v)
            = (motorsCommands B t pc rc yc w2).setValue i v) := by
  have hnot : ¬ frameRejected w.p := hf
  have hinit := motorsInit_initialised B w hnot
  have hs := hrun.setup
  have hd : w2.motorsData.distribution = w.p.MOT_PWRD := by
    rw [hs.2.2.2.2.2.2.2.2]
    exact hinit.distribution
  have hact : w2.motorsData.active i = decide (i < B.MOTORS_NUM ∧ rowNonzero (w.p.MOT_PWRD i)) := by
    rw [hs.2.2.2.1]
    exact hinit.active i
  refine ⟨hd, ?_, ?_⟩
  · rw [hact, hd]
    simp [hi, rowNonzero]
  · intro hina
    have hrow : ¬ rowNonzero (w.p.MOT_PWRD i) := by
      rw [hact] at hina
      simpa [hi] using hina
    have hcan : w2.motorsData.can i = none := by
      rw [hs.2.2.2.2.2.1, hinit.can i, if_neg]
      exact fun h => hrow h.2.1
    refine ⟨?_, hcan, ?_, ?_⟩
    · rw [hs.2.2.2.2.1, hinit.pwm i, if_neg]
      exact fun h => hrow h.2.1
    · rw [hs.2.2.2.2.2.2.1, hinit.canPtrs i, if_neg]
      rw [hs.2.2.2.2.2.1] at hcan
      simp [hcan]
    · intro v
      exact ⟨motorsSendValues_setValue B w2 i v hina, motorsOff_setValue B w2 i v hina,
        fun t pc rc yc => motorsCommands_setValue B t pc rc yc w2 i v hina⟩

/-- Witness of C14: the demonstration vehicle initialised, then a command
cycle and a stop; slot 5 has an all-zero distribution row. -/
theorem motorsInit_active_iff_witness :
    ¬ (1 / 100 < demoWorld.p.MOT_FRAME ∧ demoWorld.p.MOT_FRAME < 401 / 100) ∧
    5 < demoBuild.MOTORS_NUM ∧
    ((motorsOff demoBuild (motorsCommands demoBuild 3000 2000 0 0
        (motorsInit demoBuild demoWorld))).motorsData.active 5 = true ↔
      ((demoPwrd 5).throttle ≠ 0 ∨ (demoPwrd 5).pitch ≠ 0 ∨ (demoPwrd 5).roll ≠ 0 ∨
        (demoPwrd 5).yaw ≠ 0)) := by
  have hf : ¬ (1 / 100 < demoWorld.p.MOT_FRAME ∧ demoWorld.p.MOT_FRAME < 401 / 100) := by
    norm_num [demoWorld, demoConfig]
  have h := motorsInit_active_iff demoBuild demoWorld
    (motorsOff demoBuild (motorsCommands demoBuild 3000 2000 0 0 (motorsInit demoBuild demoWorld)))
    5 hf
    (Runs.off _ _ (Runs.commands 3000 2000 0 0 _ _ (Runs.refl (motorsInit demoBuild demoWorld))))
    (by decide)
  have hd := h.1
  have h2 := h.2.1
  rw [hd] at h2
  exact ⟨hf, by decide, h2⟩

/-! ## C16: a networked node that cannot be resolved -/

theorem outputSlot_unbound (B : Build) (w : World) (i : Nat) (v pv cv : Int)
    (hp : w.motorsData.pwm i = none) (hc : w.motorsData.can i = none) :
    (outputSlot B w i v pv cv).ccr = w.ccr ∧
    (outputSlot B w i v pv cv).motorsData.canGroups = w.motorsData.canGroups ∧
    (outputSlot B w i v pv cv).canLog = w.canLog := by
  have hb : ¬ pwmBound B w i = true := by simp [pwmBound, hp]
  have hc2 : ¬ (w.motorsData.can i).isSome = true := by simp [hc]
  unfold outputSlot
  rw [if_neg hb, if_neg hc2]
  split_ifs <;> simp [World.setValue]

theorem canSelected_congr {p p2 : Config} (h : p2.MOT_CAN = p.MOT_CAN) (i : Nat) :
    canSelected p2 i = canSelected p i := by
  simp [canSelected, h]

/-- C16: when slot `i` has a non-zero distribution row, its bit is set in the
networked-bus bitmap and node id `i + 1` cannot be resolved, a `motorsInit`
that is not aborted leaves slot `i` active with no networked binding, no
pulse binding (whether or not `i < PWM_NUM_PORTS`) and no field pointer; the
count of networked slots does not move at `i`; the bindings, field pointers
and group count of all slots, and the active flags of the other slots, are
those of an initialisation in which row `i` is all-zero; and in every later
state the iterations of `motorsSendValues` and `motorsOff` for slot `i` write
no register, no group field and no frame. -/
theorem motorsInit_bind_failure (B : Build) (w : World) (i : Nat)
    (hf : ¬ (1 / 100 < w.p.MOT_FRAME ∧ w.p.MOT_FRAME < 401 / 100)) (hi : i < B.MOTORS_NUM)
    (hrow : (w.p.MOT_PWRD i).throttle ≠ 0 ∨ (w.p.MOT_PWRD i).pitch ≠ 0 ∨
      (w.p.MOT_PWRD i).roll ≠ 0 ∨ (w.p.MOT_PWRD i).yaw ≠ 0)
    (hbit : canSelected w.p i = true) (hnode : w.canFindNode (i + 1) = none) :
    (motorsInit B w).motorsData.active i = true ∧
    (motorsInit B w).motorsData.can i = none ∧
    (motorsInit B w).motorsData.pwm i = none ∧
    (motorsInit B w).motorsData.canPtrs i = none ∧
    canCount (motorsInit B w) (i + 1) = canCount (motorsInit B w) i ∧
    (∀ w0 : World,
      w0.p = { w.p with MOT_PWRD := Function.update w.p.MOT_PWRD i zeroRow } →
      w0.canFindNode = w.canFindNode → w0.pwmInitOut = w.pwmInitOut →
      (motorsInit B w0).motorsData.pwm = (motorsInit B w).motorsData.pwm ∧
      (motorsInit B w0).motorsData.can = (motorsInit B w).motorsData.can ∧
      (motorsInit B w0).motorsData.canPtrs = (motorsInit B w).motorsData.canPtrs ∧
      (motorsInit B w0).motorsData.numGroups = (motorsInit B w).motorsData.numGroups ∧
      (motorsInit B w0).motorsData.active i = false ∧
      ∀ j, j ≠ i →
        (motorsInit B w0).motorsData.active j = (motorsInit B w).motorsData.active j) ∧
    (∀ w2 : World, SameSetup (motorsInit B w) w2 →
      (motorsSendValuesSlot B w2 i).ccr = w2.ccr ∧
      (motorsSendValuesSlot B w2 i).motorsData.canGroups = w2.motorsData.canGroups ∧
      (motorsSendValuesSlot B w2 i).canLog = w2.canLog ∧
      (motorsOffSlot B w2 i).ccr = w2.ccr ∧
      (motorsOffSlot B w2 i).motorsData.canGroups = w2.motorsData.canGroups ∧
      (motorsOffSlot B w2 i).canLog = w2.canLog) := by
  have hnot : ¬ frameRejected w.p := hf
  have hrow2 : rowNonzero (w.p.MOT_PWRD i) := hrow
  have hinit := motorsInit_initialised B w hnot
  have hcan : (motorsInit B w).motorsData.can i = none := by
    rw [hinit.can i]
    split_ifs
    · exact hnode
    · rfl
  have hpwm : (motorsInit B w).motorsData.pwm i = none := by
    rw [hinit.pwm i, if_neg]
    intro h
    rw [hbit] at h
    exact absurd h.2.2.1 (by decide)
  refine ⟨?_, hcan, hpwm, ?_, ?_, ?_, ?_⟩
  · rw [hinit.active i]
    simp [hi, hrow2]
  · rw [hinit.canPtrs i, if_neg]
    simp [hcan]
  · rw [canCount_succ, hcan]
    simp
  · intro w0 hp0 hcf0 hpo0
    have hnot0 : ¬ frameRejected w0.p := by
      rw [hp0]
      exact hnot
    have hinit0 := motorsInit_initialised B w0 hnot0
    have hsel : ∀ j, canSelected w0.p j = canSelected w.p j :=
      canSelected_congr (by rw [hp0])
    have hrowi : ¬ rowNonzero (w0.p.MOT_PWRD i) := by
      rw [hp0]
      simp [rowNonzero, zeroRow]
    have hrowj : ∀ j, j ≠ i → w0.p.MOT_PWRD j = w.p.MOT_PWRD j := by
      intro j hj
      rw [hp0]
      simp [Function.update_noteq hj]
    have hcan0 : (motorsInit B w0).motorsData.can = (motorsInit B w).motorsData.can := by
      funext j
      by_cases hj : j = i
      · subst hj
        rw [hcan, hinit0.can j, if_neg]
        exact fun h => hrowi h.2.1
      · rw [hinit0.can j, hinit.can j, hrowj j hj, hsel j, hcf0]
    refine ⟨?_, hcan0, ?_, ?_, ?_, ?_⟩
    · funext j
      by_cases hj : j = i
      · subst hj
        rw [hpwm, hinit0.pwm j, if_neg]
        exact fun h => hrowi h.2.1
      · rw [hinit0.pwm j, hinit.pwm j, hrowj j hj, hsel j, hpo0]
    · funext j
      rw [hinit0.canPtrs j, hinit.canPtrs j, hcan0, canCount_congr hcan0]
    · rw [hinit0.numGroups, hinit.numGroups, canCount_congr hcan0]
    · rw [hinit0.active i]
      simp [hrowi]
    · intro j hj
      rw [hinit0.active j, hinit.active j, hrowj j hj]
  · intro w2 hs
    have hp2 : w2.motorsData.pwm i = none := by
      rw [hs.2.2.2.2.1]
      exact hpwm
    have hc2 : w2.motorsData.can i = none := by
      rw [hs.2.2.2.2.2.1]
      exact hcan
    rw [motorsSendValuesSlot_eq, motorsOffSlot_eq]
    obtain ⟨a1, a2, a3⟩ := outputSlot_unbound B w2 i
      (constrainInt (w2.motorsData.value i) 0 B.MOTORS_SCALE)
      (sentPwm B w2 (w2.motorsData.value i)) (sentCan B w2 (w2.motorsData.value i)) hp2 hc2
    obtain ⟨b1, b2, b3⟩ := outputSlot_unbound B w2 i 0 (offPwm w2) 0 hp2 hc2
    exact ⟨a1, a2, a3, b1, b2, b3⟩

theorem demoConfig_canSelected : canSelected demoConfig 1 = true := by
  have h : floatToInt (2 : ℚ) = 2 := floatToInt_intCast 2
  simp only [canSelected, demoConfig, h]
  decide

/-- Witness of C16: slot 1 of the demonstration vehicle, whose node 2 is not
found on the bus. -/
theorem motorsInit_bind_failure_witness :
    ¬ (1 / 100 < demoLost.p.MOT_FRAME ∧ demoLost.p.MOT_FRAME < 401 / 100) ∧
    1 < demoBuild.MOTORS_NUM ∧ canSelected demoLost.p 1 = true ∧
    demoLost.canFindNode (1 + 1) = none ∧
    (motorsInit demoBuild demoLost).motorsData.active 1 = true ∧
    (motorsInit demoBuild demoLost).motorsData.can 1 = none ∧
    (motorsInit demoBuild demoLost).motorsData.pwm 1 = none := by
  have hf : ¬ (1 / 100 < demoLost.p.MOT_FRAME ∧ demoLost.p.MOT_FRAME < 401 / 100) := by
    norm_num [demoLost, demoWorld, demoConfig]
  have h := motorsInit_bind_failure demoBuild demoLost 1 hf (by decide)
    (by norm_num [demoLost, demoWorld, demoConfig, demoPwrd]) demoConfig_canSelected rfl
  exact ⟨hf, by decide, demoConfig_canSelected, rfl, h.1, h.2.1, h.2.2.1⟩

/-! ## C19: no two slots share a setpoint field -/

theorem canCount_mono (w : World) {i j : Nat} (h : i ≤ j) : canCount w i ≤ canCount w j := by
  induction j with
  | zero =>
    have : i = 0 := Nat.le_zero.mp h
    rw [this]
  | succ j ih =>
    rcases Nat.lt_or_ge i (j + 1) with hlt | hge
    · have := ih (Nat.lt_succ_iff.mp hlt)
      rw [canCount_succ]
      omega
    · have : i = j + 1 := Nat.le_antisymm h hge
      rw [this]

/-- Networked slots get increasing positions. -/
theorem canCount_lt (w : World) {i j : Nat} (h : i < j)
    (hi : (w.motorsData.can i).isSome = true) : canCount w i < canCount w j := by
  have h1 := canCount_mono w (Nat.succ_le_of_lt h)
  rw [canCount_succ, if_pos hi] at h1
  omega

/-- Every position below the count is the position of some networked slot. -/
theorem canCount_surj (w : World) (n k : Nat) (h : k < canCount w n) :
    ∃ i, i < n ∧ (w.motorsData.can i).isSome = true ∧ canCount w i = k := by
  induction n with
  | zero => simp [canCount] at h
  | succ n ih =>
    rw [canCount_succ] at h
    by_cases hk : k < canCount w n
    · obtain ⟨i, hi, hs, hc⟩ := ih hk
      exact ⟨i, Nat.lt_succ_of_lt hi, hs, hc⟩
    · by_cases hs : (w.motorsData.can n).isSome = true
      · rw [if_pos hs] at h
        exact ⟨n, Nat.lt_succ_self n, hs, by omega⟩
      · rw [if_neg hs] at h
        omega

theorem position_injective {k k2 : Nat} (h : (k / 4, fieldOf k) = (k2 / 4, fieldOf k2)) :
    k = k2 := by
  have h1 : k / 4 = k2 / 4 := congrArg Prod.fst h
  have h2 : (fieldOf k).val = (fieldOf k2).val := congrArg (fun x => (Prod.snd x).val) h
  simp only [fieldOf] at h2
  omega

/-- The field pointers after `motorsSetCanGroup`. -/
theorem motorsSetCanGroup_canPtrs (B : Build) (w : World) (i : Nat) :
    (motorsSetCanGroup B w).motorsData.canPtrs i =
      if i < B.MOTORS_NUM ∧ (w.motorsData.can i).isSome = true then
        some (canCount w i / 4, fieldOf (canCount w i))
      else w.motorsData.canPtrs i :=
  (motorsSetCanGroupLoop_inv w B.MOTORS_NUM).canPtrs i

theorem motorsSetCanGroup_can (B : Build) (w : World) :
    (motorsSetCanGroup B w).motorsData.can = w.motorsData.can :=
  (motorsSetCanGroupLoop_inv w B.MOTORS_NUM).can

/-- C19: after `motorsSetCanGroup`, two distinct slots with resolved
networked nodes point to distinct (group, field) positions; every assigned
group index is below the group count and below `ceil(MOTORS_NUM/4)`; when the
group count started at 0, every group below the count has its first field
assigned; and in every later state the iteration of `motorsSendValues` or
`motorsOff` for any other slot leaves a networked slot's field unchanged. -/
theorem motorsSetCanGroup_distinct (B : Build) (w : World) (j : Nat) (hj : j < B.MOTORS_NUM)
    (hcj : (w.motorsData.can j).isSome = true) :
    ∃ g f, (motorsSetCanGroup B w).motorsData.canPtrs j = some (g, f) ∧
      g < (motorsSetCanGroup B w).motorsData.numGroups ∧ g < (B.MOTORS_NUM + 3) / 4 ∧
      (∀ i, i < B.MOTORS_NUM → i ≠ j → (w.motorsData.can i).isSome = true →
        (motorsSetCanGroup B w).motorsData.canPtrs i ≠ some (g, f)) ∧
      (w.motorsData.numGroups = 0 →
        ∀ g2, g2 < (motorsSetCanGroup B w).motorsData.numGroups →
          ∃ i, i < B.MOTORS_NUM ∧ (w.motorsData.can i).isSome = true ∧
            (motorsSetCanGroup B w).motorsData.canPtrs i = some (g2, 0)) ∧
      (∀ w2 : World, SameSetup (motorsSetCanGroup B w) w2 → ∀ i, i < B.MOTORS_NUM → i ≠ j →
        (motorsSendValuesSlot B w2 i).canField g f = w2.canField g f ∧
        (motorsOffSlot B w2 i).canField g f = w2.canField g f) := by
  have hinv := motorsSetCanGroupLoop_inv w B.MOTORS_NUM
  have hptr : (motorsSetCanGroup B w).motorsData.canPtrs j =
      some (canCount w j / 4, fieldOf (canCount w j)) := by
    rw [motorsSetCanGroup_canPtrs, if_pos ⟨hj, hcj⟩]
  have hng : (motorsSetCanGroup B w).motorsData.numGroups =
      w.motorsData.numGroups + (canCount w B.MOTORS_NUM + 3) / 4 := hinv.numGroups
  have hlt : canCount w j < canCount w B.MOTORS_NUM := canCount_lt w hj hcj
  have hle : canCount w B.MOTORS_NUM ≤ B.MOTORS_NUM := canCount_le w B.MOTORS_NUM
  have hne : ∀ i, i < B.MOTORS_NUM → i ≠ j → (w.motorsData.can i).isSome = true →
      (motorsSetCanGroup B w).motorsData.canPtrs i ≠
        some (canCount w j / 4, fieldOf (canCount w j)) := by
    intro i hi hij hci
    rw [motorsSetCanGroup_canPtrs, if_pos ⟨hi, hci⟩]
    intro h
    have hk := position_injective (Option.some.inj h)
    rcases Nat.lt_or_gt_of_ne hij with h1 | h1
    · have := canCount_lt w h1 hci
      omega
    · have := canCount_lt w h1 hcj
      omega
  refine ⟨canCount w j / 4, fieldOf (canCount w j), hptr, ?_, ?_, hne, ?_, ?_⟩
  · rw [hng]
    omega
  · omega
  · intro hz g2 hg2
    rw [hng, hz, Nat.zero_add] at hg2
    obtain ⟨i, hi, hci, hk⟩ := canCount_surj w B.MOTORS_NUM (4 * g2) (by omega)
    refine ⟨i, hi, hci, ?_⟩
    rw [motorsSetCanGroup_canPtrs, if_pos ⟨hi, hci⟩, hk]
    have h1 : 4 * g2 / 4 = g2 := by omega
    have h2 : fieldOf (4 * g2) = 0 := by
      apply Fin.ext
      simp [fieldOf]
    rw [h1, h2]
  · intro w2 hs i hi hij
    have hnw : ¬ WritesCan B w2 (canCount w j / 4) (fieldOf (canCount w j)) i := by
      rintro ⟨_, hcb, hp⟩
      rw [hs.2.2.2.2.2.2.1] at hp
      have hci : (w.motorsData.can i).isSome = true := by
        simp only [canBound, Bool.and_eq_true] at hcb
        rw [hs.2.2.2.2.2.1, motorsSetCanGroup_can] at hcb
        exact hcb.2
      exact hne i hi hij hci hp
    rw [motorsSendValuesSlot_eq, motorsOffSlot_eq]
    exact ⟨outputSlot_can_other B w2 i _ _ _ _ _ hnw, outputSlot_can_other B w2 i _ _ _ _ _ hnw⟩

/-- Witness of C19: the networked slot 1 of the demonstration vehicle. -/
theorem motorsSetCanGroup_distinct_witness :
    1 < demoBuild.MOTORS_NUM ∧ (demoUngrouped.motorsData.can 1).isSome = true ∧
    ∃ g f, (motorsSetCanGroup demoBuild demoUngrouped).motorsData.canPtrs 1 = some (g, f) ∧
      g < (motorsSetCanGroup demoBuild demoUngrouped).motorsData.numGroups := by
  obtain ⟨g, f, h1, h2, _⟩ := motorsSetCanGroup_distinct demoBuild demoUngrouped 1 (by decide) rfl
  exact ⟨by decide, rfl, g, f, h1, h2⟩

/-! ## C11: four networked motors at half throttle -/

theorem FourNetworked.init {B : Build} {w : World} (h : FourNetworked B w) :
    (∀ i, (motorsInit B w).motorsData.active i = true ↔
      (i < B.MOTORS_NUM ∧ rowNonzero (w.p.MOT_PWRD i))) ∧
    (∀ i, ((motorsInit B w).motorsData.can i).isSome = true ↔
      (i < B.MOTORS_NUM ∧ rowNonzero (w.p.MOT_PWRD i))) ∧
    (∀ i, (motorsInit B w).motorsData.pwm i = none) ∧
    canCount (motorsInit B w) B.MOTORS_NUM = 4 ∧
    (motorsInit B w).motorsData.numGroups = 1 := by
  have hinit := motorsInit_initialised B w h.accepted
  have hact : ∀ i, (motorsInit B w).motorsData.active i = true ↔
      (i < B.MOTORS_NUM ∧ rowNonzero (w.p.MOT_PWRD i)) := by
    intro i
    rw [hinit.active i]
    simp
  have hcan : ∀ i, ((motorsInit B w).motorsData.can i).isSome = true ↔
      (i < B.MOTORS_NUM ∧ rowNonzero (w.p.MOT_PWRD i)) := by
    intro i
    rw [hinit.can i]
    constructor
    · intro hs
      by_cases hc : i < B.MOTORS_NUM ∧ rowNonzero (w.p.MOT_PWRD i) ∧ canSelected w.p i = true
      · exact ⟨hc.1, hc.2.1⟩
      · rw [if_neg hc] at hs
        simp at hs
    · rintro ⟨hi, hr⟩
      rw [if_pos ⟨hi, hr, h.selected i hi hr⟩]
      exact h.resolved i hi hr
  have hcount : canCount (motorsInit B w) B.MOTORS_NUM = 4 := by
    rw [← h.four]
    unfold canCount
    apply List.countP_congr
    intro i hi
    rw [hcan i]
    simp [List.mem_range.mp hi]
  refine ⟨hact, hcan, ?_, hcount, ?_⟩
  · intro i
    rw [hinit.pwm i, if_neg]
    rintro ⟨hi, hr, hsel, _⟩
    rw [h.selected i hi hr] at hsel
    exact absurd hsel (by decide)
  · rw [hinit.numGroups, hcount]

theorem lastRead_append_read (l : List CanCall) (n state id : Nat) :
    lastRead (l ++ [CanCall.getState n state]) id =
      if n = id then some state else lastRead l id := by
  simp [lastRead, List.foldl_append]

theorem motorsArmGroups_fold (l : List Nat) (w : World) :
    l.foldl (fun w i => w.canCall (CanCall.arm (i + 1))) w =
      { w with canLog := w.canLog ++ l.map (fun i => CanCall.arm (i + 1)) } := by
  induction l generalizing w with
  | nil => simp
  | cons a l ih =>
    rw [List.foldl_cons, ih]
    simp [World.canCall]

theorem motorsArmGroups_eq (w : World) :
    motorsArmGroups w = { w with canLog := w.canLog ++ armCalls w } :=
  motorsArmGroups_fold _ w

theorem motorsDisarm_fold (l : List Nat) (w : World) :
    l.foldl (fun w i => w.canCall (CanCall.disarm (i + 1))) w =
      { w with canLog := w.canLog ++ l.map (fun i => CanCall.disarm (i + 1)) } := by
  induction l generalizing w with
  | nil => simp
  | cons a l ih =>
    rw [List.foldl_cons, ih]
    simp [World.canCall]

theorem motorsDisarm_eq (w : World) :
    motorsDisarm w = { w with canLog := w.canLog ++ disarmCalls w } :=
  motorsDisarm_fold _ w

theorem motorsArmWait_succ (E : EscBus) (id fuel clock : Nat) (w : World) :
    motorsArmWait E id (fuel + 1) clock w =
      if E.canGetState clock id = E.ESC32_STATE_DISARMED then
        motorsArmWait E id fuel (clock + 1)
          (w.canCall (CanCall.getState id (E.canGetState clock id)))
      else some (clock, w.canCall (CanCall.getState id (E.canGetState clock id))) := rfl

/-- What a wait loop of `motorsArm` has done when it exits. -/
theorem motorsArmWait_spec (E : EscBus) (id : Nat) (fuel : Nat) :
    ∀ (clock : Nat) (w : World) (c : Nat) (w2 : World),
      motorsArmWait E id fuel clock w = some (c, w2) →
      w2.motorsData = w.motorsData ∧ clock ≤ c ∧
      (∃ polls, w2.canLog = w.canLog ++ polls ∧ ∀ e ∈ polls, isStateRead e) ∧
      (∃ state, lastRead w2.canLog id = some state ∧ state ≠ E.ESC32_STATE_DISARMED) ∧
      (∀ id2, id2 ≠ id → lastRead w2.canLog id2 = lastRead w.canLog id2) := by
  induction fuel with
  | zero =>
    intro clock w c w2 h
    simp [motorsArmWait] at h
  | succ fuel ih =>
    intro clock w c w2 h
    rw [motorsArmWait_succ] at h
    have hlog : (w.canCall (CanCall.getState id (E.canGetState clock id))).canLog =
        w.canLog ++ [CanCall.getState id (E.canGetState clock id)] := rfl
    have hread : isStateRead (CanCall.getState id (E.canGetState clock id)) := ⟨_, _, rfl⟩
    by_cases hd : E.canGetState clock id = E.ESC32_STATE_DISARMED
    · rw [if_pos hd] at h
      obtain ⟨h1, h2, ⟨polls, h3, h4⟩, h5, h6⟩ := ih _ _ _ _ h
      refine ⟨h1, by omega, ⟨CanCall.getState id (E.canGetState clock id) :: polls, ?_, ?_⟩,
        h5, ?_⟩
      · rw [h3, hlog, List.append_assoc]
        rfl
      · intro e he
        rcases List.mem_cons.mp he with he | he
        · rw [he]
          exact hread
        · exact h4 e he
      · intro id2 hne
        rw [h6 id2 hne, hlog, lastRead_append_read, if_neg (Ne.symm hne)]
    · rw [if_neg hd] at h
      have hc : clock = c := congrArg Prod.fst (Option.some.inj h)
      have hw : w.canCall (CanCall.getState id (E.canGetState clock id)) = w2 :=
        congrArg Prod.snd (Option.some.inj h)
      subst hc hw
      refine ⟨rfl, le_refl _, ⟨[CanCall.getState id (E.canGetState clock id)], hlog, ?_⟩,
        ⟨E.canGetState clock id, ?_, hd⟩, ?_⟩
      · intro e he
        rw [List.mem_singleton.mp he]
        exact hread
      · rw [hlog, lastRead_append_read, if_pos rfl]
      · intro id2 hne
        rw [hlog, lastRead_append_read, if_neg (Ne.symm hne)]

/-- A wait loop exits, without yielding after time `T`, when the node is not
disarmed from time `T` on and the reads suffice to reach `T`. -/
theorem motorsArmWait_returns (E : EscBus) (id T : Nat)
    (hT : ∀ c, T ≤ c → E.canGetState c id ≠ E.ESC32_STATE_DISARMED) (fuel : Nat) :
    ∀ (clock : Nat) (w : World), 0 < fuel → T < clock + fuel →
      ∃ c w2, motorsArmWait E id fuel clock w = some (c, w2) ∧ c ≤ max clock T := by
  induction fuel with
  | zero =>
    intro clock w h0 _
    exact absurd h0 (Nat.lt_irrefl 0)
  | succ fuel ih =>
    intro clock w _ hlt
    rw [motorsArmWait_succ]
    by_cases hd : E.canGetState clock id = E.ESC32_STATE_DISARMED
    · rw [if_pos hd]
      have hc : clock < T := by
        by_contra hge
        exact hT clock (Nat.le_of_not_lt hge) hd
      obtain ⟨c, w2, h1, h2⟩ := ih (clock + 1)
        (w.canCall (CanCall.getState id (E.canGetState clock id))) (by omega) (by omega)
      refine ⟨c, w2, h1, ?_⟩
      have : max (clock + 1) T = T := max_eq_right (by omega)
      rw [this] at h2
      exact le_trans h2 (le_max_right _ _)
    · rw [if_neg hd]
      exact ⟨clock, _, rfl, le_max_left _ _⟩

theorem motorsArmLoop_succ (E : EscBus) (fuel n : Nat) (w : World) :
    motorsArmLoop E fuel (n + 1) w = motorsArmSlot E fuel (motorsArmLoop E fuel n w) n := by
  unfold motorsArmLoop
  rw [range_foldl_succ]

theorem motorsArmLoop_inv (E : EscBus) (fuel : Nat) (w : World) (n : Nat) :
    ∀ (c : Nat) (w2 : World), motorsArmLoop E fuel n w = some (c, w2) → ArmInv E w n c w2 := by
  induction n with
  | zero =>
    intro c w2 h
    have h0 : motorsArmLoop E fuel 0 w = some (0, motorsArmGroups w) := rfl
    rw [h0] at h
    have hw : motorsArmGroups w = w2 := congrArg Prod.snd (Option.some.inj h)
    rw [← hw, motorsArmGroups_eq]
    exact ⟨rfl, ⟨[], by simp, by simp⟩, fun i node hi => absurd hi (Nat.not_lt_zero i)⟩
  | succ n ih =>
    intro c w2 h
    rw [motorsArmLoop_succ] at h
    cases hprev : motorsArmLoop E fuel n w with
    | none =>
      rw [hprev] at h
      simp [motorsArmSlot] at h
    | some cw =>
      obtain ⟨c1, w1⟩ := cw
      have hinv := ih c1 w1 hprev
      rw [hprev] at h
      simp only [motorsArmSlot] at h
      have hcan : w1.motorsData.can n = w.motorsData.can n := by rw [hinv.motorsData]
      cases hn : w.motorsData.can n with
      | none =>
        rw [hcan, hn] at h
        simp only [] at h
        have hc : c1 = c := congrArg Prod.fst (Option.some.inj h)
        have hw : w1 = w2 := congrArg Prod.snd (Option.some.inj h)
        subst hc hw
        refine ⟨hinv.motorsData, hinv.log, ?_⟩
        intro i node hi hci
        rcases Nat.lt_succ_iff_lt_or_eq.mp hi with hlt | heq
        · exact hinv.read i node hlt hci
        · rw [heq, hn] at hci
          exact absurd hci (by simp)
      | some node =>
        rw [hcan, hn] at h
        simp only [] at h
        obtain ⟨h1, _, ⟨polls2, h3, h4⟩, h5, h6⟩ := motorsArmWait_spec E node.nodeId fuel _ _ _ _ h
        obtain ⟨polls1, hl1, hl2⟩ := hinv.log
        refine ⟨h1.trans hinv.motorsData, ⟨polls1 ++ polls2, ?_, ?_⟩, ?_⟩
        · rw [h3, hl1, List.append_assoc]
        · intro e he
          rcases List.mem_append.mp he with he | he
          · exact hl2 e he
          · exact h4 e he
        · intro i node2 hi hci
          by_cases hid : node2.nodeId = node.nodeId
          · rw [hid]
            exact h5
          · rw [h6 node2.nodeId hid]
            rcases Nat.lt_succ_iff_lt_or_eq.mp hi with hlt | heq
            · exact hinv.read i node2 hlt hci
            · rw [heq, hn] at hci
              have : node = node2 := Option.some.inj hci
              exact absurd (by rw [this]) hid

/-- The second loop of `motorsArm` comes to its end, having yielded at most
`T` times, when no node is disarmed from time `T` on and every wait loop has
more than `T` reads. -/
theorem motorsArmLoop_returns (E : EscBus) (T : Nat)
    (hT : ∀ c, T ≤ c → ∀ id, E.canGetState c id ≠ E.ESC32_STATE_DISARMED) (fuel : Nat)
    (hfuel : T < fuel) (w : World) (n : Nat) :
    ∃ c w2, motorsArmLoop E fuel n w = some (c, w2) ∧ c ≤ T := by
  induction n with
  | zero => exact ⟨0, motorsArmGroups w, rfl, Nat.zero_le T⟩
  | succ n ih =>
    obtain ⟨c1, w1, h1, h2⟩ := ih
    rw [motorsArmLoop_succ, h1]
    simp only [motorsArmSlot]
    cases w1.motorsData.can n with
    | none => exact ⟨c1, w1, rfl, h2⟩
    | some node =>
      simp only []
      obtain ⟨c, w2, h3, h4⟩ := motorsArmWait_returns E node.nodeId T
        (fun c hc => hT c hc node.nodeId) fuel c1 w1 (by omega) (by omega)
      exact ⟨c, w2, h3, le_trans h4 (max_le h2 (le_refl T))⟩

/-- The second loop of `motorsArm` does not yield when every networked node it
meets already reports a state other than disarmed. -/
theorem motorsArmLoop_ready (E : EscBus) (fuel : Nat) (hfuel : 0 < fuel) (w : World) (n : Nat)
    (h : ∀ i node, i < n → w.motorsData.can i = some node →
      E.canGetState 0 node.nodeId ≠ E.ESC32_STATE_DISARMED) :
    ∃ w2, motorsArmLoop E fuel n w = some (0, w2) ∧ w2.motorsData = w.motorsData := by
  induction n with
  | zero =>
    refine ⟨motorsArmGroups w, rfl, ?_⟩
    rw [motorsArmGroups_eq]
  | succ n ih =>
    obtain ⟨w1, h1, h2⟩ := ih (fun i node hi => h i node (Nat.lt_succ_of_lt hi))
    rw [motorsArmLoop_succ, h1]
    simp only [motorsArmSlot]
    cases hn : w.motorsData.can n with
    | none =>
      rw [h2, hn]
      exact ⟨w1, rfl, h2⟩
    | some node =>
      rw [h2, hn]
      simp only []
      obtain ⟨k, hk⟩ := Nat.exists_eq_succ_of_ne_zero (Nat.pos_iff_ne_zero.mp hfuel)
      rw [hk, motorsArmWait_succ, if_neg (h n node (Nat.lt_succ_self n) hn)]
      exact ⟨_, rfl, h2⟩

/-- C17: `motorsArm` sends one group-scoped arm command to each group id
1..group count, in increasing order, before any state read; whenever it
returns, the last state read from the node of every networked-bound slot was
not the disarmed state; when every networked node already reports a state
other than disarmed it returns without yielding; and it returns whenever no
node stays disarmed for ever (each wait loop being given enough reads).
`motorsDisarm` sends one group-scoped disarm command to each group id
1..group count and does nothing else: no state read, no yield. -/
theorem arm_handshake (B : Build) (E : EscBus) (w : World) :
    (∀ fuel c w2, motorsArm B E fuel w = some (c, w2) →
      w2.motorsData = w.motorsData ∧
      (∃ polls, w2.canLog = w.canLog ++ armCalls w ++ polls ∧ ∀ e ∈ polls, isStateRead e) ∧
      ∀ i node, i < B.MOTORS_NUM → w.motorsData.can i = some node →
        ∃ state, lastRead w2.canLog node.nodeId = some state ∧
          state ≠ E.ESC32_STATE_DISARMED) ∧
    ((∀ i node, i < B.MOTORS_NUM → w.motorsData.can i = some node →
        E.canGetState 0 node.nodeId ≠ E.ESC32_STATE_DISARMED) →
      ∀ fuel, 0 < fuel → ∃ w2, motorsArm B E fuel w = some (0, w2)) ∧
    (∀ T, (∀ c, T ≤ c → ∀ id, E.canGetState c id ≠ E.ESC32_STATE_DISARMED) →
      ∀ fuel, T < fuel → ∃ c w2, motorsArm B E fuel w = some (c, w2) ∧ c ≤ T) ∧
    armCalls w = (List.range w.motorsData.numGroups).map (fun i => CanCall.arm (i + 1)) ∧
    motorsDisarm w = { w with canLog := w.canLog ++ disarmCalls w } ∧
    disarmCalls w = (List.range w.motorsData.numGroups).map (fun i => CanCall.disarm (i + 1)) := by
  refine ⟨?_, ?_, ?_, rfl, motorsDisarm_eq w, rfl⟩
  · intro fuel c w2 h
    have hinv := motorsArmLoop_inv E fuel w B.MOTORS_NUM c w2 h
    exact ⟨hinv.motorsData, hinv.log, hinv.read⟩
  · intro hready fuel hfuel
    obtain ⟨w2, h2, _⟩ := motorsArmLoop_ready E fuel hfuel w B.MOTORS_NUM hready
    exact ⟨w2, h2⟩
  · intro T hT fuel hfuel
    exact motorsArmLoop_returns E T hT fuel hfuel w B.MOTORS_NUM

/-- Witness of C17: the demonstration vehicle on a bus whose nodes arm after
two yields; three reads per wait loop are enough, and the last state read
from node 2, the node of slot 1, is not the disarmed state. -/
theorem arm_handshake_witness :
    (∀ c, 2 ≤ c → ∀ id, demoBus.canGetState c id ≠ demoBus.ESC32_STATE_DISARMED) ∧
    ∃ c w2, motorsArm demoBuild demoBus 3 demoWorld = some (c, w2) ∧ c ≤ 2 ∧
      ∃ state, lastRead w2.canLog 2 = some state ∧ state ≠ demoBus.ESC32_STATE_DISARMED := by
  have hT : ∀ c, 2 ≤ c → ∀ id, demoBus.canGetState c id ≠ demoBus.ESC32_STATE_DISARMED := by
    intro c hc id
    have h2 : ¬ c < 2 := by omega
    simp [demoBus, h2]
  obtain ⟨hret, _, hlive, _⟩ := arm_handshake demoBuild demoBus demoWorld
  obtain ⟨c, w2, h1, h2⟩ := hlive 2 hT 3 (by decide)
  exact ⟨hT, c, w2, h1, h2, (hret 3 c w2 h1).2.2 1 { nodeId := 2 } (by decide) rfl⟩

end Motors
